import Mathlib

/-!
# HTTPS file download (`https_download.c`): embedding and verification

The development follows the C sources: `https_parse_url`, `https_parse_response`,
`https_read_socket` and `https_download`.

Conventions of the embedding.

* A byte is a `Nat` (values below 256); a C string is the list of its bytes without the
  terminating NUL.
* The receive buffer `alloc` is one heap block of `HTTPS_DOWNLOAD_BUF_SIZE` bytes, modelled
  as a list; `response[i]` is a checked read.  A read that leaves the block, a copy that
  leaves the 12-byte `len_buf`, and `atoi` running past `len_buf` are undefined behaviour in
  C; the embedding stops there with a `Fault`.
* `uint32_t` arithmetic that can wrap is written with an explicit `% 2 ^ 32`.
* The TLS library, the heap and the file system are the environment (`Env`): the results of
  the library calls are scripted there.  Logging (`printf`, `SYS_LOG_*`) and delays have no
  effect on the modelled state and are left out, with one exception: in the branch for status
  302 the receive block is printed with `%s` and searched with `strstr`, which read it as a C
  string; a block without a zero byte makes them leave the block, a `Fault`.
* Loops that wait for the peer are given an iteration bound computed from the script
  (`script_size`); the bound is never reached.
* The acquisitions and releases of a call (heap blocks, output file, mbedTLS contexts) are
  listed in order by `https_download_ops`, which follows the same control flow.
-/

set_option maxRecDepth 100000

deriving instance DecidableEq for Except

namespace HttpsDownload

/-! ## Constants -/

def HTTPS_DOWNLOAD_BUF_SIZE : Nat := 512
def HTTPS_HEADER_BAK_LEN : Nat := 32
def HTTPS_MAX_HOST_LEN : Nat := 256
def HTTPS_MAX_RESOURCE_LEN : Nat := 2048

/-- The modulus of `uint32_t`. -/
def U32 : Nat := 2 ^ 32

/-- Bytes of a string literal. -/
def str (s : String) : List Nat := s.toList.map Char.toNat

/-- Ways a run leaves the behaviour the C standard defines, or never returns. -/
inductive Fault where
  /-- a read of the receive buffer at an offset outside the allocated block -/
  | buffer_read (offset : Int)
  /-- `memcpy` of `n > 12` bytes into `len_buf[12]` -/
  | len_buf_write (n : Nat)
  /-- `atoi` reads past the end of `len_buf[12]` (no terminating byte inside it) -/
  | len_buf_read
  /-- the header loop is entered with `parse_status == 2`, which no branch handles: it
  runs for ever -/
  | header_loop_spins
  /-- the iteration bound of the embedding was too small (shown not to happen) -/
  | out_of_fuel
deriving DecidableEq, Repr

/-- The struct `https_response_result_t`.  `body` is the offset of the pointer into the
receive buffer (`none` is NULL), `header_bak` the heap block of carry bytes. -/
structure https_response_result_t where
  status_code : Nat
  header_len : Nat
  body : Option Nat
  body_len : Nat
  header_bak : Option (List Nat)
  parse_status : Nat
deriving DecidableEq, Repr

/-- The zeroed struct (`= {0}` and `memset(&rsp_result, 0, ...)`). -/
def https_response_result_t.zero : https_response_result_t :=
  { status_code := 0, header_len := 0, body := none, body_len := 0,
    header_bak := none, parse_status := 0 }

/-! ## libc helpers -/

def isspace (c : Nat) : Bool := c = 32 || (9 ≤ c && c ≤ 13)

def isdigit (c : Nat) : Bool := 48 ≤ c && c ≤ 57

/-- The digit loop of `atoi`: stops at the first byte that is not a digit (the end of the
list is the terminating NUL). -/
def atoi_digits : List Nat → Nat → Nat
  | [], acc => acc
  | c :: cs, acc => if isdigit c then atoi_digits cs (acc * 10 + (c - 48)) else acc

/-- After the white space: an optional sign, then digits. -/
def atoi_signed : List Nat → Int
  | [] => 0
  | c :: cs =>
    if c = 45 then - (atoi_digits cs 0 : Int)
    else if c = 43 then (atoi_digits cs 0 : Int)
    else (atoi_digits (c :: cs) 0 : Int)

/-- The libc `atoi` on the bytes of a C string: leading white space, optional sign, decimal
digits.  The mathematical value is returned; the callers store it into an unsigned field
and reduce it there (glibc computes `strtol` and truncates). -/
def atoi : List Nat → Int
  | [] => 0
  | c :: cs => if isspace c then atoi cs else atoi_signed (c :: cs)

/-- Whether `atoi` stops inside the given bytes, that is, meets a byte at which the
conversion ends before the list does. -/
def atoi_stops_digits : List Nat → Bool
  | [] => false
  | c :: cs => if isdigit c then atoi_stops_digits cs else true

def atoi_stops_signed : List Nat → Bool
  | [] => false
  | c :: cs => if c = 45 || c = 43 then atoi_stops_digits cs else atoi_stops_digits (c :: cs)

def atoi_stops : List Nat → Bool
  | [] => false
  | c :: cs => if isspace c then atoi_stops cs else atoi_stops_signed (c :: cs)

/-- Conversion of an `int` to `uint32_t`. -/
def to_u32 (v : Int) : Nat := (v % (U32 : Int)).toNat

/-- Conversion of an `int` to `uint16_t`. -/
def to_u16 (v : Int) : Nat := (v % (65536 : Int)).toNat

/-- The libc `strstr`: offset of the first occurrence of `needle` in `hay`. -/
def strstr : List Nat → List Nat → Option Nat
  | [], needle => if needle = [] then some 0 else none
  | c :: cs, needle =>
    if needle.isPrefixOf (c :: cs) then some 0
    else (strstr cs needle).map (· + 1)

/-! ## The receive buffer -/

/-- The checked read `response[i]`. -/
def rd (response : List Nat) (i : Nat) : Except Fault Nat :=
  match response[i]? with
  | some b => .ok b
  | none => .error (.buffer_read i)

/-- The test `response[i] == '\r' && response[i+1] == '\n'`, with the short circuit of `&&`. -/
def at_crlf (response : List Nat) (i : Nat) : Except Fault Bool :=
  match rd response i with
  | .error f => .error f
  | .ok a =>
    if a = 13 then
      match rd response (i + 1) with
      | .error f => .error f
      | .ok b => .ok (b == 10)
    else .ok false

/-- The test `response[i] == '\r' && response[i+1] == '\n' && response[i+2] == '\r' &&
response[i+3] == '\n'`, with the short circuit of `&&`. -/
def at_header_end (response : List Nat) (i : Nat) : Except Fault Bool :=
  match at_crlf response i with
  | .error f => .error f
  | .ok true => at_crlf response (i + 2)
  | .ok false => .ok false

/-- The test `!memcmp(response + p, name, strlen(name))`.  The comparison is decided at the
first differing byte; at the call site `response[q]` is `'\r'` with `p ≤ q`, which no header
name contains, so the deciding byte lies inside the buffer. -/
def memcmp_eq (response : List Nat) (p : Nat) (name : List Nat) : Bool :=
  (response.drop p).take name.length == name

/-- The bytes `memcpy(header_bak, response + response_len - HTTPS_HEADER_BAK_LEN,
HTTPS_HEADER_BAK_LEN)` reads: the 32 bytes that end at `response_len`.  The source starts
before the buffer when `response_len < 32`. -/
def carry_bytes (response : List Nat) (response_len : Nat) : Except Fault (List Nat) :=
  if response_len < HTTPS_HEADER_BAK_LEN then
    .error (.buffer_read ((response_len : Int) - (HTTPS_HEADER_BAK_LEN : Int)))
  else if response.length < response_len then
    .error (.buffer_read (response.length : Int))
  else .ok ((response.drop (response_len - HTTPS_HEADER_BAK_LEN)).take HTTPS_HEADER_BAK_LEN)

/-- The block `result->header_bak = sys_malloc(33); if (result->header_bak) { memset; memcpy }`.
`bak_ok` is whether `sys_malloc` returns a block. -/
def save_header_bak (bak_ok : Bool) (response : List Nat) (response_len : Nat)
    (result : https_response_result_t) : Except Fault https_response_result_t :=
  if bak_ok then
    match carry_bytes response response_len with
    | .error f => .error f
    | .ok c => .ok { result with header_bak := some c }
  else .ok { result with header_bak := none }

/-! ## `https_parse_response` -/

/-- The loop of the status phase: the positions `p`, `q` of the first two spaces (`0` when
not found).  `k` is the number of iterations left, `response_len - i`. -/
def scan_spaces (response : List Nat) : Nat → Nat → Nat → Nat → Except Fault (Nat × Nat)
  | 0, _, p, _ => .ok (p, 0)
  | k + 1, i, p, m =>
    match rd response i with
    | .error f => .error f
    | .ok c =>
      if c = 32 then
        if m + 1 = 1 then scan_spaces response k (i + 1) i (m + 1)
        else if m + 1 = 2 then .ok (p, i)
        else scan_spaces response k (i + 1) p (m + 1)
      else scan_spaces response k (i + 1) p m

/-- The loop `while (j1 < q && (response[j1] == ':' || response[j1] == ' ')) ++j1;`. -/
def skip_colon_space (response : List Nat) (q : Nat) : Nat → Nat → Except Fault Nat
  | 0, j1 => .ok j1
  | k + 1, j1 =>
    if j1 < q then
      match rd response j1 with
      | .error f => .error f
      | .ok c => if c = 58 ∨ c = 32 then skip_colon_space response q k (j1 + 1) else .ok j1
    else .ok j1

/-- The loop `while (j2 > j1 && response[j2] == ' ') --j2;`. -/
def trim_trailing_space (response : List Nat) (j1 : Nat) : Nat → Nat → Except Fault Nat
  | 0, j2 => .ok j2
  | k + 1, j2 =>
    if j2 > j1 then
      match rd response j2 with
      | .error f => .error f
      | .ok c => if c = 32 then trim_trailing_space response j1 k (j2 - 1) else .ok j2
    else .ok j2

/-- The copy `memcpy(len_buf, response + j1, j2 - j1 + 1)` into the zeroed `len_buf[12]`
and `atoi(len_buf)`, stored into the `uint32_t` field `body_len`. -/
def convert_length (response : List Nat) (j1 j2 : Nat) : Except Fault Nat :=
  if 12 < (j2 + U32 - j1 + 1) % U32 then .error (.len_buf_write ((j2 + U32 - j1 + 1) % U32))
  else if (j2 + U32 - j1 + 1) % U32 = 12 ∧
      atoi_stops ((response.drop j1).take 12) = false then .error .len_buf_read
  else .ok (to_u32 (atoi ((response.drop j1).take ((j2 + U32 - j1 + 1) % U32))))

/-- The body of the `memcmp` branch: trims the value of the Content-Length line that starts
at `p` and ends at `q`, copies it into `len_buf[12]` and converts it.  Returns the new
`body_len`. -/
def parse_content_length (response : List Nat) (p q : Nat) : Except Fault Nat :=
  match skip_colon_space response q q (p + 14) with
  | .error f => .error f
  | .ok j1 =>
    match trim_trailing_space response j1 ((q + U32 - 1) % U32) ((q + U32 - 1) % U32) with
    | .error f => .error f
    | .ok j2 => convert_length response j1 j2

/-- The first `if` of the body of the Content-Length loop, at index `i` with line start `p`:
on a line end the line is compared with the two spellings of the header name and, on a
match, converted.  Returns the new `p` and `*result`. -/
def line_end (response : List Nat) (i p : Nat) (result : https_response_result_t) :
    Except Fault (Nat × https_response_result_t) :=
  match at_crlf response i with
  | .error f => .error f
  | .ok false => .ok (p, result)
  | .ok true =>
    if memcmp_eq response p (str "CONTENT-LENGTH") = true ∨
        memcmp_eq response p (str "Content-Length") = true then
      match parse_content_length response p i with
      | .error f => .error f
      | .ok v => .ok (i + 2, { result with body_len := v, parse_status := 2 })
    else .ok (i + 2, result)

/-- The `for` loop of the Content-Length phase.  `k` is the number of iterations left,
`i` the index, `p` the start of the current line.  The Boolean of the result is `true` when
the loop left the function through `return -1`. -/
def scan_headers (response : List Nat) :
    Nat → Nat → Nat → https_response_result_t → Except Fault (Bool × https_response_result_t)
  | 0, _, _, result => .ok (false, result)
  | k + 1, i, p, result =>
    match line_end response i p result with
    | .error f => .error f
    | .ok (p1, r1) =>
      match at_header_end response i with
      | .error f => .error f
      | .ok true =>
        if r1.parse_status = 2 then
          .ok (false, { r1 with parse_status := 4, header_len := i + 4, body := some (i + 4) })
        else .ok (true, r1)
      | .ok false => scan_headers response k (i + 1) p1 r1

/-- The `for` loop of phase 3: looks for the header end only. -/
def scan_header_end (response : List Nat) :
    Nat → Nat → https_response_result_t → Except Fault https_response_result_t
  | 0, _, result => .ok result
  | k + 1, i, result =>
    match at_header_end response i with
    | .error f => .error f
    | .ok true =>
      .ok { result with parse_status := 4, header_len := i + 4, body := some (i + 4) }
    | .ok false => scan_header_end response k (i + 1) result

/-- The status phase (`if (0 == result->parse_status)`).  `none` in the first component
means the function goes on; `some (-1)` is `return -1`.  In the branch for status 302,
`printf("HTTPS response 302:%s \n", response)` and `strstr((char *)response, ...)` read the
receive block as a C string, up to its first zero byte: when the block holds none (a read
that filled it), they read past its end.  Both paths of that branch then return -1. -/
def parse_status_line (response : List Nat) (response_len : Nat)
    (result : https_response_result_t) : Except Fault (Option Int × https_response_result_t) :=
  match scan_spaces response response_len 0 0 0 with
  | .error f => .error f
  | .ok (p, q) =>
    if p = 0 ∨ q = 0 ∨ (q + U32 - p) % U32 ≠ 4 then .ok (some (-1), result)
    else if to_u32 (atoi ((response.drop (p + 1)).take 3)) = 200 then
      .ok (none, { result with status_code := 200, parse_status := 1 })
    else if to_u32 (atoi ((response.drop (p + 1)).take 3)) = 302 then
      if 0 ∈ response then
        .ok (some (-1),
          { result with status_code := to_u32 (atoi ((response.drop (p + 1)).take 3)) })
      else .error (.buffer_read (response.length : Int))
    else
      .ok (some (-1), { result with status_code := to_u32 (atoi ((response.drop (p + 1)).take 3)) })

/-- Phase 3 (`if (3 == result->parse_status)`). -/
def parse_phase3 (bak_ok : Bool) (response : List Nat) (response_len : Nat)
    (result : https_response_result_t) : Except Fault https_response_result_t :=
  match scan_header_end response response_len 0 result with
  | .error f => .error f
  | .ok r =>
    if r.parse_status = 3 then save_header_bak bak_ok response response_len r else .ok r

/-- Phase 1 (`if (1 == result->parse_status)`). -/
def parse_phase1 (bak_ok : Bool) (response : List Nat) (response_len : Nat)
    (result : https_response_result_t) : Except Fault (Option Int × https_response_result_t) :=
  match scan_headers response response_len 0 0 result with
  | .error f => .error f
  | .ok (true, r) => .ok (some (-1), r)
  | .ok (false, r) =>
    if r.parse_status = 1 then
      match save_header_bak bak_ok response response_len r with
      | .error f => .error f
      | .ok r1 => .ok (none, r1)
    else if r.parse_status = 2 then
      match save_header_bak bak_ok response response_len { r with parse_status := 3 } with
      | .error f => .error f
      | .ok r1 => .ok (none, r1)
    else .ok (none, r)

/-- The function `https_parse_response(response, response_len, result)`: the returned `int`
and the updated `*result`.  `bak_ok` is the outcome of the `sys_malloc` of the carry block. -/
def https_parse_response (bak_ok : Bool) (response : List Nat) (response_len : Nat)
    (result : https_response_result_t) : Except Fault (Int × https_response_result_t) :=
  match (if result.parse_status = 0 then parse_status_line response response_len result
         else .ok (none, result)) with
  | .error f => .error f
  | .ok (some v, r0) => .ok (v, r0)
  | .ok (none, r0) =>
    match (if r0.parse_status = 3 then parse_phase3 bak_ok response response_len r0
           else .ok r0) with
    | .error f => .error f
    | .ok r3 =>
      match (if r3.parse_status = 1 then parse_phase1 bak_ok response response_len r3
             else .ok (none, r3)) with
      | .error f => .error f
      | .ok (some v, r1) => .ok (v, r1)
      | .ok (none, r1) => .ok ((r1.parse_status : Int), r1)

/-! ## `https_parse_url` -/

/-- The tail of `https_parse_url` that fills `resource`: everything after the first `'/'`
of `url`.  `none` is `return -1`. -/
def parse_url_resource (url host : List Nat) (port : Nat) :
    Option (List Nat × Nat × List Nat) :=
  match strstr url (str "/") with
  | some k =>
    let resource := url.drop (k + 1)
    if resource.length ≥ HTTPS_MAX_RESOURCE_LEN then none else some (host, port, resource)
  | none => some (host, port, [])

/-- The function `https_parse_url(url, host, &port, resource)`; `url = none` is the NULL
pointer.  `none` is the result `-1`, `some (host, port, resource)` the result `0` with the
three outputs. -/
def https_parse_url (url : Option (List Nat)) : Option (List Nat × Nat × List Nat) :=
  match url with
  | none => none
  | some u0 =>
    let url := if (strstr u0 (str "https://")).isSome then u0.drop 8 else u0
    match strstr url (str ":") with
    | some k =>
      if k ≥ HTTPS_MAX_HOST_LEN then none
      else parse_url_resource url (url.take k) (to_u16 (atoi (url.drop (k + 1))))
    | none =>
      match strstr url (str "/") with
      | some k =>
        if k ≥ HTTPS_MAX_HOST_LEN then none
        else parse_url_resource (url.drop k) (url.take k) 443
      | none => parse_url_resource url [] 443

/-! ## The environment: TLS library, heap, file system -/

/-- One result of `mbedtls_ssl_read`.  `data bs` delivers the bytes `bs` (the return value
is their number, `0` for no bytes); the other constructors are the negative results the code
tells apart, `other` standing for every further error code. -/
inductive SslRead where
  | data (bs : List Nat)
  | want_read
  | want_write
  | peer_close_notify
  | conn_eof
  | other
deriving DecidableEq, Repr

/-- The call `mbedtls_ssl_read(ssl, buf, len)` against the scripted peer: the result and
the script left.  A record longer than `len` is delivered in pieces; once the script is
used up the connection is at its end (`conn_eof`). -/
def mbedtls_ssl_read (script : List SslRead) (len : Nat) : SslRead × List SslRead :=
  match script with
  | [] => (.conn_eof, [])
  | .data bs :: rest =>
    if bs.length ≤ len then (.data bs, rest)
    else (.data (bs.take len), .data (bs.drop len) :: rest)
  | r :: rest => (r, rest)

/-- A bound on the number of `mbedtls_ssl_read` calls a script can serve before it is used
up. -/
def script_size : List SslRead → Nat
  | [] => 0
  | .data bs :: rest => bs.length + 1 + script_size rest
  | _ :: rest => 1 + script_size rest

/-- What `https_download` meets outside its own code. -/
structure Env where
  /-- the argument `url` (`none` is NULL) -/
  url : Option (List Nat)
  /-- `sys_malloc` of the receive buffer returns a block -/
  alloc_ok : Bool
  /-- result of `mbedtls_ctr_drbg_seed` -/
  seed_ret : Int
  /-- result of `mbedtls_net_connect` -/
  connect_ret : Int
  /-- result of `mbedtls_ssl_config_defaults` -/
  config_ret : Int
  /-- result of `mbedtls_ssl_setup` -/
  setup_ret : Int
  /-- result of `mbedtls_ssl_set_hostname` -/
  hostname_ret : Int
  /-- result of the n-th call of `mbedtls_ssl_handshake` (from 0) -/
  handshake_ret : Nat → Int
  /-- `sys_malloc` of the request returns a block -/
  request_ok : Bool
  /-- result of `mbedtls_ssl_write` -/
  write_ret : Int
  /-- `sys_malloc` of the carry block returns a block -/
  bak_ok : Bool
  /-- successive results of `mbedtls_ssl_read` -/
  reads : List SslRead
  /-- `sys_file_open` succeeds -/
  open_ok : Bool
  /-- number of bytes the calls of `fwrite` on the output stream accept before one reports a
  short count.  The stream is buffered: `fwrite` copies into the buffer and reports the full
  count unless a flush it starts fails, so this is the environment's answer, not the room on
  the device at the call. -/
  disk_free : Nat

/-- The open output stream: the bytes `fwrite` has accepted (`content`) and the number of
bytes it still accepts before it reports a short count (`free`).  The bytes accepted are the
content of the file when the buffer of the stream can be flushed; `sys_file_close` drops the
result of `fclose`, so bytes lost by a flush that fails there are not seen by
`https_download`. -/
structure sys_file_t where
  content : List Nat
  free : Nat
deriving DecidableEq, Repr

/-- The function `sys_file_write(file, data, size, &written)` on an open file:
`bytes_written = fwrite(data, 1, size, file->fp)`, `*written = bytes_written`, and the result
is `SYS_FILE_OK` (`true`) when `bytes_written == size`.  The count `fwrite` reports is the
environment's (`free`); the statements below take it to be the full count, which is what the
buffered stream reports while its flushes succeed.  Returns the result, `*written` and the
stream. -/
def sys_file_write (file : sys_file_t) (data : List Nat) : Bool × Nat × sys_file_t :=
  (decide (min data.length file.free = data.length), min data.length file.free,
    { content := file.content ++ data.take (min data.length file.free),
      free := file.free - min data.length file.free })

/-! ## `https_read_socket` -/

/-- The `do ... while (retry_count < max_retries)` loop of `https_read_socket`; `fuel`
bounds the iterations (`max_retries` suffices, every iteration that goes on increments
`retry_count`).  Returns the `int` result, the bytes placed in `receive_buf` and the script
left. -/
def https_read_socket_loop : Nat → Nat → List SslRead → Int × List Nat × List SslRead
  | 0, _, script => (-2, [], script)
  | fuel + 1, retry_count, script =>
    match mbedtls_ssl_read script HTTPS_DOWNLOAD_BUF_SIZE with
    | (.data bs, rest) =>
      if bs.length > 0 then ((bs.length : Int), bs, rest)
      else if retry_count + 1 < 3 then https_read_socket_loop fuel (retry_count + 1) rest
      else (-2, [], rest)
    | (.want_read, rest) =>
      if retry_count + 1 < 3 then https_read_socket_loop fuel (retry_count + 1) rest
      else (-2, [], rest)
    | (.want_write, rest) =>
      if retry_count + 1 < 3 then https_read_socket_loop fuel (retry_count + 1) rest
      else (-2, [], rest)
    | (.peer_close_notify, rest) => (0, [], rest)
    | (.conn_eof, rest) => (0, [], rest)
    | (.other, rest) =>
      if retry_count + 1 < 3 then https_read_socket_loop fuel (retry_count + 1) rest
      else (-2, [], rest)

/-- The function `https_read_socket(ssl, receive_buf, HTTPS_DOWNLOAD_BUF_SIZE)`. -/
def https_read_socket (script : List SslRead) : Int × List Nat × List SslRead :=
  https_read_socket_loop 3 0 script

/-! ## `https_download` -/

/-- The receive buffer after `memset(alloc, 0, ...)`, the optional copy of the carry bytes to
its start and a read of `bs` at offset `off`. -/
def fill_alloc (carry : List Nat) (off : Nat) (bs : List Nat) : List Nat :=
  carry ++ List.replicate (off - carry.length) 0 ++ bs ++
    List.replicate (HTTPS_DOWNLOAD_BUF_SIZE - (off + bs.length)) 0

/-- The variables the header loop hands on: `rsp_result`, `idx`, the receive buffer and
the script left. -/
structure Headers where
  rsp_result : https_response_result_t
  idx : Nat
  alloc : List Nat
  script : List SslRead
deriving DecidableEq, Repr

/-- One pass through the body of the header loop: `next` goes back to the loop test, `exit`
is `goto https_download_exit`, `spin` is a pass with `parse_status == 2`, which no branch
handles and which therefore repeats for ever. -/
inductive HeaderStep where
  | next (h : Headers)
  | exit (rsp_result : https_response_result_t) (script : List SslRead)
  | spin
deriving DecidableEq, Repr

/-- How the header loop ends: `done` leaves the loop with the headers complete; `no_fuel` is
the embedding running out of iterations. -/
inductive HeaderLoop where
  | done (h : Headers)
  | exit (rsp_result : https_response_result_t) (script : List SslRead)
  | spin
  | no_fuel
deriving DecidableEq, Repr

/-- The first 32 bytes of the carry block, copied to the start of `alloc` when the block is
there. -/
def carry_of (rsp_result : https_response_result_t) : List Nat :=
  match rsp_result.header_bak with
  | some bak => bak.take HTTPS_HEADER_BAK_LEN
  | none => []

/-- The call of `https_parse_response` that closes both branches of the loop body, and the
test of its result against `-1`. -/
def header_parse (bak_ok : Bool) (alloc : List Nat) (idx : Nat)
    (rsp_result : https_response_result_t) (rest : List SslRead) : Except Fault HeaderStep :=
  match https_parse_response bak_ok alloc idx rsp_result with
  | .error f => .error f
  | .ok (ret, r) =>
    if ret = -1 then .ok (.exit r rest)
    else .ok (.next { rsp_result := r, idx := idx, alloc := alloc, script := rest })

/-- The body of the loop `while (3 >= rsp_result.parse_status)`. -/
def header_step (bak_ok : Bool) (script : List SslRead) (rsp_result : https_response_result_t) :
    Except Fault HeaderStep :=
  if rsp_result.parse_status = 0 then
    match mbedtls_ssl_read script HTTPS_DOWNLOAD_BUF_SIZE with
    | (.data bs, rest) =>
      if bs.length = 0 then .ok (.exit rsp_result rest)
      else header_parse bak_ok (fill_alloc [] 0 bs) bs.length https_response_result_t.zero rest
    | (_, rest) => .ok (.exit rsp_result rest)
  else if rsp_result.parse_status = 1 ∨ rsp_result.parse_status = 3 then
    match mbedtls_ssl_read script (HTTPS_DOWNLOAD_BUF_SIZE - HTTPS_HEADER_BAK_LEN) with
    | (.data bs, rest) =>
      if bs.length = 0 then .ok (.exit { rsp_result with header_bak := none } rest)
      else header_parse bak_ok (fill_alloc (carry_of rsp_result) HTTPS_HEADER_BAK_LEN bs)
        (bs.length + HTTPS_HEADER_BAK_LEN) { rsp_result with header_bak := none } rest
    | (_, rest) => .ok (.exit { rsp_result with header_bak := none } rest)
  else .ok .spin

/-- The loop `while (3 >= rsp_result.parse_status)` of `https_download`. -/
def header_loop (bak_ok : Bool) : Nat → Headers → Except Fault HeaderLoop
  | 0, _ => .ok .no_fuel
  | fuel + 1, h =>
    if 3 ≥ h.rsp_result.parse_status then
      match header_step bak_ok h.script h.rsp_result with
      | .error f => .error f
      | .ok (.next h1) => header_loop bak_ok fuel h1
      | .ok (.exit r script) => .ok (.exit r script)
      | .ok .spin => .ok .spin
    else .ok (.done h)

/-- State of the streaming loop. -/
structure Transfer where
  file : sys_file_t
  total_written : Nat
  consecutive_failures : Nat
  script : List SslRead
deriving DecidableEq, Repr

/-- The clamp `if (total_written + (uint32_t)read_bytes > rsp_result.body_len) read_bytes =
(int)(rsp_result.body_len - total_written);`: the new `read_bytes`. -/
def clamp (body_len total_written read_bytes : Nat) : Nat :=
  if (total_written + read_bytes) % U32 > body_len then (body_len + U32 - total_written) % U32
  else read_bytes

/-- The part of one iteration of the streaming loop after a successful read of `bs`
(`read_bytes = bs.length > 0`): the counter reset, the clamp, the write and the update of
`total_written`.  The Boolean is `true` when the loop goes on, `false` on `break`. -/
def stream_chunk (body_len : Nat) (t : Transfer) (bs : List Nat) (rest : List SslRead) :
    Bool × Transfer :=
  match sys_file_write t.file (bs.take (clamp body_len t.total_written bs.length)) with
  | (ok, nwrites, file1) =>
    if ok = false ∨ nwrites ≠ clamp body_len t.total_written bs.length then
      (false, { t with file := file1, consecutive_failures := 0, script := rest })
    else
      (true, { file := file1, total_written := (t.total_written + nwrites) % U32,
               consecutive_failures := 0, script := rest })

/-- The loop `while (total_written < rsp_result.body_len)` of `https_download`; `none` is
the embedding running out of iterations. -/
def body_loop (body_len : Nat) : Nat → Transfer → Option Transfer
  | 0, _ => none
  | fuel + 1, t =>
    if t.total_written < body_len then
      match https_read_socket t.script with
      | (read_bytes, bs, rest) =>
        if read_bytes < 0 then
          if t.consecutive_failures + 1 ≥ 5 then
            some { t with consecutive_failures := t.consecutive_failures + 1, script := rest }
          else
            body_loop body_len fuel
              { t with consecutive_failures := t.consecutive_failures + 1, script := rest }
        else if read_bytes = 0 then some { t with script := rest }
        else
          match stream_chunk body_len t bs rest with
          | (true, t1) => body_loop body_len fuel t1
          | (false, t1) => some t1
    else some t

/-- The loop `do { ret = mbedtls_ssl_handshake(&ssl); ... } while (handshake_retry <
max_handshake_retries)`: the final `ret`. -/
def handshake_loop (handshake_ret : Nat → Int) : Nat → Nat → Int
  | 0, _ => -1
  | fuel + 1, handshake_retry =>
    if handshake_ret handshake_retry = 0 then 0
    else if handshake_retry + 1 < 3 then handshake_loop handshake_ret fuel (handshake_retry + 1)
    else handshake_ret handshake_retry

/-- The request `"GET /%s HTTP/1.1\r\nHost: %s\r\n\r\n"`. -/
def request_line (resource host : List Nat) : List Nat :=
  str "GET /" ++ resource ++ str " HTTP/1.1\r\nHost: " ++ host ++ str "\r\n\r\n"

/-- What a call of `https_download` leaves behind. -/
structure Download where
  /-- the value returned -/
  ret : Int
  /-- the output file: `none` when it was not created, else the bytes `fwrite` accepted -/
  file : Option (List Nat)
  /-- the counter `total_written` at return -/
  total_written : Nat
  /-- `rsp_result.body_len` at return -/
  body_len : Nat
  /-- `rsp_result.parse_status` at return -/
  parse_status : Nat
  /-- the request handed to `mbedtls_ssl_write`, if the call was reached -/
  request : Option (List Nat)
  /-- whether `mbedtls_net_connect` was called -/
  connected : Bool
  /-- the results of `mbedtls_ssl_read` not consumed -/
  script : List SslRead
deriving DecidableEq, Repr

/-- A return through `https_download_exit` before the output file is opened. -/
def Download.early (ret : Int) (connected : Bool) (request : Option (List Nat))
    (r : https_response_result_t) (script : List SslRead) : Download :=
  { ret := ret, file := none, total_written := 0, body_len := r.body_len,
    parse_status := r.parse_status, request := request, connected := connected,
    script := script }

/-- The value `writelen = idx - rsp_result.header_len`. -/
def writelen (h : Headers) : Nat := (h.idx + U32 - h.rsp_result.header_len) % U32

/-- The bytes `memmove(alloc, alloc + rsp_result.header_len, writelen)` brings to the front
of the buffer: the body bytes that came with the headers. -/
def first_slice (h : Headers) : List Nat :=
  (h.alloc.drop h.rsp_result.header_len).take (writelen h)

/-- The block `if (writelen > 0) { ... }` on the freshly opened file: the write of the first
slice.  The Boolean is `false` on `goto https_download_exit`. -/
def initial_flush (disk_free : Nat) (h : Headers) : Bool × Transfer :=
  if writelen h > 0 then
    match sys_file_write { content := [], free := disk_free } (first_slice h) with
    | (ok, nwrites, file1) =>
      if ok = false ∨ nwrites ≠ writelen h then
        (false, { file := file1, total_written := 0, consecutive_failures := 0,
                  script := h.script })
      else
        (true, { file := file1, total_written := nwrites % U32, consecutive_failures := 0,
                 script := h.script })
  else
    (true, { file := { content := [], free := disk_free }, total_written := 0,
             consecutive_failures := 0, script := h.script })

/-- The record returned once the output file is open. -/
def Download.late (ret : Int) (request : List Nat) (r : https_response_result_t)
    (t : Transfer) : Download :=
  { ret := ret, file := some t.file.content, total_written := t.total_written,
    body_len := r.body_len, parse_status := r.parse_status, request := some request,
    connected := true, script := t.script }

/-- The part of `https_download` from the test of `body_len` to the return, entered when the
headers are complete; `ret` is the value the variable holds at that point. -/
def download_body (env : Env) (ret : Int) (request : List Nat) (h : Headers) :
    Except Fault Download :=
  if h.rsp_result.body_len = 0 then
    .ok (Download.early ret true (some request) h.rsp_result h.script)
  else if env.open_ok = false then
    .ok (Download.early ret true (some request) h.rsp_result h.script)
  else if h.alloc.length < h.rsp_result.header_len + writelen h then
    .error (.buffer_read (h.alloc.length : Int))
  else
    match initial_flush env.disk_free h with
    | (false, t0) => .ok (Download.late ret request h.rsp_result t0)
    | (true, t0) =>
      match body_loop h.rsp_result.body_len (script_size t0.script + 1) t0 with
      | none => .error .out_of_fuel
      | some t =>
        .ok (Download.late (if t.total_written = h.rsp_result.body_len then 0 else ret)
          request h.rsp_result t)

/-- The part of `https_download` after the request was sent: the header loop, then the body.
`ret` is the value `mbedtls_ssl_write` left in the variable. -/
def download_response (env : Env) (ret : Int) (request : List Nat) : Except Fault Download :=
  match header_loop env.bak_ok (script_size env.reads + 1)
      { rsp_result := https_response_result_t.zero, idx := 0, alloc := [],
        script := env.reads } with
  | .error f => .error f
  | .ok (.done h) => download_body env ret request h
  | .ok (.exit r script) => .ok (Download.early ret true (some request) r script)
  | .ok .spin => .error .header_loop_spins
  | .ok .no_fuel => .error .out_of_fuel

/-- The function `https_download(url, save_path)` run in the environment `env`. -/
def https_download (env : Env) : Except Fault Download :=
  match https_parse_url env.url with
  | none => .ok (Download.early (-1) false none https_response_result_t.zero env.reads)
  | some (host, _port, resource) =>
    if env.alloc_ok = false then
      .ok (Download.early (-1) false none https_response_result_t.zero env.reads)
    else if env.seed_ret ≠ 0 then
      .ok (Download.early env.seed_ret false none https_response_result_t.zero env.reads)
    else if env.connect_ret ≠ 0 then
      .ok (Download.early env.connect_ret true none https_response_result_t.zero env.reads)
    else if env.config_ret ≠ 0 then
      .ok (Download.early env.config_ret true none https_response_result_t.zero env.reads)
    else if env.setup_ret ≠ 0 then
      .ok (Download.early env.setup_ret true none https_response_result_t.zero env.reads)
    else if env.hostname_ret ≠ 0 then
      .ok (Download.early env.hostname_ret true none https_response_result_t.zero env.reads)
    else if handshake_loop env.handshake_ret 3 0 ≠ 0 then
      .ok (Download.early (handshake_loop env.handshake_ret 3 0) true none
        https_response_result_t.zero env.reads)
    else if env.request_ok = false then
      .ok (Download.early (handshake_loop env.handshake_ret 3 0) true none
        https_response_result_t.zero env.reads)
    else if env.write_ret < 0 then
      .ok (Download.early env.write_ret true (some (request_line resource host))
        https_response_result_t.zero env.reads)
    else download_response env env.write_ret (request_line resource host)

/-- The run gets as far as the response: the URL splits, the buffers are allocated, every
set-up call of the TLS library succeeds, the handshake succeeds within its three attempts and
`mbedtls_ssl_write` reports the (positive) number of request bytes it sent. -/
def Env.request_sent (env : Env) : Prop :=
  (https_parse_url env.url).isSome = true ∧ env.alloc_ok = true ∧ env.seed_ret = 0 ∧
  env.connect_ret = 0 ∧ env.config_ret = 0 ∧ env.setup_ret = 0 ∧ env.hostname_ret = 0 ∧
  handshake_loop env.handshake_ret 3 0 = 0 ∧ env.request_ok = true ∧ 0 < env.write_ret

instance (env : Env) : Decidable env.request_sent := by
  unfold Env.request_sent
  infer_instance

/-- An environment in which everything but the peer's answer goes well: the URL
`https://example.com/a.bin`, a first-attempt handshake, the 42 bytes of the request sent,
a writable output file with room for a megabyte.  The answer is the script `reads`. -/
def Env.serving (reads : List SslRead) : Env :=
  { url := some (str "https://example.com/a.bin"), alloc_ok := true, seed_ret := 0,
    connect_ret := 0, config_ret := 0, setup_ret := 0, hostname_ret := 0,
    handshake_ret := fun _ => 0, request_ok := true, write_ret := 42, bak_ok := true,
    reads := reads, open_ok := true, disk_free := 1048576 }

/-! ## Vocabulary of the statements -/

/-- The digits of `n` in front of `acc`; `fuel` bounds the number of digits. -/
def decimal_digits : Nat → Nat → List Nat → List Nat
  | 0, _, acc => acc
  | fuel + 1, n, acc =>
    if n < 10 then (n + 48) :: acc else decimal_digits fuel (n / 10) ((n % 10 + 48) :: acc)

/-- The decimal numeral of `n`, most significant digit first, without leading zeros. -/
def decimal (n : Nat) : List Nat := decimal_digits (n + 1) n []

/-- Header lines laid out on the wire, each followed by CR LF. -/
def header_lines : List (List Nat) → List Nat
  | [] => []
  | l :: ls => l ++ 13 :: 10 :: header_lines ls

/-- A header line other than the Content-Length line: not empty, without a CR, and not
starting with either spelling of the name the parser looks for. -/
def other_header (l : List Nat) : Prop :=
  l ≠ [] ∧ 13 ∉ l ∧ ¬ str "CONTENT-LENGTH" <+: l ∧ ¬ str "Content-Length" <+: l

instance (l : List Nat) : Decidable (other_header l) := by
  unfold other_header
  infer_instance

/-- The header of a 200 response that declares `n` body bytes: the status line, header lines,
the line `Content-Length: n`, further header lines and the empty line. -/
def response_header (before after : List (List Nat)) (n : Nat) : List Nat :=
  header_lines (str "HTTP/1.1 200 OK" :: before) ++ str "Content-Length: " ++ decimal n ++
    13 :: 10 :: header_lines after ++ [13, 10]

/-- The header of a 200 response up to and including the line `Content-Length: n`. -/
def header_to_length (before : List (List Nat)) (n : Nat) : List Nat :=
  header_lines (str "HTTP/1.1 200 OK" :: before) ++ str "Content-Length: " ++ decimal n ++
    [13, 10]

/-- The last 32 bytes of what was received so far: the carry bytes. -/
def last32 (s : List Nat) : List Nat := s.drop (s.length - HTTPS_HEADER_BAK_LEN)

/-- The struct `rsp_result` of a parser that has read the bytes `s`, knows the declared
length `n` and waits for the end of the headers. -/
def stalled (n : Nat) (s : List Nat) : https_response_result_t :=
  { status_code := 200, header_len := 0, body := none, body_len := n,
    header_bak := some (last32 s), parse_status := 3 }

/-- The four bytes CR LF CR LF stand at offset `j` of `s`. -/
def term_at (s : List Nat) (j : Nat) : Prop := [13, 10, 13, 10] <+: s.drop j

instance (s : List Nat) (j : Nat) : Decidable (term_at s j) := by
  unfold term_at
  infer_instance

/-- The bytes a script delivers, in order. -/
def stream_bytes : List SslRead → List Nat
  | [] => []
  | .data bs :: rest => bs ++ stream_bytes rest
  | _ :: rest => stream_bytes rest

/-- What the header loop of `https_download` makes of a script, as far as the body streamer
sees it: `some (n, bytes)` when the loop ends with the headers complete, `n` being the
declared body length and `bytes` the body bytes identified after the header (those already
in the buffer, then those still to be read); `none` when it leaves through
`https_download_exit`. -/
def header_outcome (bak_ok : Bool) (script : List SslRead) :
    Except Fault (Option (Nat × List Nat)) :=
  match header_loop bak_ok (script_size script + 1)
      { rsp_result := https_response_result_t.zero, idx := 0, alloc := [], script := script } with
  | .error f => .error f
  | .ok (.done h) =>
    .ok (some (h.rsp_result.body_len, first_slice h ++ stream_bytes h.script))
  | .ok _ => .ok none

/-- A would-block result of `mbedtls_ssl_read`: `MBEDTLS_ERR_SSL_WANT_READ` or
`MBEDTLS_ERR_SSL_WANT_WRITE`. -/
def would_block (r : SslRead) : Prop := r = .want_read ∨ r = .want_write

instance (r : SslRead) : Decidable (would_block r) := by
  unfold would_block
  infer_instance

/-- The header of a 200 response whose Content-Length line carries the bytes `v` as its
value. -/
def response_header_value (before after : List (List Nat)) (v : List Nat) : List Nat :=
  header_lines (str "HTTP/1.1 200 OK" :: before) ++ str "Content-Length: " ++ v ++
    13 :: 10 :: header_lines after ++ [13, 10]

/-- A Content-Length value the trimming loops leave as it is: it neither starts with `:` or a
space nor ends with a space. -/
def trimmed_value (v : List Nat) : Prop :=
  v.head? ≠ some 58 ∧ v.head? ≠ some 32 ∧ v.getLast? ≠ some 32

instance (v : List Nat) : Decidable (trimmed_value v) := by
  unfold trimmed_value
  infer_instance

/-- A Content-Length value in which `atoi` finds no number: it is empty, or its first byte is
neither a digit, a sign nor white space (nor the `:` the trimming loop would skip). -/
def starts_non_numeric : List Nat → Prop
  | [] => True
  | x :: _ => isdigit x = false ∧ isspace x = false ∧ x ≠ 43 ∧ x ≠ 45 ∧ x ≠ 58

instance (v : List Nat) : Decidable (starts_non_numeric v) := by
  cases v with
  | nil => exact isTrue trivial
  | cons x t =>
    unfold starts_non_numeric
    infer_instance

/-- A line the Content-Length scan passes over: it holds no CR and starts with neither
spelling of the name the parser looks for.  It may be empty, as the rest of a line from a
point inside it can be. -/
def plain_line (l : List Nat) : Prop :=
  13 ∉ l ∧ ¬ str "CONTENT-LENGTH" <+: l ∧ ¬ str "Content-Length" <+: l

instance (l : List Nat) : Decidable (plain_line l) := by
  unfold plain_line
  infer_instance

/-- One of the two spellings of the header name stands at offset `j` of `s`. -/
def name_at (s : List Nat) (j : Nat) : Prop :=
  str "CONTENT-LENGTH" <+: s.drop j ∨ str "Content-Length" <+: s.drop j

instance (s : List Nat) (j : Nat) : Decidable (name_at s j) := by
  unfold name_at
  infer_instance

/-- The offset of the stream at which chunk `i` (from 0) of the delivery `cs` ends. -/
def chunk_end (cs : List (List Nat)) (i : Nat) : Nat := (cs.take (i + 1)).flatten.length

/-! ## Resources of `https_download` -/

/-- What `https_download` acquires: the heap blocks `alloc`, `request`, `port_str` and
`rsp_result.header_bak`, the output file, and the five mbedTLS contexts. -/
inductive Resource where
  | alloc
  | request
  | port_str
  | header_bak
  | save_file
  | server_fd
  | ssl
  | conf
  | entropy
  | ctr_drbg
deriving DecidableEq, Repr

/-- A call that acquires or initialises a resource (`sys_malloc` returning a block,
`fopen` in `sys_file_open` returning a stream, `mbedtls_*_init`), or one that releases it
(`sys_free`, `fclose` in `sys_file_close`, `mbedtls_*_free`). -/
inductive ResOp where
  | acquire (r : Resource)
  | release (r : Resource)
deriving DecidableEq, Repr

/-- The code after the label `https_download_exit`.  The arguments say which of the pointers
`alloc`, `request`, `port_str`, `rsp_result.header_bak` are not NULL and whether `save_file`
is open (`sys_file_close` calls `fclose` only then); the five `mbedtls_*_free` calls are not
guarded. -/
def teardown (alloc request port_str header_bak file_open : Bool) : List ResOp :=
  (if alloc then [.release .alloc] else []) ++
  (if request then [.release .request] else []) ++
  (if port_str then [.release .port_str] else []) ++
  (if header_bak then [.release .header_bak] else []) ++
  (if file_open then [.release .save_file] else []) ++
  [.release .server_fd, .release .ssl, .release .conf, .release .entropy, .release .ctr_drbg]

/-- The acquisitions and releases of one pass through the body of the header loop that
started with `rsp_result` and ended as `st`: in the branch for states 1 and 3 the carry block
is freed when there is one, and `https_parse_response` leaves a new carry block in
`header_bak` when it stalls. -/
def header_step_ops (rsp_result : https_response_result_t) (st : HeaderStep) : List ResOp :=
  (if (rsp_result.parse_status = 1 ∨ rsp_result.parse_status = 3) ∧
      rsp_result.header_bak.isSome = true then [.release .header_bak] else []) ++
  match st with
  | .next h1 => if h1.rsp_result.header_bak.isSome = true then [.acquire .header_bak] else []
  | .exit r _ => if r.header_bak.isSome = true then [.acquire .header_bak] else []
  | .spin => []

/-- The acquisitions and releases of the header loop, pass by pass, and whether a carry block
is left in `rsp_result.header_bak` when the loop is left. -/
def header_loop_ops (bak_ok : Bool) : Nat → Headers → Except Fault (List ResOp × Bool)
  | 0, _ => .error .out_of_fuel
  | fuel + 1, h =>
    if 3 ≥ h.rsp_result.parse_status then
      match header_step bak_ok h.script h.rsp_result with
      | .error f => .error f
      | .ok (.next h1) =>
        match header_loop_ops bak_ok fuel h1 with
        | .error f => .error f
        | .ok (ops, held) => .ok (header_step_ops h.rsp_result (.next h1) ++ ops, held)
      | .ok (.exit r script) =>
        .ok (header_step_ops h.rsp_result (.exit r script), r.header_bak.isSome)
      | .ok .spin => .error .header_loop_spins
    else .ok ([], h.rsp_result.header_bak.isSome)

/-- The acquisitions and releases of `https_download` from the header loop on, with `alloc`,
`request` and the contexts held; `port_str` says whether `https_itoa` returned a block. -/
def download_response_ops (env : Env) (port_str : Bool) : Except Fault (List ResOp) :=
  match header_loop env.bak_ok (script_size env.reads + 1)
      { rsp_result := https_response_result_t.zero, idx := 0, alloc := [],
        script := env.reads },
    header_loop_ops env.bak_ok (script_size env.reads + 1)
      { rsp_result := https_response_result_t.zero, idx := 0, alloc := [],
        script := env.reads } with
  | .ok (.done h), .ok (ops, held) =>
    if h.rsp_result.body_len = 0 then .ok (ops ++ teardown true true port_str held false)
    else if env.open_ok = false then .ok (ops ++ teardown true true port_str held false)
    else .ok (ops ++ [.acquire .save_file] ++ teardown true true port_str held true)
  | .ok _, .ok (ops, held) => .ok (ops ++ teardown true true port_str held false)
  | .error f, _ => .error f
  | _, .error f => .error f

/-- The acquisitions and releases of a call of `https_download`, in order.  `port_ok` is
whether the `sys_malloc` in `https_itoa` returns a block. -/
def https_download_ops (env : Env) (port_ok : Bool) : Except Fault (List ResOp) :=
  match https_parse_url env.url with
  | none => .ok (teardown false false false false false)
  | some _ =>
    if env.alloc_ok = false then .ok (teardown false false false false false)
    else if env.seed_ret ≠ 0 then
      .ok ([.acquire .alloc, .acquire .server_fd, .acquire .ssl, .acquire .conf,
        .acquire .entropy, .acquire .ctr_drbg] ++ teardown true false false false false)
    else if env.connect_ret ≠ 0 ∨ env.config_ret ≠ 0 ∨ env.setup_ret ≠ 0 ∨
        env.hostname_ret ≠ 0 ∨ handshake_loop env.handshake_ret 3 0 ≠ 0 ∨
        env.request_ok = false then
      .ok ([.acquire .alloc, .acquire .server_fd, .acquire .ssl, .acquire .conf,
        .acquire .entropy, .acquire .ctr_drbg] ++
        (if port_ok then [.acquire .port_str] else []) ++
        teardown true false port_ok false false)
    else if env.write_ret < 0 then
      .ok ([.acquire .alloc, .acquire .server_fd, .acquire .ssl, .acquire .conf,
        .acquire .entropy, .acquire .ctr_drbg] ++
        (if port_ok then [.acquire .port_str] else []) ++ [.acquire .request] ++
        teardown true true port_ok false false)
    else
      match download_response_ops env port_ok with
      | .error f => .error f
      | .ok ops =>
        .ok ([.acquire .alloc, .acquire .server_fd, .acquire .ssl, .acquire .conf,
          .acquire .entropy, .acquire .ctr_drbg] ++
          (if port_ok then [.acquire .port_str] else []) ++ [.acquire .request] ++ ops)

/-- Whether a sequence of acquisitions and releases is linear from the set `held` of
resources held: nothing is acquired while held, nothing is released unless held, and nothing
is held at the end. -/
def linear_from : List Resource → List ResOp → Bool
  | held, [] => held.isEmpty
  | held, .acquire r :: ops => !held.contains r && linear_from (r :: held) ops
  | held, .release r :: ops => held.contains r && linear_from (held.erase r) ops

/-- Linear resource use over a whole call. -/
def linear (ops : List ResOp) : Prop := linear_from [] ops = true

instance (ops : List ResOp) : Decidable (linear ops) := by
  unfold linear
  infer_instance

/-! ## Reading the receive buffer -/

theorem prefix_head {buf : List Nat} {i x : Nat} {l : List Nat}
    (h : (x :: l) <+: buf.drop i) : buf[i]? = some x := by
  obtain ⟨t, ht⟩ := h
  have := congrArg (fun m => m[0]?) ht
  simp only [List.cons_append, List.getElem?_cons_zero, List.getElem?_drop, Nat.add_zero] at this
  exact this.symm

theorem prefix_skip {buf : List Nat} {i : Nat} {l m : List Nat}
    (h : (l ++ m) <+: buf.drop i) : m <+: buf.drop (i + l.length) := by
  obtain ⟨t, ht⟩ := h
  refine ⟨t, ?_⟩
  rw [← List.drop_drop, ← ht]
  simp

theorem prefix_tail {buf : List Nat} {i x : Nat} {l : List Nat}
    (h : (x :: l) <+: buf.drop i) : l <+: buf.drop (i + 1) :=
  prefix_skip (l := [x]) (by simpa using h)

theorem prefix_left {buf : List Nat} {i : Nat} {l m : List Nat}
    (h : (l ++ m) <+: buf.drop i) : l <+: buf.drop i :=
  (List.prefix_append l m).trans h

theorem rd_of_get {buf : List Nat} {i b : Nat} (h : buf[i]? = some b) : rd buf i = .ok b := by
  simp [rd, h]

theorem at_crlf_of_ne {buf : List Nat} {i a : Nat} (h : buf[i]? = some a) (ha : a ≠ 13) :
    at_crlf buf i = .ok false := by
  simp [at_crlf, rd, h, ha]

theorem at_crlf_of_crlf {buf : List Nat} {i : Nat} (h : buf[i]? = some 13)
    (h1 : buf[i + 1]? = some 10) : at_crlf buf i = .ok true := by
  simp [at_crlf, rd, h, h1]

theorem at_header_end_of_ne {buf : List Nat} {i a : Nat} (h : buf[i]? = some a) (ha : a ≠ 13) :
    at_header_end buf i = .ok false := by
  simp [at_header_end, at_crlf_of_ne h ha]

theorem line_end_of_ne {buf : List Nat} {i a : Nat} (p : Nat) (r : https_response_result_t)
    (h : buf[i]? = some a) (ha : a ≠ 13) : line_end buf i p r = .ok (p, r) := by
  simp [line_end, at_crlf_of_ne h ha]

theorem scan_headers_step_ne {buf : List Nat} {i a : Nat} (k p : Nat)
    (r : https_response_result_t) (h : buf[i]? = some a) (ha : a ≠ 13) :
    scan_headers buf (k + 1) i p r = scan_headers buf k (i + 1) p r := by
  simp [scan_headers, line_end_of_ne p r h ha, at_header_end_of_ne h ha]

theorem scan_headers_skip (buf : List Nat) (p : Nat) (r : https_response_result_t) :
    ∀ (l : List Nat) (i k : Nat), (∀ x ∈ l, x ≠ 13) → l <+: buf.drop i →
      scan_headers buf (k + l.length) i p r = scan_headers buf k (i + l.length) p r := by
  intro l
  induction l with
  | nil => intro i k _ _; rfl
  | cons x l ih =>
    intro i k hx hp
    have h1 := ih (i + 1) k (fun y hy => hx y (List.mem_cons_of_mem _ hy)) (prefix_tail hp)
    rw [List.length_cons, ← Nat.add_assoc,
      scan_headers_step_ne _ p r (prefix_head hp) (hx x (List.mem_cons_self _ _)), h1]
    congr 1
    omega

/-! ## Where the parser and the header loop give up -/

theorem line_end_status (response : List Nat) (i p : Nat) (r r1 : https_response_result_t)
    (p1 : Nat) (h : line_end response i p r = .ok (p1, r1)) :
    r1.parse_status = r.parse_status ∨ r1.parse_status = 2 := by
  unfold line_end at h
  split at h
  · cases h
  · cases h; left; rfl
  · split at h
    · split at h
      · cases h
      · cases h; right; rfl
    · cases h; left; rfl

theorem scan_headers_failed_status (response : List Nat) :
    ∀ (k i p : Nat) (r r' : https_response_result_t),
      scan_headers response k i p r = .ok (true, r') →
        r'.parse_status = r.parse_status ∧ r'.parse_status ≠ 2 := by
  intro k
  induction k with
  | zero => intro i p r r' h; simp [scan_headers] at h
  | succ k ih =>
    intro i p r r' h
    unfold scan_headers at h
    split at h
    · cases h
    · rename_i p1 r1 hl
      have hr1 := line_end_status _ _ _ _ _ _ hl
      split at h
      · cases h
      · split at h
        · cases h
        · rename_i h2
          cases h
          rcases hr1 with h1 | h1
          · exact ⟨h1, h2⟩
          · exact absurd h1 h2
      · have h3 := ih _ _ _ _ h
        rcases hr1 with h1 | h1
        · exact ⟨by rw [h3.1, h1], h3.2⟩
        · exact absurd (h3.1.trans h1) h3.2

theorem parse_minus_one_status (bak_ok : Bool) (response : List Nat) (len : Nat)
    (r r' : https_response_result_t)
    (h : https_parse_response bak_ok response len r = .ok (-1, r')) :
    r'.parse_status ≤ 1 := by
  unfold https_parse_response at h
  split at h
  · cases h
  · rename_i v r0 h0
    cases h
    split at h0
    · rename_i hz
      unfold parse_status_line at h0
      split at h0
      · cases h0
      · split at h0
        · cases h0; omega
        · split at h0
          · cases h0
          · split at h0
            · split at h0
              · cases h0; simp only; omega
              · cases h0
            · cases h0; simp only; omega
    · cases h0
  · rename_i r0 h0
    split at h
    · cases h
    · rename_i r3 h3
      split at h
      · cases h
      · rename_i v r1 h1
        cases h
        split at h1
        · rename_i hps
          unfold parse_phase1 at h1
          split at h1
          · cases h1
          · rename_i rr hsc
            cases h1
            have := scan_headers_failed_status _ _ _ _ _ _ hsc
            omega
          · split at h1
            · split at h1 <;> cases h1
            · split at h1
              · split at h1 <;> cases h1
              · cases h1
        · cases h1
      · rename_i r1 h1
        simp only [Except.ok.injEq, Prod.mk.injEq] at h
        omega

theorem header_parse_exit_status (bak_ok : Bool) (alloc : List Nat) (idx : Nat)
    (r r' : https_response_result_t) (rest s' : List SslRead)
    (h : header_parse bak_ok alloc idx r rest = .ok (.exit r' s')) : r'.parse_status ≤ 1 := by
  unfold header_parse at h
  split at h
  · cases h
  · rename_i ret r1 hp
    split at h
    · rename_i hret
      cases h
      subst hret
      exact parse_minus_one_status _ _ _ _ _ hp
    · cases h

theorem header_step_exit_status (bak_ok : Bool) (script : List SslRead)
    (r r' : https_response_result_t) (s' : List SslRead)
    (h : header_step bak_ok script r = .ok (.exit r' s')) : r'.parse_status ≤ 3 := by
  unfold header_step at h
  split at h
  · rename_i h0
    split at h
    · split at h
      · cases h; omega
      · have := header_parse_exit_status _ _ _ _ _ _ _ h
        omega
    · cases h; omega
  · split at h
    · rename_i h13
      split at h
      · split at h
        · cases h; simp only; omega
        · have := header_parse_exit_status _ _ _ _ _ _ _ h
          omega
      · cases h; simp only; omega
    · cases h

theorem header_loop_exit_status (bak_ok : Bool) :
    ∀ (fuel : Nat) (h : Headers) (r' : https_response_result_t) (s' : List SslRead),
      header_loop bak_ok fuel h = .ok (.exit r' s') → r'.parse_status ≤ 3 := by
  intro fuel
  induction fuel with
  | zero => intro h r' s' hl; simp [header_loop] at hl
  | succ fuel ih =>
    intro h r' s' hl
    unfold header_loop at hl
    split at hl
    · split at hl
      · cases hl
      · exact ih _ _ _ hl
      · rename_i hs
        cases hl
        exact header_step_exit_status _ _ _ _ _ hs
      · cases hl
    · cases hl

theorem https_download_cases (env : Env) :
    (∃ ret connected request, https_download env =
      .ok (Download.early ret connected request https_response_result_t.zero env.reads)) ∨
    (∃ request, 0 ≤ env.write_ret ∧
      https_download env = download_response env env.write_ret request) := by
  unfold https_download
  split
  · exact Or.inl ⟨_, _, _, rfl⟩
  · by_cases h1 : env.alloc_ok = false
    · rw [if_pos h1]; exact Or.inl ⟨_, _, _, rfl⟩
    rw [if_neg h1]
    by_cases h2 : env.seed_ret ≠ 0
    · rw [if_pos h2]; exact Or.inl ⟨_, _, _, rfl⟩
    rw [if_neg h2]
    by_cases h3 : env.connect_ret ≠ 0
    · rw [if_pos h3]; exact Or.inl ⟨_, _, _, rfl⟩
    rw [if_neg h3]
    by_cases h4 : env.config_ret ≠ 0
    · rw [if_pos h4]; exact Or.inl ⟨_, _, _, rfl⟩
    rw [if_neg h4]
    by_cases h5 : env.setup_ret ≠ 0
    · rw [if_pos h5]; exact Or.inl ⟨_, _, _, rfl⟩
    rw [if_neg h5]
    by_cases h6 : env.hostname_ret ≠ 0
    · rw [if_pos h6]; exact Or.inl ⟨_, _, _, rfl⟩
    rw [if_neg h6]
    by_cases h7 : handshake_loop env.handshake_ret 3 0 ≠ 0
    · rw [if_pos h7]; exact Or.inl ⟨_, _, _, rfl⟩
    rw [if_neg h7]
    by_cases h8 : env.request_ok = false
    · rw [if_pos h8]; exact Or.inl ⟨_, _, _, rfl⟩
    rw [if_neg h8]
    by_cases h9 : env.write_ret < 0
    · rw [if_pos h9]; exact Or.inl ⟨_, _, _, rfl⟩
    rw [if_neg h9]
    exact Or.inr ⟨_, by omega, rfl⟩

theorem download_response_done_or_exit (env : Env) (ret : Int) (request : List Nat)
    (d : Download) (hrun : download_response env ret request = .ok d) :
    (∃ h, download_body env ret request h = .ok d) ∨
    (∃ r script, r.parse_status ≤ 3 ∧ d = Download.early ret true (some request) r script) := by
  unfold download_response at hrun
  split at hrun
  · cases hrun
  · exact Or.inl ⟨_, hrun⟩
  · rename_i r script hh
    cases hrun
    exact Or.inr ⟨r, script, header_loop_exit_status _ _ _ _ _ hh, rfl⟩
  · cases hrun
  · cases hrun

/-! ## Numerals -/

theorem atoi_digits_decimal_digits :
    ∀ (fuel n : Nat) (acc : List Nat), n < fuel →
      atoi_digits (decimal_digits fuel n acc) 0 = atoi_digits acc n := by
  intro fuel
  induction fuel with
  | zero => intro n acc h; omega
  | succ fuel ih =>
    intro n acc h
    unfold decimal_digits
    split
    · rename_i h10
      have : isdigit (n + 48) = true := by simp [isdigit]; omega
      simp [atoi_digits, this]
    · rename_i h10
      rw [ih (n / 10) _ (by omega)]
      have : isdigit (n % 10 + 48) = true := by simp [isdigit]; omega
      simp only [atoi_digits, this, if_true]
      congr 1
      omega

theorem decimal_digits_all_digit :
    ∀ (fuel n : Nat) (acc : List Nat), (∀ x ∈ acc, isdigit x = true) →
      ∀ x ∈ decimal_digits fuel n acc, isdigit x = true := by
  intro fuel
  induction fuel with
  | zero => intro n acc h; simpa [decimal_digits] using h
  | succ fuel ih =>
    intro n acc h
    unfold decimal_digits
    split
    · intro x hx
      rcases List.mem_cons.mp hx with rfl | hx
      · simp [isdigit]; omega
      · exact h x hx
    · apply ih
      intro x hx
      rcases List.mem_cons.mp hx with rfl | hx
      · simp [isdigit]; omega
      · exact h x hx

theorem decimal_all_digit (n : Nat) : ∀ x ∈ decimal n, isdigit x = true :=
  decimal_digits_all_digit _ _ _ (by simp)

theorem decimal_digits_ne_nil : ∀ (fuel n : Nat) (acc : List Nat), 0 < fuel →
    decimal_digits fuel n acc ≠ [] := by
  intro fuel
  induction fuel with
  | zero => intro n acc h; omega
  | succ fuel ih =>
    intro n acc _
    unfold decimal_digits
    split
    · simp
    · rename_i h10
      cases fuel with
      | zero => simp [decimal_digits]
      | succ f => exact ih _ _ (by omega)

theorem decimal_ne_nil (n : Nat) : decimal n ≠ [] := decimal_digits_ne_nil _ _ _ (by omega)

theorem decimal_digits_length : ∀ (fuel n k : Nat) (acc : List Nat), n < 10 ^ (k + 1) →
    (decimal_digits fuel n acc).length ≤ k + 1 + acc.length := by
  intro fuel
  induction fuel with
  | zero => intro n k acc _; simp [decimal_digits]
  | succ fuel ih =>
    intro n k acc h
    unfold decimal_digits
    split
    · simp; omega
    · rename_i h10
      cases k with
      | zero => omega
      | succ k =>
        have := ih (n / 10) k ((n % 10 + 48) :: acc) (by
          rw [pow_succ] at h
          omega)
        simp at this
        omega

theorem decimal_length (n k : Nat) (h : n < 10 ^ (k + 1)) : (decimal n).length ≤ k + 1 := by
  simpa using decimal_digits_length (n + 1) n k [] h

theorem atoi_digit_head (ds : List Nat) (hne : ds ≠ [])
    (hd : ∀ x ∈ ds, isdigit x = true) : atoi ds = (atoi_digits ds 0 : Int) := by
  cases ds with
  | nil => exact absurd rfl hne
  | cons c cs =>
    have hc := hd c (List.mem_cons_self _ _)
    have h1 : isspace c = false := by
      simp [isdigit] at hc
      simp [isspace]
      omega
    have h2 : c ≠ 45 := by simp [isdigit] at hc; omega
    have h3 : c ≠ 43 := by simp [isdigit] at hc; omega
    simp [atoi, atoi_signed, h1, h2, h3]

theorem atoi_decimal (n : Nat) : atoi (decimal n) = (n : Int) := by
  rw [atoi_digit_head _ (decimal_ne_nil n) (decimal_all_digit n)]
  unfold decimal
  rw [atoi_digits_decimal_digits _ _ _ (by omega)]
  simp [atoi_digits]

theorem to_u32_nat (n : Nat) (h : n < U32) : to_u32 (n : Int) = n := by
  unfold to_u32 U32 at *
  omega

theorem to_u32_eq_200 (v : Int) (h : to_u32 v = 200) (hlo : -1000 < v) (hhi : v < 1000) :
    v = 200 := by
  unfold to_u32 U32 at h
  omega

theorem status_200 (a b c : Nat) (h : to_u32 (atoi [a, b, c]) = 200) :
    a = 50 ∧ b = 48 ∧ c = 48 := by
  simp only [atoi, atoi_signed, atoi_digits, isspace, isdigit,
    Bool.and_eq_true, Bool.or_eq_true, decide_eq_true_eq] at h
  split_ifs at h <;> (have h' := to_u32_eq_200 _ h (by omega) (by omega); omega)

theorem to_u32_eq_302 (v : Int) (h : to_u32 v = 302) (hlo : -1000 < v) (hhi : v < 1000) :
    v = 302 := by
  unfold to_u32 U32 at h
  omega

theorem status_302 (a b c : Nat) (h : to_u32 (atoi [a, b, c]) = 302) :
    a = 51 ∧ b = 48 ∧ c = 50 := by
  simp only [atoi, atoi_signed, atoi_digits, isspace, isdigit,
    Bool.and_eq_true, Bool.or_eq_true, decide_eq_true_eq] at h
  split_ifs at h <;> (have h' := to_u32_eq_302 _ h (by omega) (by omega); omega)

/-! ## The Content-Length line -/

theorem prefix_at {buf : List Nat} {i : Nat} {l : List Nat} (h : l <+: buf.drop i)
    (j : Nat) (hj : j < l.length) : buf[i + j]? = some l[j] := by
  obtain ⟨t, ht⟩ := h
  have := congrArg (fun m => m[j]?) ht
  simp only [List.getElem?_drop] at this
  rw [← this, List.getElem?_append_left hj, List.getElem?_eq_getElem hj]

theorem memcmp_eq_false_of_line {buf : List Nat} {p : Nat} {l name : List Nat}
    (hp : (l ++ [13]) <+: buf.drop p) (hname : 13 ∉ name) (hl : ¬ name <+: l) :
    memcmp_eq buf p name = false := by
  unfold memcmp_eq
  rw [beq_eq_false_iff_ne]
  intro h
  have h1 : name <+: buf.drop p := by
    rw [← h]; exact List.take_prefix _ _
  rcases List.prefix_or_prefix_of_prefix h1 hp with h2 | h2
  · -- name is a prefix of l ++ [13]
    rcases List.prefix_concat_iff.mp (by simpa [List.concat_eq_append] using h2) with h3 | h3
    · exact hname (h3 ▸ by simp)
    · exact hl h3
  · exact hname (h2.subset (by simp))

theorem memcmp_eq_true_of_prefix {buf : List Nat} {p : Nat} {name : List Nat}
    (hp : name <+: buf.drop p) : memcmp_eq buf p name = true := by
  unfold memcmp_eq
  rw [beq_iff_eq]
  exact (List.prefix_iff_eq_take.mp hp).symm

theorem literal_bytes {buf : List Nat} {p : Nat} {name ds : List Nat}
    (hn : name.length = 14) (hp : (name ++ [58, 32] ++ ds ++ [13]) <+: buf.drop p) :
    buf[p + 14]? = some 58 ∧ buf[p + 15]? = some 32 ∧ (ds ++ [13]) <+: buf.drop (p + 16) := by
  have h1 : (58 :: 32 :: (ds ++ [13])) <+: buf.drop (p + 14) := by
    have := prefix_skip (l := name) (m := 58 :: 32 :: (ds ++ [13])) (by simpa using hp)
    rwa [hn] at this
  exact ⟨prefix_head h1, prefix_head (prefix_tail h1), prefix_tail (prefix_tail h1)⟩

theorem skip_colon_space_literal {buf : List Nat} {p : Nat} {name ds : List Nat}
    (hn : name.length = 14)
    (hp : (name ++ [58, 32] ++ ds ++ [13]) <+: buf.drop p) (hne : ds ≠ [])
    (hd : ∀ x ∈ ds, isdigit x = true) :
    skip_colon_space buf (p + 16 + ds.length) (p + 16 + ds.length) (p + 14) = .ok (p + 16) := by
  obtain ⟨h14, h15, h16⟩ := literal_bytes hn hp
  cases ds with
  | nil => exact absurd rfl hne
  | cons x xs =>
    have hx := hd x (List.mem_cons_self _ _)
    have hx58 : ¬ (x = 58 ∨ x = 32) := by
      simp [isdigit] at hx
      omega
    have hx16 := prefix_head (by simpa using h16 : (x :: (xs ++ [13])) <+: buf.drop (p + 16))
    have hl : (x :: xs).length = xs.length + 1 := rfl
    obtain ⟨k, hk⟩ : ∃ k, p + 16 + (x :: xs).length = k + 3 :=
      ⟨p + 14 + xs.length, by omega⟩
    have hq1 : p + 14 < k + 3 := by omega
    have hq2 : p + 14 + 1 < k + 3 := by omega
    have hq3 : p + 14 + 1 + 1 < k + 3 := by omega
    rw [hk]
    simp only [skip_colon_space, hq1, hq2, hq3, if_true, rd, h14, h15, hx16, true_or, or_true,
      hx58, if_false]

theorem trim_trailing_space_literal {buf : List Nat} {p : Nat} {ds : List Nat}
    (hp : (ds ++ [13]) <+: buf.drop (p + 16)) (hne : ds ≠ [])
    (hd : ∀ x ∈ ds, isdigit x = true) (fuel : Nat) :
    trim_trailing_space buf (p + 16) fuel (p + 16 + ds.length - 1) =
      .ok (p + 16 + ds.length - 1) := by
  rcases List.eq_nil_or_concat ds with h | ⟨init, last, h⟩
  · exact absurd h hne
  · rw [List.concat_eq_append] at h
    subst h
    have hlast : buf[p + 16 + init.length]? = some last :=
      prefix_head (prefix_skip (l := init) (m := [last, 13]) (by simpa using hp))
    have hdig := hd last (by simp)
    have h32 : last ≠ 32 := by
      intro h
      rw [h] at hdig
      simp [isdigit] at hdig
    have e : p + 16 + (init ++ [last]).length - 1 = p + 16 + init.length := by simp
    rw [e]
    cases fuel with
    | zero => rfl
    | succ fuel =>
      simp only [trim_trailing_space, rd, hlast, h32, if_false]
      split <;> rfl

theorem convert_length_literal {buf : List Nat} {p : Nat} {ds : List Nat}
    (hp : (ds ++ [13]) <+: buf.drop (p + 16)) (hne : ds ≠ []) (hlen : ds.length ≤ 11)
    (hq : p + 16 + ds.length < U32) :
    convert_length buf (p + 16) (p + 16 + ds.length - 1) = .ok (to_u32 (atoi ds)) := by
  have hpos : 0 < ds.length := List.length_pos.mpr hne
  have hn : (p + 16 + ds.length - 1 + U32 - (p + 16) + 1) % U32 = ds.length := by
    have : p + 16 + ds.length - 1 + U32 - (p + 16) + 1 = ds.length + U32 := by omega
    rw [this, Nat.add_mod_right, Nat.mod_eq_of_lt (by omega)]
  have htake : (buf.drop (p + 16)).take ds.length = ds := by
    have := List.prefix_iff_eq_take.mp (prefix_left hp)
    exact this.symm
  unfold convert_length
  rw [hn, htake]
  have h1 : ¬ 12 < ds.length := by omega
  have h2 : ¬ (ds.length = 12 ∧ atoi_stops (List.take 12 (List.drop (p + 16) buf)) = false) := by
    omega
  rw [if_neg h1, if_neg h2]

theorem parse_content_length_literal {buf : List Nat} {p : Nat} {name ds : List Nat}
    (hn : name.length = 14)
    (hp : (name ++ [58, 32] ++ ds ++ [13]) <+: buf.drop p) (hne : ds ≠ [])
    (hd : ∀ x ∈ ds, isdigit x = true) (hlen : ds.length ≤ 11)
    (hq : p + 16 + ds.length < U32) :
    parse_content_length buf p (p + 16 + ds.length) = .ok (to_u32 (atoi ds)) := by
  obtain ⟨_, _, h16⟩ := literal_bytes hn hp
  have hpos : 0 < ds.length := List.length_pos.mpr hne
  have hj2 : (p + 16 + ds.length + U32 - 1) % U32 = p + 16 + ds.length - 1 := by
    have : p + 16 + ds.length + U32 - 1 = (p + 16 + ds.length - 1) + U32 := by omega
    rw [this, Nat.add_mod_right, Nat.mod_eq_of_lt (by omega)]
  unfold parse_content_length
  rw [skip_colon_space_literal hn hp hne hd, hj2]
  simp only
  rw [trim_trailing_space_literal h16 hne hd]
  simp only
  exact convert_length_literal h16 hne hlen hq

/-! ## Scanning whole header lines -/

theorem name_upper_no_cr : 13 ∉ str "CONTENT-LENGTH" := by decide
theorem name_mixed_no_cr : 13 ∉ str "Content-Length" := by decide

theorem line_end_other {buf : List Nat} {p : Nat} {l : List Nat} (r : https_response_result_t)
    (hline : (l ++ [13, 10]) <+: buf.drop p) (ho : other_header l) :
    line_end buf (p + l.length) p r = .ok (p + l.length + 2, r) := by
  have h13 : (13 :: [10]) <+: buf.drop (p + l.length) := prefix_skip (l := l) hline
  have hcr := at_crlf_of_crlf (prefix_head h13) (prefix_head (prefix_tail h13))
  have hl13 : (l ++ [13]) <+: buf.drop p :=
    prefix_left (l := l ++ [13]) (m := [10]) (by simpa using hline)
  have m1 := memcmp_eq_false_of_line hl13 name_upper_no_cr ho.2.2.1
  have m2 := memcmp_eq_false_of_line hl13 name_mixed_no_cr ho.2.2.2
  simp [line_end, hcr, m1, m2]

theorem line_end_length {buf : List Nat} {p : Nat} {ds : List Nat} (r : https_response_result_t)
    (hline : (str "Content-Length: " ++ ds ++ [13, 10]) <+: buf.drop p) (hne : ds ≠ [])
    (hd : ∀ x ∈ ds, isdigit x = true) (hlen : ds.length ≤ 11)
    (hq : p + 16 + ds.length < U32) :
    line_end buf (p + 16 + ds.length) p r =
      .ok (p + 16 + ds.length + 2,
        { r with body_len := to_u32 (atoi ds), parse_status := 2 }) := by
  have hsplit : str "Content-Length: " = str "Content-Length" ++ [58, 32] := by decide
  have h13 : (13 :: [10]) <+: buf.drop (p + 16 + ds.length) := by
    have := prefix_skip (l := str "Content-Length: " ++ ds) (m := [13, 10]) (by simpa using hline)
    have e : (str "Content-Length: " ++ ds).length = 16 + ds.length := by
      rw [List.length_append]; rfl
    rw [e, ← Nat.add_assoc] at this
    exact this
  have hcr := at_crlf_of_crlf (prefix_head h13) (prefix_head (prefix_tail h13))
  have hl13 : (str "Content-Length" ++ [58, 32] ++ ds ++ [13]) <+: buf.drop p := by
    rw [← hsplit]
    exact prefix_left (l := str "Content-Length: " ++ ds ++ [13]) (m := [10])
      (by simpa using hline)
  have m2 : memcmp_eq buf p (str "Content-Length") = true :=
    memcmp_eq_true_of_prefix
      (prefix_left (l := str "Content-Length") (m := [58, 32] ++ ds ++ [13])
        (by simpa using hl13))
  have hname : (str "Content-Length").length = 14 := by decide
  have hv := parse_content_length_literal hname hl13 hne hd hlen hq
  simp [line_end, hcr, m2, hv]

theorem scan_headers_line {buf : List Nat} {p x : Nat} {l : List Nat} (k : Nat)
    {r r1 : https_response_result_t}
    (hline : (l ++ [13, 10, x]) <+: buf.drop p) (hl : ∀ y ∈ l, y ≠ 13) (hx : x ≠ 13)
    (hle : line_end buf (p + l.length) p r = .ok (p + l.length + 2, r1)) :
    scan_headers buf (k + (l.length + 2)) p p r =
      scan_headers buf k (p + l.length + 2) (p + l.length + 2) r1 := by
  have h13 : (13 :: 10 :: [x]) <+: buf.drop (p + l.length) := prefix_skip (l := l) hline
  have b0 := prefix_head h13
  have b1 := prefix_head (prefix_tail h13)
  have b2 := prefix_head (prefix_tail (prefix_tail h13))
  rw [show k + (l.length + 2) = (k + 2) + l.length by omega,
    scan_headers_skip buf p r l p (k + 2) hl (prefix_left (l := l) hline)]
  have hend : at_header_end buf (p + l.length) = .ok false := by
    simp [at_header_end, at_crlf_of_crlf b0 b1, at_crlf_of_ne b2 hx]
  rw [show k + 2 = (k + 1) + 1 by omega]
  simp only [scan_headers, hle, hend]
  exact scan_headers_step_ne k _ r1 b1 (by decide)

theorem scan_headers_last_line {buf : List Nat} {p : Nat} {l : List Nat} (k : Nat)
    {r r1 : https_response_result_t}
    (hline : (l ++ [13, 10, 13, 10]) <+: buf.drop p) (hl : ∀ y ∈ l, y ≠ 13)
    (hle : line_end buf (p + l.length) p r = .ok (p + l.length + 2, r1))
    (h2 : r1.parse_status = 2) :
    scan_headers buf (k + (l.length + 1)) p p r =
      .ok (false, { r1 with parse_status := 4, header_len := p + l.length + 4,
                            body := some (p + l.length + 4) }) := by
  have h13 : (13 :: 10 :: 13 :: [10]) <+: buf.drop (p + l.length) := prefix_skip (l := l) hline
  have b0 := prefix_head h13
  have b1 := prefix_head (prefix_tail h13)
  have b2 := prefix_head (prefix_tail (prefix_tail h13))
  have b3 := prefix_head (prefix_tail (prefix_tail (prefix_tail h13)))
  rw [show k + (l.length + 1) = (k + 1) + l.length by omega,
    scan_headers_skip buf p r l p (k + 1) hl (prefix_left (l := l) hline)]
  have hend : at_header_end buf (p + l.length) = .ok true := by
    simp [at_header_end, at_crlf_of_crlf b0 b1, at_crlf_of_crlf b2 b3]
  simp only [scan_headers, hle, hend, h2, if_true]

/-! ## A complete header in one buffer -/

theorem header_lines_head (ls : List (List Nat)) (x : Nat) (t : List Nat)
    (h : ∀ l ∈ ls, other_header l) (hx : x ≠ 13) :
    ∃ y t', header_lines ls ++ x :: t = y :: t' ∧ y ≠ 13 := by
  cases ls with
  | nil => exact ⟨x, t, rfl, hx⟩
  | cons l ls =>
    have ho := h l (List.mem_cons_self _ _)
    cases l with
    | nil => exact absurd rfl ho.1
    | cons y l' =>
      refine ⟨y, _, rfl, ?_⟩
      intro hy
      exact ho.2.1 (hy ▸ List.mem_cons_self _ _)

theorem header_lines_cons_head (l : List Nat) (ls : List (List Nat)) (t : List Nat)
    (ho : other_header l) : ∃ y t', header_lines (l :: ls) ++ t = y :: t' ∧ y ≠ 13 := by
  cases l with
  | nil => exact absurd rfl ho.1
  | cons y l' =>
    refine ⟨y, _, rfl, ?_⟩
    intro hy
    exact ho.2.1 (hy ▸ List.mem_cons_self _ _)

theorem other_header_no_cr {l : List Nat} (h : other_header l) : ∀ y ∈ l, y ≠ 13 := by
  intro y hy e
  exact h.2.1 (e ▸ hy)

theorem scan_headers_others (buf : List Nat) (r : https_response_result_t) :
    ∀ (ls : List (List Nat)) (p k x : Nat) (t : List Nat), (∀ l ∈ ls, other_header l) →
      (header_lines ls ++ x :: t) <+: buf.drop p → x ≠ 13 →
      scan_headers buf (k + (header_lines ls).length) p p r =
        scan_headers buf k (p + (header_lines ls).length) (p + (header_lines ls).length) r := by
  intro ls
  induction ls with
  | nil => intro p k x t _ _ _; rfl
  | cons l ls ih =>
    intro p k x t h hp hx
    have ho := h l (List.mem_cons_self _ _)
    have hrest : ∀ l' ∈ ls, other_header l' := fun l' hl' => h l' (List.mem_cons_of_mem _ hl')
    obtain ⟨y, t', hy, hy13⟩ := header_lines_head ls x t hrest hx
    have hp' : (l ++ [13, 10, y] ++ t') <+: buf.drop p := by
      have e : header_lines (l :: ls) ++ x :: t = l ++ [13, 10, y] ++ t' := by
        simp only [header_lines, List.append_assoc, List.cons_append, hy, List.nil_append]
      rwa [e] at hp
    have hline : (l ++ [13, 10, y]) <+: buf.drop p := prefix_left hp'
    have hle := line_end_other r
      (prefix_left (l := l ++ [13, 10]) (m := [y]) (by simpa using hline)) ho
    have hnext : (header_lines ls ++ x :: t) <+: buf.drop (p + l.length + 2) := by
      have := prefix_skip (l := l ++ [13, 10]) (m := header_lines ls ++ x :: t)
        (by simpa [header_lines] using hp)
      simpa [Nat.add_assoc] using this
    have hlen : (header_lines (l :: ls)).length = (header_lines ls).length + (l.length + 2) := by
      simp [header_lines]; omega
    rw [hlen, ← Nat.add_assoc, scan_headers_line _ hline (other_header_no_cr ho) hy13 hle,
      ih (p + l.length + 2) k x t hrest hnext hx]
    congr 1 <;> omega

theorem scan_headers_others_end (buf : List Nat) (r : https_response_result_t)
    (h2 : r.parse_status = 2) :
    ∀ (ls : List (List Nat)) (p k : Nat), ls ≠ [] → (∀ l ∈ ls, other_header l) →
      (header_lines ls ++ [13, 10]) <+: buf.drop p →
      scan_headers buf (k + ((header_lines ls).length - 1)) p p r =
        .ok (false, { r with parse_status := 4, header_len := p + (header_lines ls).length + 2,
                             body := some (p + (header_lines ls).length + 2) }) := by
  intro ls
  induction ls with
  | nil => intro p k hne; exact absurd rfl hne
  | cons l ls ih =>
    intro p k _ h hp
    have ho := h l (List.mem_cons_self _ _)
    have hrest : ∀ l' ∈ ls, other_header l' := fun l' hl' => h l' (List.mem_cons_of_mem _ hl')
    have hlen : (header_lines (l :: ls)).length = (header_lines ls).length + (l.length + 2) := by
      simp [header_lines]; omega
    cases ls with
    | nil =>
      have hline : (l ++ [13, 10, 13, 10]) <+: buf.drop p := by
        simpa [header_lines] using hp
      have hle := line_end_other r
        (prefix_left (l := l ++ [13, 10]) (m := [13, 10]) (by simpa using hline)) ho
      have := scan_headers_last_line k hline (other_header_no_cr ho) hle h2
      simp only [header_lines, List.length_append, List.length_cons, List.length_nil] at *
      rw [show k + (l.length + (0 + 1 + 1) - 1) = k + (l.length + 1) by omega, this]
      simp only [Except.ok.injEq, Prod.mk.injEq, true_and]
      congr 1
    | cons l2 ls' =>
      obtain ⟨y, t', hy, hy13⟩ := header_lines_cons_head l2 ls' [13, 10]
        (hrest l2 (List.mem_cons_self _ _))
      have hp' : (l ++ [13, 10, y] ++ t') <+: buf.drop p := by
        have e : header_lines (l :: l2 :: ls') ++ [13, 10] = l ++ [13, 10, y] ++ t' := by
          rw [show header_lines (l :: l2 :: ls') = l ++ 13 :: 10 :: header_lines (l2 :: ls')
            from rfl]
          simp only [List.append_assoc, List.cons_append, hy, List.nil_append]
        rwa [e] at hp
      have hline : (l ++ [13, 10, y]) <+: buf.drop p := prefix_left hp'
      have hle := line_end_other r
        (prefix_left (l := l ++ [13, 10]) (m := [y]) (by simpa using hline)) ho
      have hnext : (header_lines (l2 :: ls') ++ [13, 10]) <+: buf.drop (p + l.length + 2) := by
        have := prefix_skip (l := l ++ [13, 10]) (m := header_lines (l2 :: ls') ++ [13, 10])
          (by
            rw [show header_lines (l :: l2 :: ls') = l ++ 13 :: 10 :: header_lines (l2 :: ls')
              from rfl] at hp
            simpa using hp)
        simpa [Nat.add_assoc] using this
      have hpos : 2 ≤ (header_lines (l2 :: ls')).length := by
        simp [header_lines]; omega
      have ih' := ih (p + l.length + 2) k (by simp) hrest hnext
      rw [hlen, show k + ((header_lines (l2 :: ls')).length + (l.length + 2) - 1) =
          (k + ((header_lines (l2 :: ls')).length - 1)) + (l.length + 2) by omega,
        scan_headers_line _ hline (other_header_no_cr ho) hy13 hle, ih']
      simp only [Except.ok.injEq, Prod.mk.injEq, true_and]
      congr 1 <;> simp <;> omega

theorem fill_alloc_nil (bs : List Nat) :
    fill_alloc [] 0 bs = bs ++ List.replicate (HTTPS_DOWNLOAD_BUF_SIZE - bs.length) 0 := by
  simp [fill_alloc]

theorem fill_alloc_nil_prefix (bs : List Nat) : bs <+: (fill_alloc [] 0 bs).drop 0 := by
  rw [fill_alloc_nil]
  exact List.prefix_append _ _

theorem status_line_200 {buf : List Nat} (len : Nat) (r : https_response_result_t)
    (hp : str "HTTP/1.1 200 " <+: buf) (hlen : 13 ≤ len) :
    parse_status_line buf len r = .ok (none, { r with status_code := 200, parse_status := 1 }) := by
  obtain ⟨t, rfl⟩ := hp
  obtain ⟨k, rfl⟩ : ∃ k, len = k + 13 := ⟨len - 13, by omega⟩
  have e : str "HTTP/1.1 200 " = [72, 84, 84, 80, 47, 49, 46, 49, 32, 50, 48, 48, 32] := by
    decide
  rw [e]
  have hs : scan_spaces ([72, 84, 84, 80, 47, 49, 46, 49, 32, 50, 48, 48, 32] ++ t) (k + 13)
      0 0 0 = .ok (8, 12) := by
    simp [scan_spaces, rd]
  have hc : to_u32 (atoi (List.take 3 (List.drop (8 + 1)
      ([72, 84, 84, 80, 47, 49, 46, 49, 32, 50, 48, 48, 32] ++ t)))) = 200 := by
    simp only [List.cons_append, List.drop_succ_cons, List.drop_zero, List.take_succ_cons,
      List.take_zero]
    decide
  unfold parse_status_line
  rw [hs]
  simp only
  rw [if_neg (by decide), if_pos hc]

theorem content_length_no_cr : ∀ y ∈ str "Content-Length: ", y ≠ 13 := by decide

theorem response_header_length (before after : List (List Nat)) (n : Nat) :
    (response_header before after n).length =
      (header_lines (str "HTTP/1.1 200 OK" :: before)).length + (16 + (decimal n).length) + 2 +
        (header_lines after).length + 2 := by
  have e : (str "Content-Length: ").length = 16 := rfl
  simp only [response_header, List.length_append, List.length_cons, List.length_nil, e]
  omega

theorem decimal_length_u32 (n : Nat) (hn : n < U32) : (decimal n).length ≤ 11 := by
  have := decimal_length n 9 (by unfold U32 at hn; omega)
  omega

theorem scan_response_header (buf : List Nat) (before after : List (List Nat)) (n k : Nat)
    (r : https_response_result_t)
    (hbuf : response_header before after n <+: buf)
    (hb : ∀ l ∈ before, other_header l) (ha : ∀ l ∈ after, other_header l)
    (hn : n < U32) (hH : (response_header before after n).length < U32) :
    scan_headers buf (k + ((response_header before after n).length - 3)) 0 0 r =
      .ok (false, { r with body_len := n, parse_status := 4,
                           header_len := (response_header before after n).length,
                           body := some (response_header before after n).length }) := by
  have hH' := response_header_length before after n
  set L1 := (header_lines (str "HTTP/1.1 200 OK" :: before)).length with hL1
  set ds := decimal n with hds
  have hdne : ds ≠ [] := decimal_ne_nil n
  have hdd : ∀ x ∈ ds, isdigit x = true := decimal_all_digit n
  have hdl : ds.length ≤ 11 := decimal_length_u32 n hn
  have hval : to_u32 (atoi ds) = n := by
    rw [hds, atoi_decimal, to_u32_nat n hn]
  have hS : ∀ l ∈ str "HTTP/1.1 200 OK" :: before, other_header l := by
    intro l hl
    rcases List.mem_cons.mp hl with rfl | hl
    · decide
    · exact hb l hl
  -- the layout of the buffer
  have hlay : (header_lines (str "HTTP/1.1 200 OK" :: before) ++
      (67 :: (str "ontent-Length: " ++ ds ++ 13 :: 10 :: header_lines after ++ [13, 10])))
      <+: buf.drop 0 := by
    have e : response_header before after n =
        header_lines (str "HTTP/1.1 200 OK" :: before) ++
          (67 :: (str "ontent-Length: " ++ ds ++ 13 :: 10 :: header_lines after ++ [13, 10])) := by
      have e1 : str "Content-Length: " = 67 :: str "ontent-Length: " := by decide
      simp only [response_header, e1, List.append_assoc, List.cons_append]
    rw [← e]
    simpa using hbuf
  have hcl : (str "Content-Length: " ++ ds ++ 13 :: 10 :: header_lines after ++ [13, 10])
      <+: buf.drop L1 := by
    have := prefix_skip hlay
    have e1 : str "Content-Length: " = 67 :: str "ontent-Length: " := by decide
    simpa [e1] using this
  -- the lines before the Content-Length line
  have stepA := scan_headers_others buf r (str "HTTP/1.1 200 OK" :: before) 0
    (k + ((response_header before after n).length - 3 - L1)) 67 _ hS hlay (by decide)
  rw [show k + ((response_header before after n).length - 3) =
      k + ((response_header before after n).length - 3 - L1) + L1 by omega, stepA]
  simp only [Nat.zero_add]
  have hle := line_end_length (p := L1) r
    (prefix_left (l := str "Content-Length: " ++ ds ++ [13, 10])
      (m := header_lines after ++ [13, 10]) (by simpa using hcl)) hdne hdd hdl (by omega)
  rw [hval] at hle
  have hcl_len : (str "Content-Length: " ++ ds).length = 16 + ds.length := by
    rw [List.length_append]; rfl
  have hcr : ∀ y ∈ str "Content-Length: " ++ ds, y ≠ 13 := by
    intro y hy
    rcases List.mem_append.mp hy with h | h
    · exact content_length_no_cr y h
    · have := hdd y h
      intro e
      rw [e] at this
      simp [isdigit] at this
  cases after with
  | nil =>
    have hline : (str "Content-Length: " ++ ds ++ [13, 10, 13, 10]) <+: buf.drop L1 := by
      simpa [header_lines] using hcl
    have := scan_headers_last_line k (r := r) hline hcr
      (by rw [hcl_len, ← Nat.add_assoc]; exact hle) rfl
    simp only [header_lines, List.length_nil] at hH'
    rw [show k + ((response_header before [] n).length - 3 - L1) =
        k + ((str "Content-Length: " ++ ds).length + 1) by rw [hcl_len]; omega, this]
    simp only [Except.ok.injEq, Prod.mk.injEq, true_and]
    rw [hcl_len]
    congr 1
    · omega
    · congr 1; omega
  | cons l2 ls =>
    obtain ⟨y, t', hy, hy13⟩ := header_lines_cons_head l2 ls [13, 10]
      (ha l2 (List.mem_cons_self _ _))
    have hline : (str "Content-Length: " ++ ds ++ [13, 10, y]) <+: buf.drop L1 := by
      have e : str "Content-Length: " ++ ds ++ 13 :: 10 :: header_lines (l2 :: ls) ++ [13, 10] =
          (str "Content-Length: " ++ ds ++ [13, 10, y]) ++ t' := by
        simp only [List.append_assoc, List.cons_append, hy, List.nil_append]
      rw [e] at hcl
      exact prefix_left hcl
    have hnext : (header_lines (l2 :: ls) ++ [13, 10]) <+: buf.drop (L1 + (16 + ds.length) + 2) := by
      have := prefix_skip (l := str "Content-Length: " ++ ds ++ [13, 10])
        (m := header_lines (l2 :: ls) ++ [13, 10]) (by simpa using hcl)
      have e : (str "Content-Length: " ++ ds ++ [13, 10]).length = 16 + ds.length + 2 := by
        rw [List.length_append, hcl_len]; rfl
      rw [e, ← Nat.add_assoc] at this
      exact this
    have hpos : 2 ≤ (header_lines (l2 :: ls)).length := by
      simp [header_lines]; omega
    have s1 := scan_headers_line (k + ((header_lines (l2 :: ls)).length - 1)) (r := r) hline hcr
      hy13 (by rw [hcl_len, ← Nat.add_assoc]; exact hle)
    have s2 := scan_headers_others_end buf
      { r with body_len := n, parse_status := 2 } rfl (l2 :: ls)
      (L1 + (16 + ds.length) + 2) k (by simp) ha hnext
    rw [show k + ((response_header before (l2 :: ls) n).length - 3 - L1) =
        k + ((header_lines (l2 :: ls)).length - 1) + ((str "Content-Length: " ++ ds).length + 2)
        by rw [hcl_len]; omega, s1, hcl_len, s2]
    simp only [Except.ok.injEq, Prod.mk.injEq, true_and]
    congr 1
    · omega
    · congr 1; omega

/-! ## From the environment to the response -/

theorem parse_response_header (bak_ok : Bool) (buf : List Nat) (before after : List (List Nat))
    (n len : Nat) (hbuf : response_header before after n <+: buf)
    (hb : ∀ l ∈ before, other_header l) (ha : ∀ l ∈ after, other_header l)
    (hn : n < U32) (hH : (response_header before after n).length ≤ len) (hlen : len < U32) :
    https_parse_response bak_ok buf len https_response_result_t.zero =
      .ok (4, { status_code := 200, header_len := (response_header before after n).length,
                body := some (response_header before after n).length, body_len := n,
                header_bak := none, parse_status := 4 }) := by
  have hH' := response_header_length before after n
  have hS : 17 ≤ (header_lines (str "HTTP/1.1 200 OK" :: before)).length := by
    simp [header_lines]
    have : (str "HTTP/1.1 200 OK").length = 15 := rfl
    omega
  have hst : str "HTTP/1.1 200 " <+: buf := by
    refine List.IsPrefix.trans ?_ hbuf
    have e : header_lines (str "HTTP/1.1 200 OK" :: before) =
        str "HTTP/1.1 200 " ++ (str "OK" ++ 13 :: 10 :: header_lines before) := by
      have : str "HTTP/1.1 200 OK" = str "HTTP/1.1 200 " ++ str "OK" := by decide
      simp [header_lines, this]
    simp only [response_header, e, List.append_assoc]
    exact List.prefix_append _ _
  have h1 := status_line_200 len https_response_result_t.zero hst (by omega)
  have h2 := scan_response_header buf before after n
    (len - ((response_header before after n).length - 3))
    { https_response_result_t.zero with status_code := 200, parse_status := 1 }
    hbuf hb ha hn (by omega)
  rw [show len - ((response_header before after n).length - 3) +
      ((response_header before after n).length - 3) = len by omega] at h2
  unfold https_parse_response
  rw [if_pos (by rfl), h1]
  simp only [Nat.reduceEqDiff, if_false, if_true]
  unfold parse_phase1
  rw [h2]
  simp [https_response_result_t.zero]

theorem https_download_of_request_sent (env : Env) (h : env.request_sent) :
    ∃ request, https_download env = download_response env env.write_ret request := by
  obtain ⟨hu, h1, h2, h3, h4, h5, h6, h7, h8, h9⟩ := h
  obtain ⟨⟨host, port, resource⟩, hurl⟩ := Option.isSome_iff_exists.mp hu
  refine ⟨request_line resource host, ?_⟩
  unfold https_download
  rw [hurl]
  simp only
  rw [if_neg (by simp [h1]), if_neg (by simp [h2]), if_neg (by simp [h3]), if_neg (by simp [h4]),
    if_neg (by simp [h5]), if_neg (by simp [h6]), if_neg (by simp [h7]), if_neg (by simp [h8]),
    if_neg (by omega)]

theorem header_loop_done (bak_ok : Bool) (fuel : Nat) (h : Headers) (hf : 0 < fuel)
    (hs : 3 < h.rsp_result.parse_status) : header_loop bak_ok fuel h = .ok (.done h) := by
  cases fuel with
  | zero => omega
  | succ f =>
    unfold header_loop
    rw [if_neg (by omega)]

theorem body_loop_done (body_len fuel : Nat) (t : Transfer) (hf : 0 < fuel)
    (hs : ¬ t.total_written < body_len) : body_loop body_len fuel t = some t := by
  cases fuel with
  | zero => omega
  | succ f =>
    unfold body_loop
    rw [if_neg hs]

theorem header_loop_first_chunk (bak_ok : Bool) (fuel : Nat) (bs : List Nat)
    (rest : List SslRead) (r : https_response_result_t) (alloc0 : List Nat) (idx0 : Nat)
    (hbs : bs ≠ []) (hfit : bs.length ≤ HTTPS_DOWNLOAD_BUF_SIZE) (hf : 2 ≤ fuel)
    (hparse : https_parse_response bak_ok (fill_alloc [] 0 bs) bs.length
      https_response_result_t.zero = .ok (4, r)) (hr : r.parse_status = 4) :
    header_loop bak_ok fuel
        { rsp_result := https_response_result_t.zero, idx := idx0, alloc := alloc0,
          script := .data bs :: rest } =
      .ok (.done { rsp_result := r, idx := bs.length, alloc := fill_alloc [] 0 bs,
                   script := rest }) := by
  obtain ⟨f, rfl⟩ : ∃ f, fuel = f + 1 := ⟨fuel - 1, by omega⟩
  have hlen : bs.length ≠ 0 := by
    intro h; exact hbs (List.length_eq_zero.mp h)
  have hstep : header_step bak_ok (.data bs :: rest) https_response_result_t.zero =
      .ok (.next { rsp_result := r, idx := bs.length, alloc := fill_alloc [] 0 bs,
                   script := rest }) := by
    unfold header_step
    rw [if_pos (by rfl)]
    simp only [mbedtls_ssl_read, hfit, if_true, hlen, if_false, header_parse, hparse]
    simp
  unfold header_loop
  rw [if_pos (by simp [https_response_result_t.zero])]
  simp only [hstep]
  exact header_loop_done _ _ _ (by omega) (by simp [hr])

theorem single_chunk_download (env : Env) (before after : List (List Nat)) (body : List Nat)
    (rest : List SslRead)
    (hsent : env.request_sent) (hopen : env.open_ok = true)
    (hdisk : body.length ≤ env.disk_free)
    (hb : ∀ l ∈ before, other_header l) (ha : ∀ l ∈ after, other_header l)
    (hbody : body ≠ [])
    (hreads : env.reads = .data (response_header before after body.length ++ body) :: rest)
    (hfit : (response_header before after body.length ++ body).length ≤
      HTTPS_DOWNLOAD_BUF_SIZE) :
    ∃ d, https_download env = .ok d ∧ d.ret = 0 ∧ d.file = some body ∧
      d.total_written = body.length ∧ d.body_len = body.length ∧ d.script = rest := by
  obtain ⟨request, hreq⟩ := https_download_of_request_sent env hsent
  set R := response_header before after body.length ++ body with hR
  set H := (response_header before after body.length).length with hHdef
  have hRlen : R.length = H + body.length := by simp [hR, hHdef]
  have hbpos : 0 < body.length := List.length_pos.mpr hbody
  have h512 : HTTPS_DOWNLOAD_BUF_SIZE = 512 := rfl
  have hU : U32 = 4294967296 := rfl
  have hparse := parse_response_header env.bak_ok (fill_alloc [] 0 R) before after body.length
    R.length ((List.prefix_append _ _).trans (by simpa using fill_alloc_nil_prefix R))
    hb ha (by omega) (by omega) (by omega)
  have hloop := header_loop_first_chunk env.bak_ok (script_size env.reads + 1) R rest _ [] 0
    (by intro h; rw [h] at hRlen; simp at hRlen; omega) hfit
    (by rw [hreads]; simp [script_size]; omega) hparse rfl
  rw [hreads] at hloop
  have hwl : writelen
      (⟨⟨200, H, some H, body.length, none, 4⟩, R.length, fill_alloc [] 0 R, rest⟩ :
        Headers) =
      body.length := by
    unfold writelen
    simp only
    rw [show R.length + U32 - H = body.length + U32 by omega, Nat.add_mod_right,
      Nat.mod_eq_of_lt (by omega)]
  have hfs : first_slice
      (⟨⟨200, H, some H, body.length, none, 4⟩, R.length, fill_alloc [] 0 R, rest⟩ :
        Headers) =
      body := by
    unfold first_slice
    rw [hwl]
    simp only
    rw [fill_alloc_nil, hR, List.append_assoc, List.drop_left' hHdef.symm,
      List.take_left' rfl]
  have hflush : initial_flush env.disk_free
      (⟨⟨200, H, some H, body.length, none, 4⟩, R.length, fill_alloc [] 0 R, rest⟩ :
        Headers) =
      (true, ⟨⟨body, env.disk_free - body.length⟩, body.length, 0, rest⟩) := by
    unfold initial_flush
    rw [hwl, hfs, if_pos hbpos]
    simp only [sys_file_write, Nat.min_eq_left hdisk, decide_True, List.take_length,
      List.nil_append, Nat.mod_eq_of_lt (show body.length < U32 by omega)]
    simp
  have hbody_run : download_body env env.write_ret request
      (⟨⟨200, H, some H, body.length, none, 4⟩, R.length, fill_alloc [] 0 R, rest⟩ :
        Headers) =
      .ok (Download.late 0 request ⟨200, H, some H, body.length, none, 4⟩
        ⟨⟨body, env.disk_free - body.length⟩, body.length, 0, rest⟩) := by
    unfold download_body
    have hal : (fill_alloc [] 0 R).length = 512 := by
      rw [fill_alloc_nil]; simp only [List.length_append, List.length_replicate]; omega
    rw [if_neg (by simp only; omega), if_neg (by simp [hopen]),
      if_neg (by rw [hwl, hal]; simp only; omega), hflush]
    simp only
    rw [body_loop_done _ _ _ (by omega) (by simp)]
    simp
  refine ⟨Download.late 0 request ⟨200, H, some H, body.length, none, 4⟩
    ⟨⟨body, env.disk_free - body.length⟩, body.length, 0, rest⟩, ?_, rfl, rfl, rfl, rfl, rfl⟩
  rw [hreq]
  unfold download_response
  rw [hreads, hloop]
  exact hbody_run

/-! ## The status line -/

theorem status_line_not_200 (a b c : Nat) (t : List Nat) (k : Nat)
    (r : https_response_result_t) (hcode : [a, b, c] ≠ str "200")
    (hnul : [a, b, c] = str "302" → 0 ∈ t) :
    ∃ r', parse_status_line (str "HTTP/1.1 " ++ a :: b :: c :: 32 :: t) (k + 13) r =
      .ok (some (-1), r') ∧ r'.parse_status = r.parse_status := by
  have e : str "HTTP/1.1 " = [72, 84, 84, 80, 47, 49, 46, 49, 32] := by decide
  rw [e]
  unfold parse_status_line
  by_cases ha : a = 32
  · subst ha
    have hs : scan_spaces ([72, 84, 84, 80, 47, 49, 46, 49, 32] ++ 32 :: b :: c :: 32 :: t)
        (k + 13) 0 0 0 = .ok (8, 9) := by
      simp [scan_spaces, rd]
    rw [hs]
    exact ⟨r, by simp [U32], rfl⟩
  by_cases hb : b = 32
  · subst hb
    have hs : scan_spaces ([72, 84, 84, 80, 47, 49, 46, 49, 32] ++ a :: 32 :: c :: 32 :: t)
        (k + 13) 0 0 0 = .ok (8, 10) := by
      simp [scan_spaces, rd, ha]
    rw [hs]
    exact ⟨r, by simp [U32], rfl⟩
  by_cases hc : c = 32
  · subst hc
    have hs : scan_spaces ([72, 84, 84, 80, 47, 49, 46, 49, 32] ++ a :: b :: 32 :: 32 :: t)
        (k + 13) 0 0 0 = .ok (8, 11) := by
      simp [scan_spaces, rd, ha, hb]
    rw [hs]
    exact ⟨r, by simp [U32], rfl⟩
  have hs : scan_spaces ([72, 84, 84, 80, 47, 49, 46, 49, 32] ++ a :: b :: c :: 32 :: t)
      (k + 13) 0 0 0 = .ok (8, 12) := by
    simp [scan_spaces, rd, ha, hb, hc]
  rw [hs]
  have hne : to_u32 (atoi (List.take 3 (List.drop (8 + 1)
      ([72, 84, 84, 80, 47, 49, 46, 49, 32] ++ a :: b :: c :: 32 :: t)))) ≠ 200 := by
    simp only [List.cons_append, List.drop_succ_cons, List.drop_zero, List.take_succ_cons,
      List.take_zero, List.nil_append]
    intro h
    obtain ⟨h1, h2, h3⟩ := status_200 a b c h
    subst h1 h2 h3
    exact hcode (by decide)
  simp only
  rw [if_neg (by simp [U32]), if_neg hne]
  by_cases h302 : to_u32 (atoi (List.take 3 (List.drop (8 + 1)
      ([72, 84, 84, 80, 47, 49, 46, 49, 32] ++ a :: b :: c :: 32 :: t)))) = 302
  · rw [if_pos h302]
    have hmem : 0 ∈ [72, 84, 84, 80, 47, 49, 46, 49, 32] ++ a :: b :: c :: 32 :: t := by
      have h' := h302
      simp only [List.cons_append, List.drop_succ_cons, List.drop_zero, List.take_succ_cons,
        List.take_zero, List.nil_append] at h'
      obtain ⟨h1, h2, h3⟩ := status_302 a b c h'
      subst h1 h2 h3
      have := hnul (by decide)
      simp [this]
    rw [if_pos hmem]
    exact ⟨_, rfl, rfl⟩
  · rw [if_neg h302]
    exact ⟨_, rfl, rfl⟩

theorem parse_response_not_200 (bak_ok : Bool) (a b c : Nat) (t pad : List Nat)
    (hcode : [a, b, c] ≠ str "200") (hnul : [a, b, c] = str "302" → 0 ∈ t ++ pad) :
    ∃ r, https_parse_response bak_ok ((str "HTTP/1.1 " ++ a :: b :: c :: 32 :: t) ++ pad)
      (str "HTTP/1.1 " ++ a :: b :: c :: 32 :: t).length https_response_result_t.zero =
        .ok (-1, r) ∧ r.parse_status = 0 := by
  have hl : (str "HTTP/1.1 " ++ a :: b :: c :: 32 :: t).length = t.length + 13 := by
    have : (str "HTTP/1.1 ").length = 9 := rfl
    simp [this]
    omega
  obtain ⟨r', h1, h2⟩ := status_line_not_200 a b c (t ++ pad) t.length
    https_response_result_t.zero hcode hnul
  refine ⟨r', ?_, h2⟩
  unfold https_parse_response
  rw [if_pos (by rfl), hl]
  have e : (str "HTTP/1.1 " ++ a :: b :: c :: 32 :: t) ++ pad =
      str "HTTP/1.1 " ++ a :: b :: c :: 32 :: (t ++ pad) := by simp
  rw [e, h1]


/-! ## The header end in a buffer -/

theorem get_of_drop {buf l : List Nat} {j : Nat} (h : buf.drop j = l) (k : Nat) :
    buf[j + k]? = l[k]? := by
  rw [← h, List.getElem?_drop]

theorem at_header_end_of_term {buf : List Nat} {j : Nat} (h : term_at buf j) :
    at_header_end buf j = .ok true := by
  have h0 := prefix_head h
  have h1 := prefix_head (prefix_tail h)
  have h2 := prefix_head (prefix_tail (prefix_tail h))
  have h3 := prefix_head (prefix_tail (prefix_tail (prefix_tail h)))
  simp [at_header_end, at_crlf_of_crlf h0 h1, at_crlf_of_crlf h2 h3]

theorem not_term_of_at_header_end {buf : List Nat} {j : Nat}
    (h : at_header_end buf j = .ok false) : ¬ term_at buf j := by
  intro ht
  rw [at_header_end_of_term ht] at h
  cases h

theorem term_at_append {data : List Nat} (pad : List Nat) {j : Nat} (h : term_at data j) :
    term_at (data ++ pad) j := by
  obtain ⟨t, ht⟩ := h
  have hj : j ≤ data.length := by
    by_contra hc
    rw [List.drop_eq_nil_of_le (by omega)] at ht
    simp at ht
  unfold term_at
  rw [List.drop_append_of_le_length hj, ← ht]
  exact ⟨t ++ pad, by simp⟩

theorem at_crlf_of_get {buf : List Nat} {j a b : Nat} (h0 : buf[j]? = some a)
    (h1 : buf[j + 1]? = some b) : at_crlf buf j = .ok (decide (a = 13 ∧ b = 10)) := by
  by_cases ha : a = 13 <;> by_cases hb : b = 10 <;> simp [at_crlf, rd, h0, h1, ha, hb]

theorem at_header_end_of_crlf_false {buf : List Nat} {j : Nat}
    (h : at_crlf buf j = .ok false) : at_header_end buf j = .ok false := by
  simp [at_header_end, h]

theorem at_header_end_of_second_false {buf : List Nat} {j : Nat} (b : Bool)
    (h : at_crlf buf j = .ok b) (h2 : at_crlf buf (j + 2) = .ok false) :
    at_header_end buf j = .ok false := by
  cases b <;> simp [at_header_end, h, h2]

/-- On data followed by a zero byte the test for the header end never leaves the buffer and
finds only the occurrences inside the data. -/
theorem at_header_end_padded (data pad : List Nat) (j : Nat) (hj : j ≤ data.length)
    (hn : ¬ term_at data j) : at_header_end (data ++ 0 :: pad) j = .ok false := by
  have hd : (data ++ 0 :: pad).drop j = data.drop j ++ 0 :: pad := by
    rw [List.drop_append_of_le_length hj]
  unfold term_at at hn
  rcases hdd : data.drop j with _ | ⟨a, _ | ⟨b, _ | ⟨c, _ | ⟨e, d⟩⟩⟩⟩
  · rw [hdd] at hd
    have g0 : (data ++ 0 :: pad)[j]? = some 0 := by simpa using get_of_drop hd 0
    exact at_header_end_of_ne g0 (by decide)
  · rw [hdd] at hd
    have g0 : (data ++ 0 :: pad)[j]? = some a := by simpa using get_of_drop hd 0
    have g1 : (data ++ 0 :: pad)[j + 1]? = some 0 := by simpa using get_of_drop hd 1
    apply at_header_end_of_crlf_false
    rw [at_crlf_of_get g0 g1]
    simp
  · rw [hdd] at hd
    have g0 : (data ++ 0 :: pad)[j]? = some a := by simpa using get_of_drop hd 0
    have g1 : (data ++ 0 :: pad)[j + 1]? = some b := by simpa using get_of_drop hd 1
    have g2 : (data ++ 0 :: pad)[j + 2]? = some 0 := by simpa using get_of_drop hd 2
    exact at_header_end_of_second_false _ (at_crlf_of_get g0 g1) (at_crlf_of_ne g2 (by decide))
  · rw [hdd] at hd
    have g0 : (data ++ 0 :: pad)[j]? = some a := by simpa using get_of_drop hd 0
    have g1 : (data ++ 0 :: pad)[j + 1]? = some b := by simpa using get_of_drop hd 1
    have g2 : (data ++ 0 :: pad)[j + 2]? = some c := by simpa using get_of_drop hd 2
    have g3 : (data ++ 0 :: pad)[j + 2 + 1]? = some 0 := by simpa using get_of_drop hd 3
    refine at_header_end_of_second_false _ (at_crlf_of_get g0 g1) ?_
    rw [at_crlf_of_get g2 g3]
    simp
  · rw [hdd] at hd hn
    have g0 : (data ++ 0 :: pad)[j]? = some a := by simpa using get_of_drop hd 0
    have g1 : (data ++ 0 :: pad)[j + 1]? = some b := by simpa using get_of_drop hd 1
    have g2 : (data ++ 0 :: pad)[j + 2]? = some c := by simpa using get_of_drop hd 2
    have g3 : (data ++ 0 :: pad)[j + 2 + 1]? = some e := by simpa using get_of_drop hd 3
    have hne : ¬ ((a = 13 ∧ b = 10) ∧ (c = 13 ∧ e = 10)) := by
      rintro ⟨⟨rfl, rfl⟩, rfl, rfl⟩
      exact hn ⟨d, rfl⟩
    by_cases h1 : a = 13 ∧ b = 10
    · have h2 : ¬ (c = 13 ∧ e = 10) := fun h => hne ⟨h1, h⟩
      refine at_header_end_of_second_false _ (at_crlf_of_get g0 g1) ?_
      rw [at_crlf_of_get g2 g3]
      simp [h2]
    · apply at_header_end_of_crlf_false
      rw [at_crlf_of_get g0 g1]
      simp [h1]

theorem scan_header_end_none (buf : List Nat) (r : https_response_result_t) :
    ∀ (k i : Nat), (∀ j, i ≤ j → j < i + k → at_header_end buf j = .ok false) →
      scan_header_end buf k i r = .ok r := by
  intro k
  induction k with
  | zero => intro i _; rfl
  | succ k ih =>
    intro i h
    unfold scan_header_end
    rw [h i (Nat.le_refl _) (by omega)]
    exact ih (i + 1) (fun j h1 h2 => h j (by omega) (by omega))

theorem scan_header_end_found (buf : List Nat) (r : https_response_result_t) (t : Nat)
    (ht : at_header_end buf t = .ok true) :
    ∀ (k i : Nat), i ≤ t → t < i + k →
      (∀ j, i ≤ j → j < t → at_header_end buf j = .ok false) →
      scan_header_end buf k i r =
        .ok { r with parse_status := 4, header_len := t + 4, body := some (t + 4) } := by
  intro k
  induction k with
  | zero => intro i h1 h2; omega
  | succ k ih =>
    intro i h1 h2 h
    unfold scan_header_end
    by_cases hit : i = t
    · subst hit
      rw [ht]
    · rw [h i (Nat.le_refl _) (by omega)]
      exact ih (i + 1) (by omega) (by omega) (fun j h3 h4 => h j (by omega) h4)

/-- A scan of the header lines that ends with `parse_status = 4` found the header end at the
first offset where the test succeeds. -/
theorem scan_headers_found (buf : List Nat) :
    ∀ (k i p : Nat) (r r' : https_response_result_t),
      scan_headers buf k i p r = .ok (false, r') → r.parse_status ≠ 4 → r'.parse_status = 4 →
      ∃ t, i ≤ t ∧ t < i + k ∧ r'.header_len = t + 4 ∧ at_header_end buf t = .ok true ∧
        ∀ j, i ≤ j → j < t → at_header_end buf j = .ok false := by
  intro k
  induction k with
  | zero =>
    intro i p r r' h h1 h2
    simp only [scan_headers, Except.ok.injEq, Prod.mk.injEq, true_and] at h
    rw [h] at h1
    exact absurd h2 h1
  | succ k ih =>
    intro i p r r' h h1 h2
    unfold scan_headers at h
    split at h
    · cases h
    · rename_i p1 r1 hl
      have hr1 := line_end_status _ _ _ _ _ _ hl
      split at h
      · cases h
      · rename_i hend
        split at h
        · cases h
          exact ⟨i, Nat.le_refl _, by omega, rfl, hend, fun j h3 h4 => by omega⟩
        · cases h
      · rename_i hend
        have hr1' : r1.parse_status ≠ 4 := by
          rcases hr1 with e | e <;> omega
        obtain ⟨t, t1, t2, t3, t4, t5⟩ := ih _ _ _ _ h hr1' h2
        refine ⟨t, by omega, by omega, t3, t4, ?_⟩
        intro j h3 h4
        by_cases hji : j = i
        · subst hji; exact hend
        · exact t5 j (by omega) h4

/-! ## Header lines cut off by the end of a chunk -/

theorem scan_headers_zero (buf : List Nat) (i p : Nat) (r : https_response_result_t) :
    scan_headers buf 0 i p r = .ok (false, r) := rfl

/-- A complete line that is not followed by the empty line: the scan moves to the next line
with the result of `line_end`. -/
theorem scan_headers_line_gen {buf : List Nat} {p : Nat} {l : List Nat} (k : Nat)
    {r r1 : https_response_result_t}
    (hline : (l ++ [13, 10]) <+: buf.drop p) (hl : ∀ y ∈ l, y ≠ 13)
    (hend : at_header_end buf (p + l.length) = .ok false)
    (hle : line_end buf (p + l.length) p r = .ok (p + l.length + 2, r1)) :
    scan_headers buf (k + (l.length + 2)) p p r =
      scan_headers buf k (p + l.length + 2) (p + l.length + 2) r1 := by
  have h13 : (13 :: [10]) <+: buf.drop (p + l.length) := prefix_skip (l := l) hline
  have b1 := prefix_head (prefix_tail h13)
  rw [show k + (l.length + 2) = (k + 2) + l.length by omega,
    scan_headers_skip buf p r l p (k + 2) hl (prefix_left (l := l) hline)]
  rw [show k + 2 = (k + 1) + 1 by omega]
  simp only [scan_headers, hle, hend]
  exact scan_headers_step_ne k _ r1 b1 (by decide)

/-- A lone CR at the end of the data (a zero byte follows): the scan steps over it. -/
theorem scan_headers_step_cr {buf : List Nat} {i : Nat} (k p : Nat)
    (r : https_response_result_t) (h : buf[i]? = some 13) (h1 : buf[i + 1]? = some 0) :
    scan_headers buf (k + 1) i p r = scan_headers buf k (i + 1) p r := by
  have hc : at_crlf buf i = .ok false := by
    rw [at_crlf_of_get h h1]; simp
  simp [scan_headers, line_end, hc, at_header_end_of_crlf_false hc]

/-- Header lines cut off before the empty line is complete, followed by a zero byte: with the
length known the scan runs to the end of the data and changes nothing. -/
theorem scan_headers_truncated (buf : List Nat) (r : https_response_result_t) :
    ∀ (ls : List (List Nat)) (m p : Nat) (pad : List Nat), (∀ l ∈ ls, other_header l) →
      buf.drop p = (header_lines ls ++ [13]).take m ++ 0 :: pad →
      scan_headers buf ((header_lines ls ++ [13]).take m).length p p r = .ok (false, r) := by
  intro ls
  induction ls with
  | nil =>
    intro m p pad _ hd
    cases m with
    | zero => rfl
    | succ m =>
      have e : (header_lines [] ++ [13]).take (m + 1) = [13] := by
        simp [header_lines]
      rw [e] at hd ⊢
      have g0 : buf[p]? = some 13 := by simpa using get_of_drop hd 0
      have g1 : buf[p + 1]? = some 0 := by simpa using get_of_drop hd 1
      have := scan_headers_step_cr 0 p r g0 g1
      simpa using this
  | cons l ls ih =>
    intro m p pad h hd
    have ho := h l (List.mem_cons_self _ _)
    have hrest : ∀ l' ∈ ls, other_header l' := fun l' hl' => h l' (List.mem_cons_of_mem _ hl')
    have hcr := other_header_no_cr ho
    have e : header_lines (l :: ls) ++ [13] = l ++ (13 :: 10 :: (header_lines ls ++ [13])) := by
      simp [header_lines]
    rw [e] at hd ⊢
    by_cases hm : m ≤ l.length
    · -- the cut is inside the line
      have e1 : (l ++ (13 :: 10 :: (header_lines ls ++ [13]))).take m = l.take m := by
        rw [List.take_append_of_le_length hm]
      rw [e1] at hd ⊢
      have hpre : l.take m <+: buf.drop p := ⟨0 :: pad, hd.symm⟩
      have := scan_headers_skip buf p r (l.take m) p 0
        (fun y hy => hcr y (List.mem_of_mem_take hy)) hpre
      simpa using this
    · by_cases hm1 : m = l.length + 1
      · -- the cut is between CR and LF
        have e1 : (l ++ (13 :: 10 :: (header_lines ls ++ [13]))).take m = l ++ [13] := by
          rw [hm1, List.take_append_eq_append_take]
          simp
        rw [e1] at hd ⊢
        have hpre : l <+: buf.drop p := ⟨13 :: 0 :: pad, by rw [hd]; simp⟩
        have hd' : buf.drop (p + l.length) = 13 :: 0 :: pad := by
          rw [← List.drop_drop, hd]; simp
        have g0 : buf[p + l.length]? = some 13 := by simpa using get_of_drop hd' 0
        have g1 : buf[p + l.length + 1]? = some 0 := by simpa using get_of_drop hd' 1
        have s1 := scan_headers_skip buf p r l p 1 hcr hpre
        have hlen : (l ++ [13]).length = 1 + l.length := by simp; omega
        rw [hlen, s1, scan_headers_step_cr 0 p r g0 g1]
        rfl
      · -- the line is complete
        obtain ⟨m', hm'⟩ : ∃ m', m = l.length + 2 + m' := ⟨m - (l.length + 2), by omega⟩
        have e1 : (l ++ (13 :: 10 :: (header_lines ls ++ [13]))).take m =
            l ++ 13 :: 10 :: (header_lines ls ++ [13]).take m' := by
          have hsub : l.length + 2 + m' - l.length = m' + 2 := by omega
          rw [hm', List.take_append_eq_append_take, hsub,
            List.take_of_length_le (by omega)]
          rfl
        rw [e1] at hd ⊢
        set D := (header_lines ls ++ [13]).take m' with hD
        have hline : (l ++ [13, 10]) <+: buf.drop p := ⟨D ++ 0 :: pad, by rw [hd]; simp⟩
        have hd' : buf.drop (p + l.length + 2) = D ++ 0 :: pad := by
          rw [show p + l.length + 2 = p + (l.length + 2) by omega, ← List.drop_drop, hd]
          rw [show l ++ 13 :: 10 :: D ++ 0 :: pad = (l ++ [13, 10]) ++ (D ++ 0 :: pad) by simp]
          rw [List.drop_left' (by simp)]
        -- no header end at the end of this line
        have hno : at_crlf buf (p + l.length + 2) = .ok false := by
          rcases hDc : D with _ | ⟨y, D'⟩
          · rw [hDc] at hd'
            have g0 : buf[p + l.length + 2]? = some 0 := by simpa using get_of_drop hd' 0
            exact at_crlf_of_ne g0 (by decide)
          · rw [hDc] at hd'
            have g0 : buf[p + l.length + 2]? = some y := by simpa using get_of_drop hd' 0
            cases ls with
            | nil =>
              have : D = [13].take m' := by simp [hD, header_lines]
              rw [hDc] at this
              cases m' with
              | zero => simp at this
              | succ m'' =>
                simp at this
                obtain ⟨rfl, rfl⟩ := this
                have g1 : buf[p + l.length + 2 + 1]? = some 0 := by
                  simpa using get_of_drop hd' 1
                rw [at_crlf_of_get g0 g1]
                simp
            | cons l2 ls2 =>
              have ho2 := hrest l2 (List.mem_cons_self _ _)
              have hy : y ∈ l2 := by
                cases l2 with
                | nil => exact absurd rfl ho2.1
                | cons z l2' =>
                  have : D = (z :: (l2' ++ 13 :: 10 :: header_lines ls2 ++ [13])).take m' := by
                    simp [hD, header_lines]
                  rw [hDc] at this
                  cases m' with
                  | zero => simp at this
                  | succ m'' =>
                    simp at this
                    rw [this.1]
                    exact List.mem_cons_self _ _
              exact at_crlf_of_ne g0 (other_header_no_cr ho2 y hy)
        have h13 : (13 :: [10]) <+: buf.drop (p + l.length) := prefix_skip (l := l) hline
        have hcrlf := at_crlf_of_crlf (prefix_head h13) (prefix_head (prefix_tail h13))
        have hend := at_header_end_of_second_false _ hcrlf hno
        have hle := line_end_other r hline ho
        have s1 := scan_headers_line_gen D.length hline hcr hend hle
        have s2 := ih m' (p + l.length + 2) pad hrest hd'
        have hlen : (l ++ 13 :: 10 :: D).length = D.length + (l.length + 2) := by
          simp; omega
        rw [hlen, s1]
        exact s2

/-- After cut-off header lines and a zero byte no line end stands at the start. -/
theorem truncated_head_not_crlf {buf : List Nat} {P : Nat} (ls : List (List Nat)) (m : Nat)
    (pad : List Nat) (h : ∀ l ∈ ls, other_header l)
    (hd : buf.drop P = (header_lines ls ++ [13]).take m ++ 0 :: pad) :
    at_crlf buf P = .ok false := by
  rcases hDc : (header_lines ls ++ [13]).take m with _ | ⟨y, D'⟩
  · rw [hDc] at hd
    have g0 : buf[P]? = some 0 := by simpa using get_of_drop hd 0
    exact at_crlf_of_ne g0 (by decide)
  · rw [hDc] at hd
    have g0 : buf[P]? = some y := by simpa using get_of_drop hd 0
    cases ls with
    | nil =>
      have : y :: D' = [13].take m := by simp [← hDc, header_lines]
      cases m with
      | zero => simp at this
      | succ m'' =>
        simp at this
        obtain ⟨rfl, rfl⟩ := this
        have g1 : buf[P + 1]? = some 0 := by simpa using get_of_drop hd 1
        rw [at_crlf_of_get g0 g1]
        simp
    | cons l2 ls2 =>
      have ho2 := h l2 (List.mem_cons_self _ _)
      have hy : y ∈ l2 := by
        cases l2 with
        | nil => exact absurd rfl ho2.1
        | cons z l2' =>
          have : y :: D' = (z :: (l2' ++ 13 :: 10 :: header_lines ls2 ++ [13])).take m := by
            simp [← hDc, header_lines]
          cases m with
          | zero => simp at this
          | succ m'' =>
            simp at this
            rw [this.1]
            exact List.mem_cons_self _ _
      exact at_crlf_of_ne g0 (other_header_no_cr ho2 y hy)

theorem header_to_length_length (before : List (List Nat)) (n : Nat) :
    (header_to_length before n).length =
      (header_lines (str "HTTP/1.1 200 OK" :: before)).length + (16 + (decimal n).length) + 2 := by
  have e : (str "Content-Length: ").length = 16 := rfl
  simp only [header_to_length, List.length_append, List.length_cons, List.length_nil, e]
  omega

theorem header_to_length_ge (before : List (List Nat)) (n : Nat) :
    36 ≤ (header_to_length before n).length := by
  rw [header_to_length_length]
  have h1 : 17 ≤ (header_lines (str "HTTP/1.1 200 OK" :: before)).length := by
    have : (str "HTTP/1.1 200 OK").length = 15 := rfl
    simp [header_lines, this]
    omega
  have h2 : 0 < (decimal n).length := List.length_pos.mpr (decimal_ne_nil n)
  omega

theorem response_header_eq (before after : List (List Nat)) (n : Nat) :
    response_header before after n =
      header_to_length before n ++ (header_lines after ++ [13, 10]) := by
  simp [response_header, header_to_length]

/-- The scan of a first chunk that holds the header through the Content-Length line and then
breaks off before the empty line: the length is found, the result is that of phase 2. -/
theorem scan_first_chunk_stalled (buf : List Nat) (before after : List (List Nat))
    (n m : Nat) (pad : List Nat) (r : https_response_result_t)
    (hbuf : buf = header_to_length before n ++ (header_lines after ++ [13]).take m ++ 0 :: pad)
    (hb : ∀ l ∈ before, other_header l) (ha : ∀ l ∈ after, other_header l)
    (hn : n < U32)
    (hlen : (header_to_length before n ++ (header_lines after ++ [13]).take m).length < U32) :
    scan_headers buf (header_to_length before n ++ (header_lines after ++ [13]).take m).length
      0 0 r = .ok (false, { r with body_len := n, parse_status := 2 }) := by
  have hA := header_to_length_length before n
  set L1 := (header_lines (str "HTTP/1.1 200 OK" :: before)).length with hL1
  set ds := decimal n with hds
  set D := (header_lines after ++ [13]).take m with hD
  have hdne : ds ≠ [] := decimal_ne_nil n
  have hdd : ∀ x ∈ ds, isdigit x = true := decimal_all_digit n
  have hdl : ds.length ≤ 11 := decimal_length_u32 n hn
  have hval : to_u32 (atoi ds) = n := by
    rw [hds, atoi_decimal, to_u32_nat n hn]
  have hS : ∀ l ∈ str "HTTP/1.1 200 OK" :: before, other_header l := by
    intro l hl
    rcases List.mem_cons.mp hl with rfl | hl
    · decide
    · exact hb l hl
  have e1 : str "Content-Length: " = 67 :: str "ontent-Length: " := by decide
  have hlay : buf = header_lines (str "HTTP/1.1 200 OK" :: before) ++
      (67 :: (str "ontent-Length: " ++ ds ++ 13 :: 10 :: (D ++ 0 :: pad))) := by
    rw [hbuf]
    simp only [header_to_length, e1, List.append_assoc, List.cons_append, List.nil_append]
  have hcl : buf.drop L1 = str "Content-Length: " ++ ds ++ 13 :: 10 :: (D ++ 0 :: pad) := by
    rw [hlay, List.drop_left' hL1.symm, e1]
    simp
  have hcl_len : (str "Content-Length: " ++ ds).length = 16 + ds.length := by
    rw [List.length_append]; rfl
  have hdrop : buf.drop (L1 + (16 + ds.length) + 2) = D ++ 0 :: pad := by
    rw [show L1 + (16 + ds.length) + 2 = L1 + ((16 + ds.length) + 2) by omega,
      ← List.drop_drop, hcl]
    rw [show str "Content-Length: " ++ ds ++ 13 :: 10 :: (D ++ 0 :: pad) =
      (str "Content-Length: " ++ ds ++ [13, 10]) ++ (D ++ 0 :: pad) by simp]
    rw [List.drop_left' (by rw [List.length_append, hcl_len]; rfl)]
  have hline : (str "Content-Length: " ++ ds ++ [13, 10]) <+: buf.drop L1 :=
    ⟨D ++ 0 :: pad, by rw [hcl]; simp⟩
  have hcr : ∀ y ∈ str "Content-Length: " ++ ds, y ≠ 13 := by
    intro y hy
    rcases List.mem_append.mp hy with h | h
    · exact content_length_no_cr y h
    · have := hdd y h
      intro e
      rw [e] at this
      simp [isdigit] at this
  have hle := line_end_length (p := L1) r hline hdne hdd hdl (by
    have : (header_to_length before n ++ D).length = L1 + (16 + ds.length) + 2 + D.length := by
      rw [List.length_append, hA]
    omega)
  rw [hval] at hle
  have hno := truncated_head_not_crlf after m pad ha hdrop
  have h13 : (13 :: [10]) <+: buf.drop (L1 + (str "Content-Length: " ++ ds).length) :=
    prefix_skip (l := str "Content-Length: " ++ ds) hline
  have hcrlf := at_crlf_of_crlf (prefix_head h13) (prefix_head (prefix_tail h13))
  have hend := at_header_end_of_second_false _ hcrlf
    (by rw [hcl_len, ← Nat.add_assoc]; rw [← Nat.add_assoc] at hno; exact hno)
  have stepA := scan_headers_others buf r (str "HTTP/1.1 200 OK" :: before) 0
    (D.length + ((16 + ds.length) + 2)) 67
    (str "ontent-Length: " ++ ds ++ 13 :: 10 :: (D ++ 0 :: pad)) hS
    (by rw [List.drop_zero, hlay]) (by decide)
  have s1 := scan_headers_line_gen D.length (r := r) hline hcr hend
    (by rw [hcl_len, ← Nat.add_assoc]; exact hle)
  have s2 := scan_headers_truncated buf { r with body_len := n, parse_status := 2 }
    after m (L1 + (16 + ds.length) + 2) pad ha hdrop
  have htot : (header_to_length before n ++ D).length =
      D.length + ((16 + ds.length) + 2) + L1 := by
    rw [List.length_append, hA]; omega
  rw [htot, stepA]
  simp only [Nat.zero_add]
  rw [← hcl_len, s1, hcl_len]
  exact s2

/-! ## The header loop across chunks -/

theorem carry_bytes_padded (data pad : List Nat) (h : 32 ≤ data.length) :
    carry_bytes (data ++ pad) data.length = .ok (last32 data) := by
  unfold carry_bytes last32
  have h32 : HTTPS_HEADER_BAK_LEN = 32 := rfl
  rw [if_neg (by omega), if_neg (by simp)]
  congr 1
  rw [List.drop_append_of_le_length (by omega), List.take_append_of_le_length (by simp; omega)]
  apply List.take_of_length_le
  simp
  omega

theorem last32_length (s : List Nat) (h : 32 ≤ s.length) : (last32 s).length = 32 := by
  unfold last32
  have h32 : HTTPS_HEADER_BAK_LEN = 32 := rfl
  simp
  omega

/-- A first chunk that holds the header through the Content-Length line and breaks off
before the empty line: the parser returns 3 and keeps the last 32 bytes. -/
theorem parse_first_chunk_stalled (before after : List (List Nat)) (n m : Nat)
    (pad : List Nat)
    (hb : ∀ l ∈ before, other_header l) (ha : ∀ l ∈ after, other_header l)
    (hn : n < U32)
    (hlen : (header_to_length before n ++ (header_lines after ++ [13]).take m).length < U32) :
    https_parse_response true
      (header_to_length before n ++ (header_lines after ++ [13]).take m ++ 0 :: pad)
      (header_to_length before n ++ (header_lines after ++ [13]).take m).length
      https_response_result_t.zero =
        .ok (3, stalled n (header_to_length before n ++ (header_lines after ++ [13]).take m)) := by
  set c1 := header_to_length before n ++ (header_lines after ++ [13]).take m with hc1
  have hge : 36 ≤ c1.length := by
    have := header_to_length_ge before n
    rw [hc1, List.length_append]
    omega
  have hst : str "HTTP/1.1 200 " <+: c1 ++ 0 :: pad := by
    have e : header_lines (str "HTTP/1.1 200 OK" :: before) =
        str "HTTP/1.1 200 " ++ (str "OK" ++ 13 :: 10 :: header_lines before) := by
      have : str "HTTP/1.1 200 OK" = str "HTTP/1.1 200 " ++ str "OK" := by decide
      simp [header_lines, this]
    rw [hc1]
    simp only [header_to_length, e, List.append_assoc]
    exact List.prefix_append _ _
  have h1 := status_line_200 c1.length https_response_result_t.zero hst (by omega)
  have h2 := scan_first_chunk_stalled (c1 ++ 0 :: pad) before after n m pad
    { https_response_result_t.zero with status_code := 200, parse_status := 1 }
    (by rw [hc1]) hb ha hn hlen
  rw [← hc1] at h2
  have h3 := carry_bytes_padded c1 (0 :: pad) (by omega)
  unfold https_parse_response
  rw [if_pos (by rfl), h1]
  simp only [Nat.reduceEqDiff, if_false, if_true]
  unfold parse_phase1
  rw [h2]
  simp only [Nat.reduceEqDiff, if_false, if_true, save_header_bak, h3]
  rfl

theorem term_at_bound {s : List Nat} {j : Nat} (h : term_at s j) : j + 4 ≤ s.length := by
  obtain ⟨t, ht⟩ := h
  have := congrArg List.length ht
  simp at this
  omega

theorem term_at_drop (s : List Nat) (k j : Nat) : term_at (s.drop k) j ↔ term_at s (k + j) := by
  unfold term_at
  rw [List.drop_drop]

theorem term_at_of_append {x y : List Nat} {j : Nat} (h : term_at (x ++ y) j)
    (hj : j + 4 ≤ x.length) : term_at x j := by
  obtain ⟨t, ht⟩ := h
  unfold term_at
  rw [List.drop_append_of_le_length (by omega)] at ht
  have h4 : [13, 10, 13, 10] = (x.drop j).take 4 := by
    have := congrArg (List.take 4) ht
    have e : (x.drop j ++ y).take 4 = (x.drop j).take 4 :=
      List.take_append_of_le_length (by simp; omega)
    rw [e] at this
    simpa using this
  rw [h4]
  exact List.take_prefix _ _

theorem last32_append (S c : List Nat) (h : 32 ≤ S.length) :
    last32 (last32 S ++ c) = last32 (S ++ c) := by
  have h32 : HTTPS_HEADER_BAK_LEN = 32 := rfl
  have hl := last32_length S h
  unfold last32 at *
  rw [h32] at *
  rw [List.length_append, hl, List.length_append,
    List.drop_append_eq_append_drop, List.drop_append_eq_append_drop, List.drop_drop]
  congr 1
  · congr 1; omega
  · congr 1
    simp
    omega

theorem last32_window (S c : List Nat) (h : 32 ≤ S.length) :
    last32 S ++ c = (S ++ c).drop (S.length - 32) := by
  unfold last32
  have h32 : HTTPS_HEADER_BAK_LEN = 32 := rfl
  rw [h32, List.drop_append_of_le_length (by omega)]

theorem fill_alloc_carry (carry c : List Nat) (hc : carry.length = 32)
    (hlen : c.length ≤ 479) :
    fill_alloc carry HTTPS_HEADER_BAK_LEN c =
      (carry ++ c) ++ 0 :: List.replicate (479 - c.length) 0 := by
  have h32 : HTTPS_HEADER_BAK_LEN = 32 := rfl
  have h512 : HTTPS_DOWNLOAD_BUF_SIZE = 512 := rfl
  unfold fill_alloc
  rw [h32, h512, hc]
  have : 512 - (32 + c.length) = (479 - c.length) + 1 := by omega
  rw [this, List.replicate_succ]
  simp

/-- Phase 3 on a buffer of carry bytes and a new chunk in which the header does not end: the
parser stalls again and keeps the last 32 bytes of the stream. -/
theorem parse_stalled_none (n : Nat) (S c pad : List Nat) (hS : 32 ≤ S.length)
    (hno : ∀ j, ¬ term_at (last32 S ++ c) j) :
    https_parse_response true ((last32 S ++ c) ++ 0 :: pad) (c.length + HTTPS_HEADER_BAK_LEN)
      { stalled n S with header_bak := none } = .ok (3, stalled n (S ++ c)) := by
  have h32 : HTTPS_HEADER_BAK_LEN = 32 := rfl
  have hl := last32_length S hS
  have hwin : (last32 S ++ c).length = c.length + HTTPS_HEADER_BAK_LEN := by
    rw [List.length_append, hl, h32]; omega
  have hscan := scan_header_end_none ((last32 S ++ c) ++ 0 :: pad)
    { stalled n S with header_bak := none } (c.length + HTTPS_HEADER_BAK_LEN) 0
    (fun j _ hj => at_header_end_padded _ _ j (by omega) (hno j))
  have hcarry := carry_bytes_padded (last32 S ++ c) (0 :: pad) (by rw [hwin, h32]; omega)
  rw [hwin, last32_append S c hS] at hcarry
  unfold https_parse_response
  rw [if_neg (by simp [stalled])]
  simp only
  rw [if_pos (by simp [stalled])]
  unfold parse_phase3
  rw [hscan]
  simp only
  rw [if_pos (by simp [stalled])]
  simp only [save_header_bak, if_true, hcarry]
  rw [if_neg (by simp [stalled])]
  simp [stalled]

/-- Phase 3 on a buffer of carry bytes and a new chunk in which the header ends at offset
`t`: the parser returns 4 with `header_len = t + 4`. -/
theorem parse_stalled_found (n : Nat) (S c pad : List Nat) (t : Nat) (hS : 32 ≤ S.length)
    (ht : term_at (last32 S ++ c) t) (hfirst : ∀ j, j < t → ¬ term_at (last32 S ++ c) j) :
    https_parse_response true ((last32 S ++ c) ++ 0 :: pad) (c.length + HTTPS_HEADER_BAK_LEN)
      { stalled n S with header_bak := none } =
        .ok (4, ⟨200, t + 4, some (t + 4), n, none, 4⟩) := by
  have h32 : HTTPS_HEADER_BAK_LEN = 32 := rfl
  have hl := last32_length S hS
  have hwin : (last32 S ++ c).length = c.length + HTTPS_HEADER_BAK_LEN := by
    rw [List.length_append, hl, h32]; omega
  have hb := term_at_bound ht
  have hscan := scan_header_end_found ((last32 S ++ c) ++ 0 :: pad)
    { stalled n S with header_bak := none } t
    (at_header_end_of_term (term_at_append _ ht)) (c.length + HTTPS_HEADER_BAK_LEN) 0
    (Nat.zero_le _) (by omega)
    (fun j _ hj => at_header_end_padded _ _ j (by omega) (hfirst j hj))
  unfold https_parse_response
  rw [if_neg (by simp [stalled])]
  simp only
  rw [if_pos (by simp [stalled])]
  unfold parse_phase3
  rw [hscan]
  simp [stalled]

theorem term_at_of_get {buf : List Nat} {j : Nat} (h0 : buf[j]? = some 13)
    (h1 : buf[j + 1]? = some 10) (h2 : buf[j + 2]? = some 13) (h3 : buf[j + 3]? = some 10) :
    term_at buf j := by
  unfold term_at
  rw [List.prefix_iff_eq_take]
  apply List.ext_getElem?
  intro i
  simp only [List.length_cons, List.length_nil, List.getElem?_take, List.getElem?_drop]
  rcases i with _ | _ | _ | _ | _ | i
  · simp [h0]
  · simp [h1]
  · simp [h2]
  · simp [h3]
  · rw [if_neg (by omega)]
    rfl
  · rw [if_neg (by omega)]
    rfl

theorem at_crlf_true {buf : List Nat} {j : Nat} (h : at_crlf buf j = .ok true) :
    buf[j]? = some 13 ∧ buf[j + 1]? = some 10 := by
  unfold at_crlf rd at h
  rcases h0 : buf[j]? with _ | a
  · simp [h0] at h
  · rcases h1 : buf[j + 1]? with _ | b
    · simp only [h0, h1] at h
      split_ifs at h
      cases h
    · simp only [h0, h1] at h
      split_ifs at h with ha
      · simp at h
        simp [ha, h]
      · cases h

theorem term_of_at_header_end {buf : List Nat} {j : Nat} (h : at_header_end buf j = .ok true) :
    term_at buf j := by
  unfold at_header_end at h
  rcases hc : at_crlf buf j with f | b
  · simp [hc] at h
  · cases b
    · simp [hc] at h
    · simp only [hc] at h
      have a := at_crlf_true hc
      have b := at_crlf_true h
      exact term_at_of_get a.1 a.2 b.1 b.2

/-- The empty line of a response header is the first place of the stream where CR LF CR LF
stands. -/
theorem response_header_first_term (before after : List (List Nat)) (n : Nat) (body : List Nat)
    (hb : ∀ l ∈ before, other_header l) (ha : ∀ l ∈ after, other_header l)
    (hn : n < U32) (hH : (response_header before after n).length < U32) :
    term_at (response_header before after n ++ body)
        ((response_header before after n).length - 4) ∧
      ∀ j, j < (response_header before after n).length - 4 →
        ¬ term_at (response_header before after n ++ body) j := by
  have hscan := scan_response_header (response_header before after n ++ body) before after n 0
    https_response_result_t.zero (List.prefix_append _ _) hb ha hn hH
  obtain ⟨t, -, -, hlen, ht, hfirst⟩ := scan_headers_found _ _ _ _ _ _ hscan
    (by simp [https_response_result_t.zero]) (by simp)
  simp only at hlen
  have e : (response_header before after n).length - 4 = t := by omega
  rw [e]
  exact ⟨term_of_at_header_end ht,
    fun j hj => not_term_of_at_header_end (hfirst j (Nat.zero_le _) hj)⟩

theorem stream_bytes_data (cs : List (List Nat)) (tail : List SslRead) :
    stream_bytes (cs.map .data ++ tail) = cs.flatten ++ stream_bytes tail := by
  induction cs with
  | nil => simp
  | cons c cs ih => simp [stream_bytes, ih]

/-- One turn of the header loop in state 3 on a chunk that fits the buffer behind the carry
bytes: the parser runs on the carry bytes followed by the chunk. -/
theorem header_step_stalled (n : Nat) (S c : List Nat) (rest : List SslRead)
    (hS : 32 ≤ S.length) (hc : c ≠ []) (hlen : c.length ≤ 479) :
    header_step true (.data c :: rest) (stalled n S) =
      header_parse true ((last32 S ++ c) ++ 0 :: List.replicate (479 - c.length) 0)
        (c.length + HTTPS_HEADER_BAK_LEN) { stalled n S with header_bak := none } rest := by
  have h32 : HTTPS_HEADER_BAK_LEN = 32 := rfl
  have h512 : HTTPS_DOWNLOAD_BUF_SIZE = 512 := rfl
  have hl := last32_length S hS
  have hcarry : carry_of (stalled n S) = last32 S := by
    simp only [carry_of, stalled]
    exact List.take_of_length_le (by rw [hl, h32])
  have hne : c.length ≠ 0 := fun h => hc (List.length_eq_zero.mp h)
  unfold header_step
  rw [if_neg (by simp [stalled]), if_pos (by simp [stalled])]
  simp only [mbedtls_ssl_read, h32, h512]
  rw [if_pos (by omega)]
  simp only
  rw [if_neg hne, ← h32, hcarry, fill_alloc_carry _ _ hl hlen]

/-- The header loop from state 3: when the rest of the stream arrives in non-empty chunks that
fit the buffer behind the carry bytes, the loop ends with the headers complete, and the body
bytes it identifies are the bytes of the stream after its first CR LF CR LF. -/
theorem header_loop_stalled (n T : Nat) (Z : List Nat) (tail : List SslRead)
    (hT : term_at Z T) (hfirst : ∀ j, j < T → ¬ term_at Z j) :
    ∀ (cs : List (List Nat)) (S : List Nat) (fuel idx : Nat) (alloc : List Nat),
      S ++ cs.flatten = Z → 32 ≤ S.length → S.length < T + 4 →
      (∀ c ∈ cs, c ≠ [] ∧ c.length ≤ 479) → cs.length + 1 < fuel →
      ∃ h, header_loop true fuel ⟨stalled n S, idx, alloc, cs.map .data ++ tail⟩ =
          .ok (.done h) ∧ h.rsp_result.body_len = n ∧
        first_slice h ++ stream_bytes h.script = Z.drop (T + 4) ++ stream_bytes tail := by
  have h32 : HTTPS_HEADER_BAK_LEN = 32 := rfl
  intro cs
  induction cs with
  | nil =>
    intro S fuel idx alloc hZ hS hlt _ _
    have := term_at_bound hT
    simp at hZ
    subst hZ
    omega
  | cons c cs ih =>
    intro S fuel idx alloc hZ hS hlt hcs hfuel
    obtain ⟨f, rfl⟩ : ∃ f, fuel = f + 1 := ⟨fuel - 1, by simp at hfuel; omega⟩
    obtain ⟨hc, hclen⟩ := hcs c (List.mem_cons_self _ _)
    have hZ2 : (S ++ c) ++ cs.flatten = Z := by simpa using hZ
    have hwin := last32_window S c hS
    have hl := last32_length S hS
    have hwlen : (last32 S ++ c).length = c.length + 32 := by
      rw [List.length_append, hl]; omega
    have hup : ∀ j, term_at (last32 S ++ c) j → term_at Z (S.length - 32 + j) := by
      intro j hj
      rw [hwin, term_at_drop] at hj
      rw [← hZ2]
      exact term_at_append _ hj
    unfold header_loop
    rw [if_pos (by simp [stalled])]
    simp only [List.map_cons, List.cons_append]
    rw [header_step_stalled n S c _ hS hc hclen]
    unfold header_parse
    by_cases hin : T + 4 ≤ (S ++ c).length
    · have ht : term_at (last32 S ++ c) (T - (S.length - 32)) := by
        rw [hwin, term_at_drop]
        have : S.length - 32 + (T - (S.length - 32)) = T := by omega
        rw [this]
        rw [← hZ2] at hT
        exact term_at_of_append hT hin
      have hf2 : ∀ j, j < T - (S.length - 32) → ¬ term_at (last32 S ++ c) j := by
        intro j hj hterm
        exact hfirst _ (by omega) (hup j hterm)
      rw [parse_stalled_found n S c _ _ hS ht hf2]
      simp only
      rw [if_neg (by decide)]
      simp only
      rw [header_loop_done _ _ _ (by simp at hfuel; omega) (by simp)]
      refine ⟨_, rfl, rfl, ?_⟩
      have hb := term_at_bound ht
      rw [hwlen] at hb
      have hw : writelen ⟨⟨200, T - (S.length - 32) + 4, some (T - (S.length - 32) + 4), n,
            none, 4⟩, c.length + HTTPS_HEADER_BAK_LEN,
          (last32 S ++ c) ++ 0 :: List.replicate (479 - c.length) 0, cs.map .data ++ tail⟩ =
          (last32 S ++ c).length - (T - (S.length - 32) + 4) := by
        simp only [writelen, h32, hwlen, U32]
        omega
      simp only [first_slice]
      rw [hw, List.drop_append_of_le_length (by rw [hwlen]; omega),
        List.take_append_of_le_length (by simp),
        List.take_of_length_le (by simp), stream_bytes_data, hwin, List.drop_drop, ← hZ2,
        List.drop_append_of_le_length hin, List.append_assoc]
      congr 2
      omega
    · have hno : ∀ j, ¬ term_at (last32 S ++ c) j := by
        intro j hterm
        have hb := term_at_bound hterm
        rw [hwlen] at hb
        simp at hin
        exact hfirst _ (by omega) (hup j hterm)
      rw [parse_stalled_none n S c _ hS hno]
      simp only
      rw [if_neg (by decide)]
      simp only
      exact ih (S ++ c) f _ _ hZ2 (by simp; omega) (by omega)
        (fun x hx => hcs x (List.mem_cons_of_mem _ hx)) (by simp at hfuel; omega)

theorem script_size_data (cs : List (List Nat)) :
    cs.length ≤ script_size (cs.map .data) := by
  induction cs with
  | nil => simp
  | cons c cs ih => simp only [List.map_cons, script_size, List.length_cons]; omega

theorem length_le_flatten (cs : List (List Nat)) (c : List Nat) (h : c ∈ cs) :
    c.length ≤ cs.flatten.length := by
  induction cs with
  | nil => cases h
  | cons d ds ih =>
    rw [List.flatten_cons, List.length_append]
    rcases List.mem_cons.mp h with rfl | h
    · omega
    · have := ih h
      omega

/-- The header loop on a first chunk that holds the whole header of a 200 response. -/
theorem header_outcome_first_chunk (before after : List (List Nat)) (n : Nat) (b1 : List Nat)
    (rest : List SslRead)
    (hb : ∀ l ∈ before, other_header l) (ha : ∀ l ∈ after, other_header l) (hn : n < U32)
    (hfit : (response_header before after n ++ b1).length ≤ HTTPS_DOWNLOAD_BUF_SIZE) :
    header_outcome true (.data (response_header before after n ++ b1) :: rest) =
      .ok (some (n, b1 ++ stream_bytes rest)) := by
  have h512 : HTTPS_DOWNLOAD_BUF_SIZE = 512 := rfl
  have hlen : (response_header before after n).length + b1.length ≤ 512 := by
    simpa [h512] using hfit
  have hH : 0 < (response_header before after n).length := by
    rw [response_header_length]; omega
  have hparse := parse_response_header true (fill_alloc [] 0 (response_header before after n ++ b1))
    before after n (response_header before after n ++ b1).length
    ((List.prefix_append _ _).trans (by simpa using fill_alloc_nil_prefix _)) hb ha hn
    (by simp) (by rw [List.length_append]; simp only [U32]; omega)
  have hloop := header_loop_first_chunk true
    (script_size (.data (response_header before after n ++ b1) :: rest) + 1)
    (response_header before after n ++ b1) rest _ [] 0
    (by intro h; have := congrArg List.length h; rw [List.length_append] at this
        simp only [List.length_nil] at this; omega) hfit
    (by simp only [script_size]; omega) hparse rfl
  unfold header_outcome
  rw [hloop]
  simp only [first_slice, writelen, fill_alloc_nil]
  have hw : ((response_header before after n ++ b1).length + U32 -
      (response_header before after n).length) % U32 = b1.length := by
    rw [List.length_append]
    simp only [U32]
    omega
  rw [hw, List.append_assoc, List.drop_left, List.take_left]

/-- The header loop on a response whose first chunk ends after the Content-Length line and
before the end of the header. -/
theorem header_outcome_stalled (before after : List (List Nat)) (n : Nat)
    (body c1 : List Nat) (cs : List (List Nat))
    (hb : ∀ l ∈ before, other_header l) (ha : ∀ l ∈ after, other_header l) (hn : n < U32)
    (hsplit : c1 ++ cs.flatten = response_header before after n ++ body)
    (hfit : (response_header before after n ++ body).length ≤ HTTPS_DOWNLOAD_BUF_SIZE)
    (hne : ∀ c ∈ cs, c ≠ [])
    (hcl : (header_to_length before n).length ≤ c1.length)
    (hshort : c1.length < (response_header before after n).length) :
    header_outcome true ((c1 :: cs).map .data) = .ok (some (n, body)) := by
  have h512 : HTTPS_DOWNLOAD_BUF_SIZE = 512 := rfl
  have hge := header_to_length_ge before n
  have hRlen : (response_header before after n).length =
      (header_to_length before n).length + ((header_lines after).length + 2) := by
    rw [response_header_eq]; simp
  have hZlen : c1.length + cs.flatten.length =
      (response_header before after n).length + body.length := by
    have := congrArg List.length hsplit
    simpa using this
  have hfit2 : (response_header before after n).length + body.length ≤ 512 := by
    simpa [h512] using hfit
  obtain ⟨m, hc1⟩ : ∃ m, c1 = header_to_length before n ++ (header_lines after ++ [13]).take m := by
    refine ⟨c1.length - (header_to_length before n).length, ?_⟩
    have e1 : c1 = (c1 ++ cs.flatten).take c1.length := by simp
    have e2 : header_lines after ++ [13, 10] = (header_lines after ++ [13]) ++ [10] := by simp
    rw [hsplit, List.take_append_of_le_length (by omega), response_header_eq,
      List.take_append_eq_append_take, List.take_of_length_le hcl, e2,
      List.take_append_of_le_length (by simp; omega)] at e1
    exact e1
  have hparse : https_parse_response true (c1 ++ 0 :: List.replicate (511 - c1.length) 0)
      c1.length https_response_result_t.zero = .ok (3, stalled n c1) := by
    have hl : c1.length < U32 := by simp only [U32]; omega
    rw [hc1] at hl ⊢
    exact parse_first_chunk_stalled before after n m _ hb ha hn hl
  have hfill : fill_alloc [] 0 c1 = c1 ++ 0 :: List.replicate (511 - c1.length) 0 := by
    rw [fill_alloc_nil, h512]
    have : 512 - c1.length = (511 - c1.length) + 1 := by omega
    rw [this, List.replicate_succ]
  obtain ⟨hT, hfirst⟩ := response_header_first_term before after n body hb ha hn
    (by simp only [U32]; omega)
  have hsz := script_size_data cs
  obtain ⟨h, hloop, hbl, hbytes⟩ := header_loop_stalled n _ _ [] hT hfirst cs c1
    (c1.length + 1 + script_size (cs.map .data)) c1.length (fill_alloc [] 0 c1) hsplit
    (by omega) (by omega)
    (fun c hc => ⟨hne c hc, by have := length_le_flatten cs c hc; omega⟩) (by omega)
  rw [List.append_nil] at hloop
  have hH4 : (response_header before after n).length - 4 + 4 =
      (response_header before after n).length := by omega
  rw [hH4, List.drop_left] at hbytes
  simp only [stream_bytes, List.append_nil] at hbytes
  unfold header_outcome
  simp only [List.map_cons, script_size]
  unfold header_loop
  rw [if_pos (by simp [https_response_result_t.zero])]
  unfold header_step
  rw [if_pos (by rfl)]
  simp only [mbedtls_ssl_read]
  rw [if_pos (by omega)]
  simp only
  rw [if_neg (by omega)]
  unfold header_parse
  rw [hfill, hparse]
  simp only
  rw [if_neg (by decide)]
  simp only
  rw [← hfill, hloop]
  simp only [hbl, hbytes]

/-! ## The streaming loop at the largest declared length -/

theorem clamp_max_length (tw rb : Nat) : clamp 4294967295 tw rb = rb := by
  unfold clamp
  have : (tw + rb) % U32 < U32 := Nat.mod_lt _ (by decide)
  rw [if_neg (by simp only [U32] at this ⊢; omega)]

theorem https_read_socket_data (c : List Nat) (rest : List SslRead) (h0 : 0 < c.length)
    (h1 : c.length ≤ 512) : https_read_socket (.data c :: rest) = ((c.length : Int), c, rest) := by
  have h512 : HTTPS_DOWNLOAD_BUF_SIZE = 512 := rfl
  unfold https_read_socket https_read_socket_loop
  simp only [mbedtls_ssl_read, h512]
  rw [if_pos h1]
  simp only
  rw [if_pos h0]

/-- One turn of the streaming loop under a declared length of `2^32 - 1`: a chunk read is
written whole, and the counter advances modulo `2^32`. -/
theorem body_loop_chunk (fuel : Nat) (file : sys_file_t) (tw cf : Nat) (c : List Nat)
    (rest : List SslRead) (htw : tw < 4294967295) (h0 : 0 < c.length) (h1 : c.length ≤ 512)
    (hfree : c.length ≤ file.free) :
    body_loop 4294967295 (fuel + 1) ⟨file, tw, cf, .data c :: rest⟩ =
      body_loop 4294967295 fuel
        ⟨⟨file.content ++ c, file.free - c.length⟩, (tw + c.length) % U32, 0, rest⟩ := by
  rw [body_loop, if_pos htw]
  simp only
  rw [https_read_socket_data c rest h0 h1]
  simp only
  rw [if_neg (by omega), if_neg (by omega)]
  simp only [stream_chunk, clamp_max_length, sys_file_write, Nat.min_eq_left hfree,
    List.take_length, decide_True]
  simp

theorem script_size_replicate (k : Nat) (c : List Nat) (tail : List SslRead) :
    script_size (List.replicate k (.data c) ++ tail) = k * (c.length + 1) + script_size tail := by
  induction k with
  | zero => simp
  | succ k ih =>
    rw [List.replicate_succ, List.cons_append]
    simp only [script_size, ih]
    rw [Nat.succ_mul]
    omega

theorem length_flatten_replicate (k : Nat) (c : List Nat) :
    (List.replicate k c).flatten.length = k * c.length := by
  induction k with
  | zero => simp
  | succ k ih =>
    rw [List.replicate_succ, List.flatten_cons, List.length_append, ih, Nat.succ_mul]
    omega

/-- The streaming loop under a declared length of `2^32 - 1` on `k` chunks of 512 bytes: all
are written, whatever the counter has reached. -/
theorem body_loop_chunks (c : List Nat) (hc : c.length = 512) (tail : List SslRead) :
    ∀ (k fuel : Nat) (content : List Nat) (free tw : Nat), tw % 512 = 0 → tw < U32 →
      k * 512 ≤ free →
      body_loop 4294967295 (fuel + k)
          ⟨⟨content, free⟩, tw, 0, List.replicate k (.data c) ++ tail⟩ =
        body_loop 4294967295 fuel
          ⟨⟨content ++ (List.replicate k c).flatten, free - k * 512⟩,
            (tw + k * 512) % U32, 0, tail⟩ := by
  intro k
  induction k with
  | zero =>
    intro fuel content free tw _ h2 _
    simp [Nat.mod_eq_of_lt h2]
  | succ k ih =>
    intro fuel content free tw h1 h2 h3
    have hU : U32 = 4294967296 := rfl
    rw [hU] at h2
    have hm : (tw + 512) % 4294967296 % 512 = 0 := by omega
    have hf : k * 512 ≤ free - 512 := by omega
    rw [List.replicate_succ, List.cons_append, ← Nat.add_assoc,
      body_loop_chunk _ _ _ _ _ _ (by omega) (by omega) (by omega) (by simp only; omega)]
    simp only [hc]
    rw [ih fuel _ _ _ (by rw [hU]; exact hm) (Nat.mod_lt _ (by decide)) hf,
      Nat.mod_add_mod, List.replicate_succ, List.flatten_cons, List.append_assoc]
    have e1 : free - 512 - k * 512 = free - (k + 1) * 512 := by omega
    have e2 : tw + 512 + k * 512 = tw + (k + 1) * 512 := by omega
    rw [e1, e2]

/-- A download whose response declares `2^32 - 1` body bytes and whose body arrives in `K`
reads of 512 bytes and one of 511 bytes, `K + 1` a multiple of `2^23`: every byte is written
and the result is 0. -/
theorem download_at_max_length (env : Env) (K : Nat) (c c1 : List Nat) (rest : List SslRead)
    (hsent : env.request_sent) (hopen : env.open_ok = true)
    (hc : c.length = 512) (hc1 : c1.length = 511) (hK : (K + 1) % 8388608 = 0)
    (hdisk : K * 512 + 511 ≤ env.disk_free)
    (hreads : env.reads = .data (response_header [] [] 4294967295) ::
      (List.replicate K (.data c) ++ .data c1 :: rest)) :
    ∃ d, https_download env = .ok d ∧ d.ret = 0 ∧ d.body_len = 4294967295 ∧
      d.total_written = 4294967295 ∧ d.file = some ((List.replicate K c).flatten ++ c1) := by
  obtain ⟨request, hreq⟩ := https_download_of_request_sent env hsent
  have h512 : HTTPS_DOWNLOAD_BUF_SIZE = 512 := rfl
  have hU : U32 = 4294967296 := rfl
  have hH : (response_header [] [] 4294967295).length ≤ 48 := by
    have := decimal_length_u32 4294967295 (by decide)
    rw [response_header_length]
    have e : (header_lines [str "HTTP/1.1 200 OK"]).length = 17 := by decide
    have e2 : (header_lines []).length = 0 := rfl
    rw [e, e2]
    omega
  have hH0 : 0 < (response_header [] [] 4294967295).length := by
    rw [response_header_length]; omega
  have hparse := parse_response_header env.bak_ok
    (fill_alloc [] 0 (response_header [] [] 4294967295)) [] [] 4294967295
    (response_header [] [] 4294967295).length (by simpa using fill_alloc_nil_prefix _)
    (by simp) (by simp) (by decide) (by omega) (by rw [hU]; omega)
  obtain ⟨R, hR⟩ : ∃ R, R = response_header [] [] 4294967295 := ⟨_, rfl⟩
  rw [← hR] at hparse hH hH0 hreads
  have hloop := header_loop_first_chunk env.bak_ok (script_size env.reads + 1) R
    (List.replicate K (.data c) ++ .data c1 :: rest) _ [] 0
    (by intro h; rw [h] at hH0; simp at hH0) (by omega)
    (by rw [hreads]; simp only [script_size]; omega) hparse rfl
  rw [hreads] at hloop
  have hwl : writelen (⟨⟨200, R.length, some R.length, 4294967295, none, 4⟩, R.length,
      fill_alloc [] 0 R, List.replicate K (.data c) ++ .data c1 :: rest⟩ : Headers) = 0 := by
    unfold writelen
    simp only
    rw [Nat.add_sub_cancel_left, Nat.mod_self]
  have hrun : body_loop 4294967295
      (script_size (List.replicate K (.data c) ++ .data c1 :: rest) + 1)
      ⟨⟨[], env.disk_free⟩, 0, 0, List.replicate K (.data c) ++ .data c1 :: rest⟩ =
      some ⟨⟨(List.replicate K c).flatten ++ c1, env.disk_free - K * 512 - 511⟩,
        4294967295, 0, rest⟩ := by
    have hfuel : script_size (List.replicate K (.data c) ++ .data c1 :: rest) + 1 =
        (K * 512 + 511 + script_size rest + 1 + 1) + K := by
      rw [script_size_replicate]
      simp only [script_size, hc, hc1]
      omega
    have htw : (0 + K * 512) % U32 = 4294967295 - 511 := by
      rw [hU]; omega
    rw [hfuel, body_loop_chunks c hc _ K _ [] env.disk_free 0 (by omega) (by decide)
        (by omega), htw,
      body_loop_chunk _ _ _ _ _ _ (by omega) (by omega) (by omega) (by simp only; omega)]
    simp only [hc1, List.nil_append]
    rw [body_loop_done _ _ _ (by omega) (by simp [hU])]
    simp [hU]
  refine ⟨Download.late 0 request ⟨200, R.length, some R.length, 4294967295, none, 4⟩
    ⟨⟨(List.replicate K c).flatten ++ c1, env.disk_free - K * 512 - 511⟩, 4294967295, 0,
      rest⟩, ?_, rfl, rfl, rfl, rfl⟩
  rw [hreq]
  unfold download_response
  rw [hreads, hloop]
  simp only
  unfold download_body
  have hal : (fill_alloc [] 0 R).length = 512 := by
    rw [fill_alloc_nil]; simp only [List.length_append, List.length_replicate, h512]; omega
  rw [if_neg (by simp), if_neg (by simp [hopen]), if_neg (by rw [hwl, hal]; simp only; omega)]
  unfold initial_flush
  rw [if_neg (by rw [hwl]; omega)]
  simp only
  rw [hrun]
  simp

/-! ## A declared length of zero -/

/-- A run that completes the headers (`parse_status = 4`) with a declared length of 0 leaves
through the `File size = 0` exit: the result is what `mbedtls_ssl_write` returned and the
output file is not created. -/
theorem complete_headers_zero_length (env : Env) (d : Download)
    (hrun : https_download env = .ok d) (hw : env.write_ret ≠ 0)
    (hps : d.parse_status = 4) (hlen : d.body_len = 0) :
    d.ret ≠ 0 ∧ d.file = none := by
  rcases https_download_cases env with ⟨ret, c, rq, he⟩ | ⟨request, hnn, he⟩
  · have hd : d = Download.early ret c rq https_response_result_t.zero env.reads := by
      rw [he] at hrun; exact (Except.ok.inj hrun).symm
    subst hd
    change (0 : Nat) = 4 at hps
    omega
  · rw [he] at hrun
    rcases download_response_done_or_exit _ _ _ _ hrun with ⟨h, hb⟩ | ⟨r, script, hr, hd⟩
    · unfold download_body at hb
      split at hb
      · cases hb
        exact ⟨hw, rfl⟩
      · rename_i hbl
        split at hb
        · cases hb; exact absurd hlen hbl
        · split at hb
          · cases hb
          · split at hb
            · cases hb; exact absurd hlen hbl
            · split at hb
              · cases hb
              · cases hb; exact absurd hlen hbl
    · subst hd
      change r.parse_status = 4 at hps
      omega

/-! ## The loops end within their iterations -/

theorem mbedtls_ssl_read_size (script : List SslRead) (len : Nat) (hlen : 0 < len)
    (hne : script ≠ []) :
    script_size (mbedtls_ssl_read script len).2 < script_size script := by
  cases script with
  | nil => exact absurd rfl hne
  | cons x rest =>
    cases x with
    | data bs =>
      simp only [mbedtls_ssl_read]
      split_ifs with h
      · simp only [script_size]; omega
      · simp only [script_size, List.length_drop]; omega
    | _ => simp only [mbedtls_ssl_read, script_size]; omega

theorem mbedtls_ssl_read_nil (len : Nat) : mbedtls_ssl_read [] len = (.conn_eof, []) := rfl

theorem https_read_socket_loop_size :
    ∀ (fuel rc : Nat) (script : List SslRead),
      script_size (https_read_socket_loop fuel rc script).2.2 ≤ script_size script := by
  intro fuel
  induction fuel with
  | zero => intro rc script; simp [https_read_socket_loop]
  | succ f ih =>
    intro rc script
    by_cases hne : script = []
    · subst hne
      simp [https_read_socket_loop, mbedtls_ssl_read_nil]
    · have hs := mbedtls_ssl_read_size script HTTPS_DOWNLOAD_BUF_SIZE (by decide) hne
      unfold https_read_socket_loop
      rcases hr : mbedtls_ssl_read script HTTPS_DOWNLOAD_BUF_SIZE with ⟨x, rest⟩
      rw [hr] at hs
      simp only at hs
      have := ih (rc + 1) rest
      cases x <;> simp only <;> (try split_ifs) <;> (try simp only) <;> omega

theorem https_read_socket_loop_consumes (fuel rc : Nat) (script : List SslRead)
    (h : (https_read_socket_loop (fuel + 1) rc script).1 ≠ 0) :
    script_size (https_read_socket_loop (fuel + 1) rc script).2.2 < script_size script := by
  by_cases hne : script = []
  · subst hne
    simp [https_read_socket_loop, mbedtls_ssl_read_nil] at h
  · have hs := mbedtls_ssl_read_size script HTTPS_DOWNLOAD_BUF_SIZE (by decide) hne
    unfold https_read_socket_loop
    rcases hr : mbedtls_ssl_read script HTTPS_DOWNLOAD_BUF_SIZE with ⟨x, rest⟩
    rw [hr] at hs
    simp only at hs
    have := https_read_socket_loop_size fuel (rc + 1) rest
    cases x <;> simp only <;> (try split_ifs) <;> (try simp only) <;> omega

theorem header_parse_next_script (b : Bool) (alloc : List Nat) (idx : Nat)
    (r : https_response_result_t) (rest : List SslRead) (h1 : Headers)
    (h : header_parse b alloc idx r rest = .ok (.next h1)) : h1.script = rest := by
  unfold header_parse at h
  split at h
  · cases h
  · split_ifs at h
    · cases h
    · cases h
      rfl

/-- A turn of the header loop that goes on has taken something from the script. -/
theorem header_step_consumes (b : Bool) (script : List SslRead) (r : https_response_result_t)
    (h1 : Headers) (h : header_step b script r = .ok (.next h1)) :
    script_size h1.script < script_size script := by
  by_cases hne : script = []
  · subst hne
    unfold header_step at h
    simp only [mbedtls_ssl_read_nil] at h
    split_ifs at h <;> cases h
  · have hs1 := mbedtls_ssl_read_size script HTTPS_DOWNLOAD_BUF_SIZE (by decide) hne
    have hs2 := mbedtls_ssl_read_size script (HTTPS_DOWNLOAD_BUF_SIZE - HTTPS_HEADER_BAK_LEN)
      (by decide) hne
    unfold header_step at h
    split_ifs at h
    · rcases hr : mbedtls_ssl_read script HTTPS_DOWNLOAD_BUF_SIZE with ⟨x, rest⟩
      rw [hr] at hs1 h
      rcases x with bs | _ | _ | _ | _ | _
      · simp only at h
        split_ifs at h
        · cases h
        · rw [header_parse_next_script _ _ _ _ _ _ h]
          exact hs1
      all_goals (simp only at h; cases h)
    · rcases hr : mbedtls_ssl_read script (HTTPS_DOWNLOAD_BUF_SIZE - HTTPS_HEADER_BAK_LEN)
        with ⟨x, rest⟩
      rw [hr] at hs2 h
      rcases x with bs | _ | _ | _ | _ | _
      · simp only at h
        split_ifs at h
        · cases h
        · rw [header_parse_next_script _ _ _ _ _ _ h]
          exact hs2
      all_goals (simp only at h; cases h)
    · cases h

/-- The header loop does not run out of iterations when it starts with more of them than the
script has bytes and results. -/
theorem header_loop_fuel (b : Bool) :
    ∀ (fuel : Nat) (h : Headers), script_size h.script < fuel →
      header_loop b fuel h ≠ .ok .no_fuel := by
  intro fuel
  induction fuel with
  | zero => intro h hlt; omega
  | succ f ih =>
    intro h hlt
    unfold header_loop
    split_ifs
    · rcases hs : header_step b h.script h.rsp_result with e | st
      · simp
      · cases st with
        | next h1 =>
          simp only
          exact ih h1 (by have := header_step_consumes b _ _ _ hs; omega)
        | «exit» r s => simp
        | spin => simp
    · simp

/-- The streaming loop does not run out of iterations either. -/
theorem body_loop_fuel (body_len : Nat) :
    ∀ (fuel : Nat) (t : Transfer), script_size t.script < fuel →
      body_loop body_len fuel t ≠ none := by
  intro fuel
  induction fuel with
  | zero => intro t hlt; omega
  | succ f ih =>
    intro t hlt
    unfold body_loop
    by_cases h1 : t.total_written < body_len
    · have hc := https_read_socket_loop_consumes 2 0 t.script
      have e : https_read_socket_loop (2 + 1) 0 t.script = https_read_socket t.script := rfl
      rw [e] at hc
      rcases hr : https_read_socket t.script with ⟨rb, bs, rest⟩
      rw [hr] at hc
      simp only at hc
      rw [if_pos h1]
      simp only
      by_cases h2 : rb < 0
      · rw [if_pos h2]
        by_cases h3 : t.consecutive_failures + 1 ≥ 5
        · rw [if_pos h3]; simp
        · rw [if_neg h3]
          exact ih _ (by have := hc (by omega); simp only; omega)
      · rw [if_neg h2]
        by_cases h4 : rb = 0
        · rw [if_pos h4]; simp
        · rw [if_neg h4]
          have := hc h4
          unfold stream_chunk
          simp only
          by_cases h5 : (sys_file_write t.file
              (bs.take (clamp body_len t.total_written bs.length))).1 = false ∨
              (sys_file_write t.file
                (bs.take (clamp body_len t.total_written bs.length))).2.1 ≠
                  clamp body_len t.total_written bs.length
          · rw [if_pos h5]; simp
          · rw [if_neg h5]
            simp only
            exact ih _ (by simp only; omega)
    · rw [if_neg h1]; simp

/-! ## The resilient read -/

/-- One pass of the `do ... while` loop of `https_read_socket` on a would-block result: the
counter `retry_count` is incremented and tested like after any other failure. -/
theorem https_read_socket_loop_would_block (fuel rc : Nat) (r : SslRead) (s : List SslRead)
    (h : would_block r) :
    https_read_socket_loop (fuel + 1) rc (r :: s) =
      if rc + 1 < 3 then https_read_socket_loop fuel (rc + 1) s else (-2, [], s) := by
  rcases h with rfl | rfl <;> rfl

theorem https_read_socket_loop_data (fuel rc : Nat) (bs : List Nat) (s : List SslRead)
    (h0 : 0 < bs.length) (h1 : bs.length ≤ HTTPS_DOWNLOAD_BUF_SIZE) :
    https_read_socket_loop (fuel + 1) rc (.data bs :: s) = ((bs.length : Int), bs, s) := by
  unfold https_read_socket_loop
  simp only [mbedtls_ssl_read]
  rw [if_pos h1]
  simp only
  rw [if_pos h0]

/-! ## The URL -/

theorem parse_url_resource_bounds (url host : List Nat) (port : Nat)
    (x : List Nat × Nat × List Nat) (h : parse_url_resource url host port = some x) :
    x.1 = host ∧ x.2.2.length < HTTPS_MAX_RESOURCE_LEN := by
  unfold parse_url_resource at h
  split at h
  · simp only at h
    split_ifs at h with hc
    cases h
    exact ⟨rfl, by simpa using hc⟩
  · cases h
    exact ⟨rfl, by simp [HTTPS_MAX_RESOURCE_LEN]⟩

/-- What `https_parse_url` accepts fits the buffers `host[256]` and `resource[2048]` with
their terminating bytes. -/
theorem https_parse_url_bounds (u : List Nat) (x : List Nat × Nat × List Nat)
    (h : https_parse_url (some u) = some x) :
    x.1.length < HTTPS_MAX_HOST_LEN ∧ x.2.2.length < HTTPS_MAX_RESOURCE_LEN := by
  unfold https_parse_url at h
  simp only at h
  split at h
  · split_ifs at h with hk
    all_goals
      obtain ⟨h1, h2⟩ := parse_url_resource_bounds _ _ _ _ h
      refine ⟨?_, h2⟩
      rw [h1, List.length_take]
      omega
  · split at h
    · split_ifs at h with hk
      all_goals
        obtain ⟨h1, h2⟩ := parse_url_resource_bounds _ _ _ _ h
        refine ⟨?_, h2⟩
        rw [h1, List.length_take]
        omega
    · obtain ⟨h1, h2⟩ := parse_url_resource_bounds _ _ _ _ h
      refine ⟨?_, h2⟩
      rw [h1]
      decide

theorem https_download_url_rejected (env : Env) (h : https_parse_url env.url = none) :
    https_download env =
      .ok (Download.early (-1) false none https_response_result_t.zero env.reads) := by
  unfold https_download
  rw [h]

/-! ## A header without a Content-Length line -/

theorem scan_headers_last_line_missing {buf : List Nat} {p : Nat} {l : List Nat} (k : Nat)
    {r r1 : https_response_result_t}
    (hline : (l ++ [13, 10, 13, 10]) <+: buf.drop p) (hl : ∀ y ∈ l, y ≠ 13)
    (hle : line_end buf (p + l.length) p r = .ok (p + l.length + 2, r1))
    (h2 : r1.parse_status ≠ 2) :
    scan_headers buf (k + (l.length + 1)) p p r = .ok (true, r1) := by
  have h13 : (13 :: 10 :: 13 :: [10]) <+: buf.drop (p + l.length) := prefix_skip (l := l) hline
  have b0 := prefix_head h13
  have b1 := prefix_head (prefix_tail h13)
  have b2 := prefix_head (prefix_tail (prefix_tail h13))
  have b3 := prefix_head (prefix_tail (prefix_tail (prefix_tail h13)))
  rw [show k + (l.length + 1) = (k + 1) + l.length by omega,
    scan_headers_skip buf p r l p (k + 1) hl (prefix_left (l := l) hline)]
  have hend : at_header_end buf (p + l.length) = .ok true := by
    simp [at_header_end, at_crlf_of_crlf b0 b1, at_crlf_of_crlf b2 b3]
  simp only [scan_headers, hle, hend, h2, if_false]

theorem header_lines_append (xs ys : List (List Nat)) :
    header_lines (xs ++ ys) = header_lines xs ++ header_lines ys := by
  induction xs with
  | nil => rfl
  | cons x xs ih => simp [header_lines, ih]

/-- Header lines none of which is a Content-Length line, then the empty line: the Content-Length
loop leaves the function through `return -1`. -/
theorem scan_headers_no_length (buf : List Nat) (r : https_response_result_t)
    (h2 : r.parse_status ≠ 2) (ls : List (List Nat)) (p k : Nat) (hne : ls ≠ [])
    (ho : ∀ l ∈ ls, other_header l) (hp : (header_lines ls ++ [13, 10]) <+: buf.drop p) :
    scan_headers buf (k + ((header_lines ls).length - 1)) p p r = .ok (true, r) := by
  rcases List.eq_nil_or_concat ls with h | ⟨init, last, h⟩
  · exact absurd h hne
  · rw [List.concat_eq_append] at h
    subst h
    have hi : ∀ l ∈ init, other_header l := fun l hl => ho l (by simp [hl])
    have hlast : other_header last := ho last (by simp)
    have e : header_lines (init ++ [last]) = header_lines init ++ (last ++ [13, 10]) := by
      rw [header_lines_append]; simp [header_lines]
    obtain ⟨x, t, hx⟩ : ∃ x t, last = x :: t := by
      cases last with
      | nil => exact absurd rfl hlast.1
      | cons x t => exact ⟨x, t, rfl⟩
    have hx13 : x ≠ 13 := other_header_no_cr hlast x (by simp [hx])
    have hlay : (header_lines init ++ x :: (t ++ [13, 10, 13, 10])) <+: buf.drop p := by
      rw [e, hx] at hp
      simpa using hp
    have hline : (last ++ [13, 10, 13, 10]) <+: buf.drop (p + (header_lines init).length) := by
      have := prefix_skip hlay
      rw [hx]
      simpa using this
    have hle := line_end_other r
      (prefix_left (l := last ++ [13, 10]) (m := [13, 10]) (by simpa using hline)) hlast
    have s1 := scan_headers_others buf r init p (k + (last.length + 1)) x _ hi hlay hx13
    have s2 := scan_headers_last_line_missing k hline (other_header_no_cr hlast) hle h2
    have hlen : (header_lines (init ++ [last])).length =
        (header_lines init).length + (last.length + 2) := by
      rw [e]; simp
    rw [hlen, show k + ((header_lines init).length + (last.length + 2) - 1) =
      k + (last.length + 1) + (header_lines init).length by omega, s1, s2]

/-- A status line `HTTP/1.1 200 <reason>` is a header line the Content-Length loop passes
over. -/
theorem status_line_other_header (reason : List Nat) (h : 13 ∉ reason) :
    other_header (str "HTTP/1.1 200 " ++ reason) := by
  have e : str "HTTP/1.1 200 " = 72 :: str "TTP/1.1 200 " := by decide
  refine ⟨by rw [e]; simp, ?_, ?_, ?_⟩
  · intro hm
    rcases List.mem_append.mp hm with h1 | h1
    · revert h1; decide
    · exact h h1
  · rw [e]
    intro hp
    obtain ⟨t, ht⟩ := hp
    have e2 : str "CONTENT-LENGTH" = 67 :: str "ONTENT-LENGTH" := by decide
    rw [e2] at ht
    simp at ht
  · rw [e]
    intro hp
    obtain ⟨t, ht⟩ := hp
    have e2 : str "Content-Length" = 67 :: str "ontent-Length" := by decide
    rw [e2] at ht
    simp at ht

/-- A first chunk with a 200 status line and header lines without a Content-Length line up to
the empty line: `https_parse_response` returns -1. -/
theorem parse_response_no_length (bak_ok : Bool) (reason : List Nat)
    (others : List (List Nat)) (tail pad : List Nat) (len : Nat)
    (hr : 13 ∉ reason) (ho : ∀ l ∈ others, other_header l)
    (hlen : (header_lines ((str "HTTP/1.1 200 " ++ reason) :: others)).length ≤ len + 1) :
    https_parse_response bak_ok
        (header_lines ((str "HTTP/1.1 200 " ++ reason) :: others) ++ [13, 10] ++ tail ++ pad)
        len https_response_result_t.zero =
      .ok (-1, { https_response_result_t.zero with status_code := 200, parse_status := 1 }) := by
  have hS : 15 ≤ (header_lines ((str "HTTP/1.1 200 " ++ reason) :: others)).length := by
    simp [header_lines]
    have : (str "HTTP/1.1 200 ").length = 13 := rfl
    omega
  have hst : str "HTTP/1.1 200 " <+:
      header_lines ((str "HTTP/1.1 200 " ++ reason) :: others) ++ [13, 10] ++ tail ++ pad := by
    simp only [header_lines, List.append_assoc]
    exact List.prefix_append _ _
  have h1 := status_line_200 len https_response_result_t.zero hst (by omega)
  have h2 := scan_headers_no_length
    (header_lines ((str "HTTP/1.1 200 " ++ reason) :: others) ++ [13, 10] ++ tail ++ pad)
    { https_response_result_t.zero with status_code := 200, parse_status := 1 } (by decide)
    ((str "HTTP/1.1 200 " ++ reason) :: others) 0
    (len - ((header_lines ((str "HTTP/1.1 200 " ++ reason) :: others)).length - 1)) (by simp)
    (by
      intro l hl
      rcases List.mem_cons.mp hl with rfl | hl
      · exact status_line_other_header reason hr
      · exact ho l hl)
    (by
      rw [List.drop_zero, List.append_assoc]
      exact List.prefix_append _ _)
  rw [show len - ((header_lines ((str "HTTP/1.1 200 " ++ reason) :: others)).length - 1) +
      ((header_lines ((str "HTTP/1.1 200 " ++ reason) :: others)).length - 1) = len by omega]
    at h2
  unfold https_parse_response
  rw [if_pos (by rfl), h1]
  simp only [Nat.reduceEqDiff, if_false, if_true]
  unfold parse_phase1
  rw [h2]

/-! ## A Content-Length line with an arbitrary value -/

theorem skip_colon_space_value {buf : List Nat} {p : Nat} {name v : List Nat}
    (hn : name.length = 14)
    (hp : (name ++ [58, 32] ++ v ++ [13]) <+: buf.drop p)
    (h58 : v.head? ≠ some 58) (h32 : v.head? ≠ some 32) :
    skip_colon_space buf (p + 16 + v.length) (p + 16 + v.length) (p + 14) = .ok (p + 16) := by
  obtain ⟨h14, h15, h16⟩ := literal_bytes hn hp
  cases v with
  | nil =>
    obtain ⟨k, hk⟩ : ∃ k, p + 16 + ([] : List Nat).length = k + 3 := ⟨p + 13, by simp⟩
    have hq1 : p + 14 < k + 3 := by simp at hk; omega
    have hq2 : p + 14 + 1 < k + 3 := by simp at hk; omega
    have hq3 : ¬ p + 14 + 1 + 1 < k + 3 := by simp at hk; omega
    rw [hk]
    simp only [skip_colon_space, hq1, hq2, hq3, if_true, rd, h14, h15, true_or, or_true,
      if_false]
  | cons x xs =>
    have hx58 : ¬ (x = 58 ∨ x = 32) := by
      simp only [List.head?_cons, ne_eq, Option.some.injEq] at h58 h32
      omega
    have hx16 := prefix_head (by simpa using h16 : (x :: (xs ++ [13])) <+: buf.drop (p + 16))
    have hl : (x :: xs).length = xs.length + 1 := rfl
    obtain ⟨k, hk⟩ : ∃ k, p + 16 + (x :: xs).length = k + 3 :=
      ⟨p + 14 + xs.length, by omega⟩
    have hq1 : p + 14 < k + 3 := by omega
    have hq2 : p + 14 + 1 < k + 3 := by omega
    have hq3 : p + 14 + 1 + 1 < k + 3 := by omega
    rw [hk]
    simp only [skip_colon_space, hq1, hq2, hq3, if_true, rd, h14, h15, hx16, true_or, or_true,
      hx58, if_false]

theorem trim_trailing_space_value {buf : List Nat} {p : Nat} {v : List Nat}
    (hp : (v ++ [13]) <+: buf.drop (p + 16))
    (hlast : v.getLast? ≠ some 32) (fuel : Nat) :
    trim_trailing_space buf (p + 16) fuel (p + 16 + v.length - 1) =
      .ok (p + 16 + v.length - 1) := by
  rcases List.eq_nil_or_concat v with h | ⟨init, last, h⟩
  · subst h
    cases fuel with
    | zero => rfl
    | succ fuel =>
      unfold trim_trailing_space
      rw [if_neg (by simp)]
  · rw [List.concat_eq_append] at h
    subst h
    have hl : buf[p + 16 + init.length]? = some last :=
      prefix_head (prefix_skip (l := init) (m := [last, 13]) (by simpa using hp))
    have h32 : last ≠ 32 := by
      intro h
      exact hlast (by simp [h])
    have e : p + 16 + (init ++ [last]).length - 1 = p + 16 + init.length := by simp
    rw [e]
    cases fuel with
    | zero => rfl
    | succ fuel =>
      simp only [trim_trailing_space, rd, hl, h32, if_false]
      split <;> rfl

theorem convert_length_value {buf : List Nat} {p : Nat} {v : List Nat}
    (hp : (v ++ [13]) <+: buf.drop (p + 16)) (hlen : v.length ≤ 11)
    (hq : p + 16 + v.length < U32) :
    convert_length buf (p + 16) (p + 16 + v.length - 1) = .ok (to_u32 (atoi v)) := by
  have hn : (p + 16 + v.length - 1 + U32 - (p + 16) + 1) % U32 = v.length := by
    have : p + 16 + v.length - 1 + U32 - (p + 16) + 1 = v.length + U32 := by omega
    rw [this, Nat.add_mod_right, Nat.mod_eq_of_lt (by omega)]
  have htake : (buf.drop (p + 16)).take v.length = v := by
    have := List.prefix_iff_eq_take.mp (prefix_left hp)
    exact this.symm
  unfold convert_length
  rw [hn, htake]
  have h1 : ¬ 12 < v.length := by omega
  have h2 : ¬ (v.length = 12 ∧ atoi_stops (List.take 12 (List.drop (p + 16) buf)) = false) := by
    omega
  rw [if_neg h1, if_neg h2]

theorem parse_content_length_value {buf : List Nat} {p : Nat} {name v : List Nat}
    (hn : name.length = 14)
    (hp : (name ++ [58, 32] ++ v ++ [13]) <+: buf.drop p) (ht : trimmed_value v)
    (hlen : v.length ≤ 11) (hq : p + 16 + v.length < U32) :
    parse_content_length buf p (p + 16 + v.length) = .ok (to_u32 (atoi v)) := by
  obtain ⟨_, _, h16⟩ := literal_bytes hn hp
  have hj2 : (p + 16 + v.length + U32 - 1) % U32 = p + 16 + v.length - 1 := by
    have : p + 16 + v.length + U32 - 1 = (p + 16 + v.length - 1) + U32 := by omega
    rw [this, Nat.add_mod_right, Nat.mod_eq_of_lt (by omega)]
  unfold parse_content_length
  rw [skip_colon_space_value hn hp ht.1 ht.2.1, hj2]
  simp only
  rw [trim_trailing_space_value h16 ht.2.2]
  simp only
  exact convert_length_value h16 hlen hq

theorem line_end_value {buf : List Nat} {p : Nat} {v : List Nat} (r : https_response_result_t)
    (hline : (str "Content-Length: " ++ v ++ [13, 10]) <+: buf.drop p) (ht : trimmed_value v)
    (hlen : v.length ≤ 11) (hq : p + 16 + v.length < U32) :
    line_end buf (p + 16 + v.length) p r =
      .ok (p + 16 + v.length + 2,
        { r with body_len := to_u32 (atoi v), parse_status := 2 }) := by
  have hsplit : str "Content-Length: " = str "Content-Length" ++ [58, 32] := by decide
  have h13 : (13 :: [10]) <+: buf.drop (p + 16 + v.length) := by
    have := prefix_skip (l := str "Content-Length: " ++ v) (m := [13, 10]) (by simpa using hline)
    have e : (str "Content-Length: " ++ v).length = 16 + v.length := by
      rw [List.length_append]; rfl
    rw [e, ← Nat.add_assoc] at this
    exact this
  have hcr := at_crlf_of_crlf (prefix_head h13) (prefix_head (prefix_tail h13))
  have hl13 : (str "Content-Length" ++ [58, 32] ++ v ++ [13]) <+: buf.drop p := by
    rw [← hsplit]
    exact prefix_left (l := str "Content-Length: " ++ v ++ [13]) (m := [10])
      (by simpa using hline)
  have m2 : memcmp_eq buf p (str "Content-Length") = true :=
    memcmp_eq_true_of_prefix
      (prefix_left (l := str "Content-Length") (m := [58, 32] ++ v ++ [13])
        (by simpa using hl13))
  have hname : (str "Content-Length").length = 14 := by decide
  have hv := parse_content_length_value hname hl13 ht hlen hq
  simp [line_end, hcr, m2, hv]

theorem response_header_value_length (before after : List (List Nat)) (v : List Nat) :
    (response_header_value before after v).length =
      (header_lines (str "HTTP/1.1 200 OK" :: before)).length + (16 + v.length) + 2 +
        (header_lines after).length + 2 := by
  have e : (str "Content-Length: ").length = 16 := rfl
  simp only [response_header_value, List.length_append, List.length_cons, List.length_nil, e]
  omega

theorem scan_value_header (buf : List Nat) (before after : List (List Nat)) (v : List Nat)
    (k : Nat)
    (r : https_response_result_t)
    (hbuf : response_header_value before after v <+: buf)
    (hb : ∀ l ∈ before, other_header l) (ha : ∀ l ∈ after, other_header l)
    (ht : trimmed_value v) (hcr0 : 13 ∉ v) (hdl : v.length ≤ 11)
    (hH : (response_header_value before after v).length < U32) :
    scan_headers buf (k + ((response_header_value before after v).length - 3)) 0 0 r =
      .ok (false, { r with body_len := to_u32 (atoi v), parse_status := 4,
                           header_len := (response_header_value before after v).length,
                           body := some (response_header_value before after v).length }) := by
  have hH' := response_header_value_length before after v
  set L1 := (header_lines (str "HTTP/1.1 200 OK" :: before)).length with hL1
  have hS : ∀ l ∈ str "HTTP/1.1 200 OK" :: before, other_header l := by
    intro l hl
    rcases List.mem_cons.mp hl with rfl | hl
    · decide
    · exact hb l hl
  -- the layout of the buffer
  have hlay : (header_lines (str "HTTP/1.1 200 OK" :: before) ++
      (67 :: (str "ontent-Length: " ++ v ++ 13 :: 10 :: header_lines after ++ [13, 10])))
      <+: buf.drop 0 := by
    have e : response_header_value before after v =
        header_lines (str "HTTP/1.1 200 OK" :: before) ++
          (67 :: (str "ontent-Length: " ++ v ++ 13 :: 10 :: header_lines after ++ [13, 10])) := by
      have e1 : str "Content-Length: " = 67 :: str "ontent-Length: " := by decide
      simp only [response_header_value, e1, List.append_assoc, List.cons_append]
    rw [← e]
    simpa using hbuf
  have hcl : (str "Content-Length: " ++ v ++ 13 :: 10 :: header_lines after ++ [13, 10])
      <+: buf.drop L1 := by
    have := prefix_skip hlay
    have e1 : str "Content-Length: " = 67 :: str "ontent-Length: " := by decide
    simpa [e1] using this
  -- the lines before the Content-Length line
  have stepA := scan_headers_others buf r (str "HTTP/1.1 200 OK" :: before) 0
    (k + ((response_header_value before after v).length - 3 - L1)) 67 _ hS hlay (by decide)
  rw [show k + ((response_header_value before after v).length - 3) =
      k + ((response_header_value before after v).length - 3 - L1) + L1 by omega, stepA]
  simp only [Nat.zero_add]
  have hle := line_end_value (p := L1) r
    (prefix_left (l := str "Content-Length: " ++ v ++ [13, 10])
      (m := header_lines after ++ [13, 10]) (by simpa using hcl)) ht hdl (by omega)
  have hcl_len : (str "Content-Length: " ++ v).length = 16 + v.length := by
    rw [List.length_append]; rfl
  have hcr : ∀ y ∈ str "Content-Length: " ++ v, y ≠ 13 := by
    intro y hy
    rcases List.mem_append.mp hy with h | h
    · exact content_length_no_cr y h
    · intro e
      rw [e] at h
      exact hcr0 h
  cases after with
  | nil =>
    have hline : (str "Content-Length: " ++ v ++ [13, 10, 13, 10]) <+: buf.drop L1 := by
      simpa [header_lines] using hcl
    have := scan_headers_last_line k (r := r) hline hcr
      (by rw [hcl_len, ← Nat.add_assoc]; exact hle) rfl
    simp only [header_lines, List.length_nil] at hH'
    rw [show k + ((response_header_value before [] v).length - 3 - L1) =
        k + ((str "Content-Length: " ++ v).length + 1) by rw [hcl_len]; omega, this]
    simp only [Except.ok.injEq, Prod.mk.injEq, true_and]
    rw [hcl_len]
    congr 1
    · omega
    · congr 1; omega
  | cons l2 ls =>
    obtain ⟨y, t', hy, hy13⟩ := header_lines_cons_head l2 ls [13, 10]
      (ha l2 (List.mem_cons_self _ _))
    have hline : (str "Content-Length: " ++ v ++ [13, 10, y]) <+: buf.drop L1 := by
      have e : str "Content-Length: " ++ v ++ 13 :: 10 :: header_lines (l2 :: ls) ++ [13, 10] =
          (str "Content-Length: " ++ v ++ [13, 10, y]) ++ t' := by
        simp only [List.append_assoc, List.cons_append, hy, List.nil_append]
      rw [e] at hcl
      exact prefix_left hcl
    have hnext : (header_lines (l2 :: ls) ++ [13, 10]) <+: buf.drop (L1 + (16 + v.length) + 2) := by
      have := prefix_skip (l := str "Content-Length: " ++ v ++ [13, 10])
        (m := header_lines (l2 :: ls) ++ [13, 10]) (by simpa using hcl)
      have e : (str "Content-Length: " ++ v ++ [13, 10]).length = 16 + v.length + 2 := by
        rw [List.length_append, hcl_len]; rfl
      rw [e, ← Nat.add_assoc] at this
      exact this
    have hpos : 2 ≤ (header_lines (l2 :: ls)).length := by
      simp [header_lines]; omega
    have s1 := scan_headers_line (k + ((header_lines (l2 :: ls)).length - 1)) (r := r) hline hcr
      hy13 (by rw [hcl_len, ← Nat.add_assoc]; exact hle)
    have s2 := scan_headers_others_end buf
      { r with body_len := to_u32 (atoi v), parse_status := 2 } rfl (l2 :: ls)
      (L1 + (16 + v.length) + 2) k (by simp) ha hnext
    rw [show k + ((response_header_value before (l2 :: ls) v).length - 3 - L1) =
        k + ((header_lines (l2 :: ls)).length - 1) + ((str "Content-Length: " ++ v).length + 2)
        by rw [hcl_len]; omega, s1, hcl_len, s2]
    simp only [Except.ok.injEq, Prod.mk.injEq, true_and]
    congr 1
    · omega
    · congr 1; omega

theorem atoi_starts_non_numeric (v : List Nat) (h : starts_non_numeric v) : atoi v = 0 := by
  cases v with
  | nil => rfl
  | cons x t =>
    obtain ⟨h1, h2, h3, h4, _⟩ := h
    simp [atoi, atoi_signed, atoi_digits, h1, h2, h3, h4]

theorem trimmed_of_starts_non_numeric (v : List Nat) (h : starts_non_numeric v)
    (hlast : v.getLast? ≠ some 32) : trimmed_value v := by
  cases v with
  | nil => exact ⟨by simp, by simp, hlast⟩
  | cons x t =>
    obtain ⟨_, h2, _, _, h5⟩ := h
    refine ⟨by simpa using h5, ?_, hlast⟩
    intro e
    simp only [List.head?_cons, Option.some.injEq] at e
    rw [e] at h2
    simp [isspace] at h2

theorem parse_value_header (bak_ok : Bool) (buf : List Nat) (before after : List (List Nat))
    (v : List Nat) (len : Nat) (hbuf : response_header_value before after v <+: buf)
    (hb : ∀ l ∈ before, other_header l) (ha : ∀ l ∈ after, other_header l)
    (ht : trimmed_value v) (hcr : 13 ∉ v) (hv : v.length ≤ 11)
    (hH : (response_header_value before after v).length ≤ len) (hlen : len < U32) :
    https_parse_response bak_ok buf len https_response_result_t.zero =
      .ok (4, { status_code := 200, header_len := (response_header_value before after v).length,
                body := some (response_header_value before after v).length,
                body_len := to_u32 (atoi v), header_bak := none, parse_status := 4 }) := by
  have hH' := response_header_value_length before after v
  have hS : 17 ≤ (header_lines (str "HTTP/1.1 200 OK" :: before)).length := by
    simp [header_lines]
    have : (str "HTTP/1.1 200 OK").length = 15 := rfl
    omega
  have hst : str "HTTP/1.1 200 " <+: buf := by
    refine List.IsPrefix.trans ?_ hbuf
    have e : header_lines (str "HTTP/1.1 200 OK" :: before) =
        str "HTTP/1.1 200 " ++ (str "OK" ++ 13 :: 10 :: header_lines before) := by
      have : str "HTTP/1.1 200 OK" = str "HTTP/1.1 200 " ++ str "OK" := by decide
      simp [header_lines, this]
    simp only [response_header_value, e, List.append_assoc]
    exact List.prefix_append _ _
  have h1 := status_line_200 len https_response_result_t.zero hst (by omega)
  have h2 := scan_value_header buf before after v
    (len - ((response_header_value before after v).length - 3))
    { https_response_result_t.zero with status_code := 200, parse_status := 1 }
    hbuf hb ha ht hcr hv (by omega)
  rw [show len - ((response_header_value before after v).length - 3) +
      ((response_header_value before after v).length - 3) = len by omega] at h2
  unfold https_parse_response
  rw [if_pos (by rfl), h1]
  simp only [Nat.reduceEqDiff, if_false, if_true]
  unfold parse_phase1
  rw [h2]
  simp [https_response_result_t.zero]

/-- A response whose Content-Length value holds no number, read in one chunk: the declared
length is 0 and the run leaves through the `File size = 0` exit. -/
theorem download_non_numeric_length (env : Env) (before after : List (List Nat))
    (v tail : List Nat) (rest : List SslRead) (hsent : env.request_sent)
    (hb : ∀ l ∈ before, other_header l) (ha : ∀ l ∈ after, other_header l)
    (hnum : starts_non_numeric v) (hlast : v.getLast? ≠ some 32) (hcr : 13 ∉ v)
    (hv : v.length ≤ 11)
    (hreads : env.reads = .data (response_header_value before after v ++ tail) :: rest)
    (hfit : (response_header_value before after v ++ tail).length ≤ HTTPS_DOWNLOAD_BUF_SIZE) :
    ∃ d, https_download env = .ok d ∧ d.body_len = 0 ∧ d.ret ≠ 0 ∧ d.file = none := by
  obtain ⟨request, hreq⟩ := https_download_of_request_sent env hsent
  have h512 : HTTPS_DOWNLOAD_BUF_SIZE = 512 := rfl
  have hlen : (response_header_value before after v).length + tail.length ≤ 512 := by
    simpa [h512] using hfit
  have hH : 0 < (response_header_value before after v).length := by
    rw [response_header_value_length]; omega
  have hparse := parse_value_header env.bak_ok
    (fill_alloc [] 0 (response_header_value before after v ++ tail)) before after v
    (response_header_value before after v ++ tail).length
    ((List.prefix_append _ _).trans (by simpa using fill_alloc_nil_prefix _)) hb ha
    (trimmed_of_starts_non_numeric v hnum hlast) hcr hv (by simp)
    (by rw [List.length_append]; simp only [U32]; omega)
  rw [atoi_starts_non_numeric v hnum] at hparse
  have hz : to_u32 0 = 0 := by decide
  rw [hz] at hparse
  have hloop := header_loop_first_chunk env.bak_ok (script_size env.reads + 1)
    (response_header_value before after v ++ tail) rest _ [] 0
    (by intro h; have := congrArg List.length h; rw [List.length_append] at this
        simp only [List.length_nil] at this; omega) hfit
    (by rw [hreads]; simp only [script_size]; omega) hparse rfl
  rw [hreads] at hloop
  have hw : env.write_ret ≠ 0 := by
    have := hsent.2.2.2.2.2.2.2.2.2
    omega
  refine ⟨Download.early env.write_ret true (some request)
    ⟨200, (response_header_value before after v).length,
      some (response_header_value before after v).length, 0, none, 4⟩ rest, ?_, rfl, hw, rfl⟩
  rw [hreq]
  unfold download_response
  rw [hreads, hloop]
  simp only
  unfold download_body
  rw [if_pos rfl]

/-! ## The header end the parser reports -/

/-- A scan for the header end in phase 3 that ends with `parse_status = 4` found it at the
first offset where the test succeeds. -/
theorem scan_header_end_inv (buf : List Nat) :
    ∀ (k i : Nat) (r r' : https_response_result_t),
      scan_header_end buf k i r = .ok r' → r.parse_status ≠ 4 → r'.parse_status = 4 →
      ∃ t, i ≤ t ∧ t < i + k ∧ r'.header_len = t + 4 ∧ at_header_end buf t = .ok true ∧
        ∀ j, i ≤ j → j < t → at_header_end buf j = .ok false := by
  intro k
  induction k with
  | zero =>
    intro i r r' h h1 h2
    simp only [scan_header_end, Except.ok.injEq] at h
    rw [h] at h1
    exact absurd h2 h1
  | succ k ih =>
    intro i r r' h h1 h2
    unfold scan_header_end at h
    split at h
    · cases h
    · rename_i hend
      cases h
      exact ⟨i, Nat.le_refl _, by omega, rfl, hend, fun j h3 h4 => by omega⟩
    · rename_i hend
      obtain ⟨t, t1, t2, t3, t4, t5⟩ := ih _ _ _ h h1 h2
      refine ⟨t, by omega, by omega, t3, t4, ?_⟩
      intro j h3 h4
      by_cases hji : j = i
      · subst hji; exact hend
      · exact t5 j (by omega) h4

theorem save_header_bak_status (b : Bool) (buf : List Nat) (len : Nat)
    (r r' : https_response_result_t) (h : save_header_bak b buf len r = .ok r') :
    r'.parse_status = r.parse_status := by
  unfold save_header_bak at h
  split_ifs at h
  · split at h
    · cases h
    · cases h; rfl
  · cases h; rfl

theorem parse_status_line_some (buf : List Nat) (len : Nat) (r r0 : https_response_result_t)
    (v : Int) (h : parse_status_line buf len r = .ok (some v, r0)) : v = -1 := by
  unfold parse_status_line at h
  split at h
  · cases h
  · split_ifs at h <;> cases h <;> rfl

theorem parse_status_line_none (buf : List Nat) (len : Nat) (r r0 : https_response_result_t)
    (h : parse_status_line buf len r = .ok (none, r0)) : r0.parse_status = 1 := by
  unfold parse_status_line at h
  split at h
  · cases h
  · split_ifs at h <;> cases h
    rfl

/-- A pass of phase 1 that does not leave through `return -1` and ends with
`parse_status = 4` found the header end at the first offset where the test succeeds. -/
theorem parse_phase1_complete (b : Bool) (buf : List Nat) (len : Nat)
    (r r' : https_response_result_t) (v : Option Int) (h1 : r.parse_status = 1)
    (h : parse_phase1 b buf len r = .ok (v, r')) :
    v = some (-1) ∨ (v = none ∧ (r'.parse_status = 4 →
      ∃ t, t < len ∧ r'.header_len = t + 4 ∧ at_header_end buf t = .ok true ∧
        ∀ j, j < t → at_header_end buf j = .ok false)) := by
  unfold parse_phase1 at h
  split at h
  · cases h
  · cases h
    exact Or.inl rfl
  · rename_i rr hsc
    split_ifs at h with c1 c2
    · split at h
      · cases h
      · rename_i r1 hs
        cases h
        refine Or.inr ⟨rfl, fun h4 => ?_⟩
        have := save_header_bak_status _ _ _ _ _ hs
        omega
    · split at h
      · cases h
      · rename_i r1 hs
        cases h
        refine Or.inr ⟨rfl, fun h4 => ?_⟩
        have := save_header_bak_status _ _ _ _ _ hs
        simp only at this
        omega
    · cases h
      refine Or.inr ⟨rfl, fun h4 => ?_⟩
      obtain ⟨t, _, t2, t3, t4, t5⟩ := scan_headers_found buf _ _ _ _ _ hsc (by omega) h4
      exact ⟨t, by omega, t3, t4, fun j hj => t5 j (Nat.zero_le _) hj⟩

theorem scan_header_end_status (buf : List Nat) :
    ∀ (k i : Nat) (r r' : https_response_result_t), scan_header_end buf k i r = .ok r' →
      r'.parse_status = r.parse_status ∨ r'.parse_status = 4 := by
  intro k
  induction k with
  | zero =>
    intro i r r' h
    simp only [scan_header_end, Except.ok.injEq] at h
    exact Or.inl (by rw [h])
  | succ k ih =>
    intro i r r' h
    unfold scan_header_end at h
    split at h
    · cases h
    · cases h
      exact Or.inr rfl
    · exact ih _ _ _ h

/-- A pass of phase 3 that ends with `parse_status = 4` found the header end at the first
offset where the test succeeds; otherwise the state is still 3. -/
theorem parse_phase3_complete (b : Bool) (buf : List Nat) (len : Nat)
    (r r' : https_response_result_t) (h3 : r.parse_status = 3)
    (h : parse_phase3 b buf len r = .ok r') :
    r'.parse_status = 3 ∨ (r'.parse_status = 4 ∧
      ∃ t, t < len ∧ r'.header_len = t + 4 ∧ at_header_end buf t = .ok true ∧
        ∀ j, j < t → at_header_end buf j = .ok false) := by
  unfold parse_phase3 at h
  split at h
  · cases h
  · rename_i rr hsc
    split_ifs at h with c
    · have := save_header_bak_status _ _ _ _ _ h
      exact Or.inl (by omega)
    · cases h
      have h4 : r'.parse_status = 4 := by
        rcases scan_header_end_status buf _ _ _ _ hsc with e | e
        · exact absurd (e.trans h3) c
        · exact e
      obtain ⟨t, _, t2, t3, t4, t5⟩ := scan_header_end_inv buf _ _ _ _ hsc (by omega) h4
      exact Or.inr ⟨h4, t, by omega, t3, t4, fun j hj => t5 j (Nat.zero_le _) hj⟩

/-- When `https_parse_response`, entered in state 0, 1 or 3, returns 4, it found the header
end at the first offset of the scanned bytes where CR LF CR LF is read. -/
theorem parse_response_complete (b : Bool) (buf : List Nat) (len : Nat)
    (r r' : https_response_result_t)
    (hentry : r.parse_status = 0 ∨ r.parse_status = 1 ∨ r.parse_status = 3)
    (hret : https_parse_response b buf len r = .ok (4, r')) :
    ∃ t, t < len ∧ r'.header_len = t + 4 ∧ at_header_end buf t = .ok true ∧
      ∀ j, j < t → at_header_end buf j = .ok false := by
  unfold https_parse_response at hret
  split at hret
  · cases hret
  · rename_i v r0 h0
    split_ifs at h0 with hz
    · have := parse_status_line_some _ _ _ _ _ h0
      subst this
      cases hret
    · cases h0
  · rename_i r0 h0
    have hr0 : r0.parse_status = 1 ∨ r0.parse_status = 3 := by
      split_ifs at h0 with hz
      · exact Or.inl (parse_status_line_none _ _ _ _ h0)
      · cases h0
        omega
    split at hret
    · cases hret
    · rename_i r3 h3
      have hr3 : r3.parse_status = 1 ∨ r3.parse_status = 3 ∨ (r3.parse_status = 4 ∧
          ∃ t, t < len ∧ r3.header_len = t + 4 ∧ at_header_end buf t = .ok true ∧
            ∀ j, j < t → at_header_end buf j = .ok false) := by
        split_ifs at h3 with c3
        · rcases parse_phase3_complete _ _ _ _ _ c3 h3 with e | e
          · exact Or.inr (Or.inl e)
          · exact Or.inr (Or.inr e)
        · cases h3
          rcases hr0 with e | e
          · exact Or.inl e
          · exact absurd e c3
      split at hret
      · cases hret
      · rename_i v r1 h1
        cases hret
        split_ifs at h1 with c1
        · rcases parse_phase1_complete _ _ _ _ _ _ c1 h1 with e | ⟨e, _⟩
          · cases e
          · cases e
        · cases h1
      · rename_i r1 h1
        simp only [Except.ok.injEq, Prod.mk.injEq] at hret
        obtain ⟨hps, rfl⟩ := hret
        have h4 : r1.parse_status = 4 := by omega
        split_ifs at h1 with c1
        · rcases parse_phase1_complete _ _ _ _ _ _ c1 h1 with e | ⟨_, e⟩
          · cases e
          · exact e h4
        · cases h1
          rcases hr3 with e | e | ⟨_, e⟩
          · omega
          · omega
          · exact e

/-- In a buffer whose bytes past the scanned ones are zero, a CR LF CR LF that starts among
the scanned bytes ends among them. -/
theorem term_at_inside (data pad : List Nat) (t : Nat) (hpad : ∀ x ∈ pad, x = 0)
    (ht : term_at (data ++ pad) t) : t + 4 ≤ data.length := by
  have h3 := prefix_head (prefix_tail (prefix_tail (prefix_tail ht)))
  by_contra hc
  rw [List.getElem?_append_right (by omega)] at h3
  have hm := List.getElem?_mem h3
  have := hpad 10 hm
  omega

/-! ## A status other than 200 -/

/-- A first read whose status field is not `200` (any three bytes `a b c` other than `"200"`
after `HTTP/1.1 `; for `302` the read leaves a zero byte in the block):
`https_parse_response` returns -1 from the initial state, `https_download` returns what
`mbedtls_ssl_write` left in `ret` and the output file is not created. -/
theorem non_200_download (env : Env) (a b c : Nat) (tail : List Nat)
    (rest : List SslRead) (hsent : env.request_sent)
    (hreads : env.reads = .data (str "HTTP/1.1 " ++ a :: b :: c :: 32 :: tail) :: rest)
    (hfit : (str "HTTP/1.1 " ++ a :: b :: c :: 32 :: tail).length ≤ HTTPS_DOWNLOAD_BUF_SIZE)
    (hcode : [a, b, c] ≠ str "200")
    (hnul : [a, b, c] = str "302" →
      (str "HTTP/1.1 " ++ a :: b :: c :: 32 :: tail).length < HTTPS_DOWNLOAD_BUF_SIZE) :
    (∃ r, https_parse_response env.bak_ok
        (fill_alloc [] 0 (str "HTTP/1.1 " ++ a :: b :: c :: 32 :: tail))
        (str "HTTP/1.1 " ++ a :: b :: c :: 32 :: tail).length https_response_result_t.zero =
          .ok (-1, r)) ∧
    ∃ d, https_download env = .ok d ∧ d.ret ≠ 0 ∧ d.file = none := by
  obtain ⟨request, hreq⟩ := https_download_of_request_sent env hsent
  obtain ⟨r, hparse, hr⟩ := parse_response_not_200 env.bak_ok a b c tail
    (List.replicate (HTTPS_DOWNLOAD_BUF_SIZE -
      (str "HTTP/1.1 " ++ a :: b :: c :: 32 :: tail).length) 0) hcode
    (by
      intro h
      have hlt := hnul h
      obtain ⟨k, hk⟩ : ∃ k, HTTPS_DOWNLOAD_BUF_SIZE -
          (str "HTTP/1.1 " ++ a :: b :: c :: 32 :: tail).length = k + 1 :=
        ⟨HTTPS_DOWNLOAD_BUF_SIZE - (str "HTTP/1.1 " ++ a :: b :: c :: 32 :: tail).length - 1,
          by omega⟩
      rw [hk, List.replicate_succ]
      simp)
  rw [← fill_alloc_nil] at hparse
  refine ⟨⟨r, hparse⟩, Download.early env.write_ret true (some request) r rest, ?_, ?_, rfl⟩
  · rw [hreq]
    unfold download_response
    have hlen : (str "HTTP/1.1 " ++ a :: b :: c :: 32 :: tail).length ≠ 0 := by simp
    have hstep : header_step env.bak_ok env.reads https_response_result_t.zero =
        .ok (.exit r rest) := by
      unfold header_step
      rw [if_pos (by rfl), hreads]
      simp only [mbedtls_ssl_read, hfit, if_true, hlen, if_false, header_parse, hparse]
    have hloop : header_loop env.bak_ok (script_size env.reads + 1)
        ⟨https_response_result_t.zero, 0, [], env.reads⟩ = .ok (.exit r rest) := by
      unfold header_loop
      rw [if_pos (by simp [https_response_result_t.zero])]
      simp only [hstep]
    rw [hloop]
  · have := hsent.2.2.2.2.2.2.2.2.2
    simp only [Download.early]
    omega

/-- A 200 response that declares `Content-Length: 0`, read in one chunk: `https_download`
returns, its result is not 0 and the output file is not created.  However the header was
delivered, a run that completes the headers with `body_len = 0` returns a non-zero result
(`write_ret ≠ 0`) and does not create the output file. -/
theorem zero_length_download (env : Env) (before after : List (List Nat)) (tail : List Nat)
    (rest : List SslRead) (hsent : env.request_sent)
    (hb : ∀ l ∈ before, other_header l) (ha : ∀ l ∈ after, other_header l)
    (hreads : env.reads = .data (response_header before after 0 ++ tail) :: rest)
    (hfit : (response_header before after 0 ++ tail).length ≤ HTTPS_DOWNLOAD_BUF_SIZE) :
    (∃ d, https_download env = .ok d ∧ d.ret ≠ 0 ∧ d.file = none ∧ d.body_len = 0 ∧
      d.parse_status = 4) ∧
    ∀ (env1 : Env) (d1 : Download), https_download env1 = .ok d1 → env1.write_ret ≠ 0 →
      d1.parse_status = 4 → d1.body_len = 0 → d1.ret ≠ 0 ∧ d1.file = none := by
  refine ⟨?_, fun env1 d1 h1 h2 h3 h4 => complete_headers_zero_length env1 d1 h1 h2 h3 h4⟩
  obtain ⟨request, hreq⟩ := https_download_of_request_sent env hsent
  have h512 : HTTPS_DOWNLOAD_BUF_SIZE = 512 := rfl
  have hlen : (response_header before after 0).length + tail.length ≤ 512 := by
    simpa [h512] using hfit
  have hH : 0 < (response_header before after 0).length := by
    rw [response_header_length]; omega
  have hparse := parse_response_header env.bak_ok
    (fill_alloc [] 0 (response_header before after 0 ++ tail)) before after 0
    (response_header before after 0 ++ tail).length
    ((List.prefix_append _ _).trans (by simpa using fill_alloc_nil_prefix _)) hb ha
    (by decide) (by simp) (by rw [List.length_append]; simp only [U32]; omega)
  have hloop := header_loop_first_chunk env.bak_ok (script_size env.reads + 1)
    (response_header before after 0 ++ tail) rest _ [] 0
    (by intro h; have := congrArg List.length h; rw [List.length_append] at this
        simp only [List.length_nil] at this; omega) hfit
    (by rw [hreads]; simp only [script_size]; omega) hparse rfl
  rw [hreads] at hloop
  have hw : env.write_ret ≠ 0 := by
    have := hsent.2.2.2.2.2.2.2.2.2
    omega
  refine ⟨Download.early env.write_ret true (some request)
    ⟨200, (response_header before after 0).length,
      some (response_header before after 0).length, 0, none, 4⟩ rest, ?_, hw, rfl, rfl, rfl⟩
  rw [hreq]
  unfold download_response
  rw [hreads, hloop]
  simp only
  unfold download_body
  rw [if_pos rfl]

/-! ## The counter of the streaming loop -/

/-- In the streaming loop, from a state with `total_written < body_len` (both `uint32_t`
values), after the clamp, the write and the update following a successful read, the counter
`total_written` is at most `body_len`, the sum in the clamp test and the update of the counter
being taken modulo 2^32.  This bounds the counter, not the bytes written. -/
theorem stream_chunk_total_written_le (body_len : Nat) (t : Transfer) (bs : List Nat)
    (rest : List SslRead) (hbl : body_len < U32) (htw : t.total_written < body_len) :
    (stream_chunk body_len t bs rest).2.total_written ≤ body_len := by
  unfold stream_chunk sys_file_write clamp
  simp only [U32] at *
  split_ifs <;> simp_all <;> omega

/-- A first read that holds a status line `HTTP/1.1 200 <reason>`, header lines none of
which starts with `Content-Length` or `CONTENT-LENGTH`, and the empty line: the parser
returns -1, `https_download` returns what `mbedtls_ssl_write` left in `ret` and the output
file is not created. -/
theorem no_length_first_read (env : Env) (reason : List Nat)
    (others : List (List Nat)) (tail : List Nat) (rest : List SslRead)
    (hsent : env.request_sent) (hr : 13 ∉ reason) (ho : ∀ l ∈ others, other_header l)
    (hreads : env.reads =
      .data (header_lines ((str "HTTP/1.1 200 " ++ reason) :: others) ++ [13, 10] ++ tail) ::
        rest)
    (hfit : (header_lines ((str "HTTP/1.1 200 " ++ reason) :: others) ++ [13, 10] ++
      tail).length ≤ HTTPS_DOWNLOAD_BUF_SIZE) :
    (∃ r, https_parse_response env.bak_ok
        (fill_alloc [] 0
          (header_lines ((str "HTTP/1.1 200 " ++ reason) :: others) ++ [13, 10] ++ tail))
        (header_lines ((str "HTTP/1.1 200 " ++ reason) :: others) ++ [13, 10] ++ tail).length
        https_response_result_t.zero = .ok (-1, r)) ∧
    ∃ d, https_download env = .ok d ∧ d.ret ≠ 0 ∧ d.file = none := by
  obtain ⟨request, hreq⟩ := https_download_of_request_sent env hsent
  have hparse := parse_response_no_length env.bak_ok reason others tail
    (List.replicate (HTTPS_DOWNLOAD_BUF_SIZE -
      (header_lines ((str "HTTP/1.1 200 " ++ reason) :: others) ++ [13, 10] ++ tail).length) 0)
    (header_lines ((str "HTTP/1.1 200 " ++ reason) :: others) ++ [13, 10] ++ tail).length
    hr ho (by simp only [List.length_append]; omega)
  rw [← fill_alloc_nil] at hparse
  obtain ⟨r0, hr0⟩ : ∃ r0 : https_response_result_t,
      r0 = { https_response_result_t.zero with status_code := 200, parse_status := 1 } :=
    ⟨_, rfl⟩
  rw [← hr0] at hparse
  refine ⟨⟨r0, hparse⟩, Download.early env.write_ret true (some request) r0 rest, ?_, ?_, rfl⟩
  · rw [hreq]
    unfold download_response
    have hlen : (header_lines ((str "HTTP/1.1 200 " ++ reason) :: others) ++ [13, 10] ++
        tail).length ≠ 0 := by simp
    have hstep : header_step env.bak_ok env.reads https_response_result_t.zero =
        .ok (.exit r0 rest) := by
      unfold header_step
      rw [if_pos (by rfl), hreads]
      simp only [mbedtls_ssl_read, hfit, if_true, hlen, if_false, header_parse, hparse]
    have hloop : header_loop env.bak_ok (script_size env.reads + 1)
        ⟨https_response_result_t.zero, 0, [], env.reads⟩ = .ok (.exit r0 rest) := by
      unfold header_loop
      rw [if_pos (by simp [https_response_result_t.zero])]
      simp only [hstep]
    rw [hloop]
  · have := hsent.2.2.2.2.2.2.2.2.2
    simp only [Download.early]
    omega

/-! ## Carry bytes that start inside a line -/

theorem plain_of_other {l : List Nat} (h : other_header l) : plain_line l := ⟨h.2.1, h.2.2⟩

theorem plain_no_cr {l : List Nat} (h : plain_line l) : ∀ y ∈ l, y ≠ 13 := by
  intro y hy e
  exact h.1 (e ▸ hy)

theorem line_end_plain {buf : List Nat} {p : Nat} {l : List Nat} (r : https_response_result_t)
    (hline : (l ++ [13, 10]) <+: buf.drop p) (ho : plain_line l) :
    line_end buf (p + l.length) p r = .ok (p + l.length + 2, r) := by
  have h13 : (13 :: [10]) <+: buf.drop (p + l.length) := prefix_skip (l := l) hline
  have hcr := at_crlf_of_crlf (prefix_head h13) (prefix_head (prefix_tail h13))
  have hl13 : (l ++ [13]) <+: buf.drop p :=
    prefix_left (l := l ++ [13]) (m := [10]) (by simpa using hline)
  have m1 := memcmp_eq_false_of_line hl13 name_upper_no_cr ho.2.1
  have m2 := memcmp_eq_false_of_line hl13 name_mixed_no_cr ho.2.2
  simp [line_end, hcr, m1, m2]

/-- The bytes of header lines from a point at least two bytes before their end: the rest of
a line, which holds no CR, and whole lines. -/
theorem header_lines_drop : ∀ (ls : List (List Nat)) (w : Nat), (∀ l ∈ ls, other_header l) →
    w + 2 ≤ (header_lines ls).length →
    ∃ l0 ls', (header_lines ls).drop w = l0 ++ 13 :: 10 :: header_lines ls' ∧ 13 ∉ l0 ∧
      ∀ l ∈ ls', other_header l := by
  intro ls
  induction ls with
  | nil => intro w _ hw; simp [header_lines] at hw
  | cons l ls ih =>
    intro w h hw
    have ho := h l (List.mem_cons_self _ _)
    have hrest : ∀ l' ∈ ls, other_header l' := fun l' hl' => h l' (List.mem_cons_of_mem _ hl')
    have e : header_lines (l :: ls) = l ++ 13 :: 10 :: header_lines ls := rfl
    have hlen : (header_lines (l :: ls)).length = l.length + 2 + (header_lines ls).length := by
      rw [e]; simp; omega
    by_cases h1 : w ≤ l.length
    · refine ⟨l.drop w, ls, ?_, ?_, hrest⟩
      · rw [e, List.drop_append_of_le_length h1]
      · intro hm
        exact ho.2.1 (List.mem_of_mem_drop hm)
    · by_cases h2 : w = l.length + 1
      · cases ls with
        | nil =>
          have h0 : (header_lines ([] : List (List Nat))).length = 0 := rfl
          omega
        | cons l2 ls2 =>
          refine ⟨10 :: l2, ls2, ?_, ?_, fun x hx => hrest x (List.mem_cons_of_mem _ hx)⟩
          · rw [e, h2, List.drop_append_eq_append_drop]
            simp [header_lines]
          · have := (hrest l2 (List.mem_cons_self _ _)).2.1
            simp only [List.mem_cons, not_or]
            exact ⟨by decide, this⟩
      · obtain ⟨l0, ls', h3, h4, h5⟩ := ih (w - (l.length + 2)) hrest (by omega)
        refine ⟨l0, ls', ?_, h4, h5⟩
        rw [← h3, e]
        rw [show l ++ 13 :: 10 :: header_lines ls = (l ++ [13, 10]) ++ header_lines ls by simp]
        rw [List.drop_append_eq_append_drop, List.drop_of_length_le (by simp; omega)]
        simp

/-- The scan passes over the rest of a line and the whole lines behind it. -/
theorem scan_headers_from_inside (buf : List Nat) (r : https_response_result_t)
    (l0 : List Nat) (ls : List (List Nat)) (p k x : Nat) (t : List Nat)
    (h0 : plain_line l0) (h : ∀ l ∈ ls, other_header l)
    (hp : (l0 ++ 13 :: 10 :: header_lines ls ++ x :: t) <+: buf.drop p) (hx : x ≠ 13) :
    scan_headers buf (k + (l0.length + 2 + (header_lines ls).length)) p p r =
      scan_headers buf k (p + (l0.length + 2 + (header_lines ls).length))
        (p + (l0.length + 2 + (header_lines ls).length)) r := by
  obtain ⟨y, t', hy, hy13⟩ := header_lines_head ls x t h hx
  have hp' : (l0 ++ [13, 10, y] ++ t') <+: buf.drop p := by
    have e : l0 ++ 13 :: 10 :: header_lines ls ++ x :: t = l0 ++ [13, 10, y] ++ t' := by
      simp only [List.append_assoc, List.cons_append, hy, List.nil_append]
    rwa [e] at hp
  have hline : (l0 ++ [13, 10, y]) <+: buf.drop p := prefix_left hp'
  have hle := line_end_plain r
    (prefix_left (l := l0 ++ [13, 10]) (m := [y]) (by simpa using hline)) h0
  have hnext : (header_lines ls ++ x :: t) <+: buf.drop (p + l0.length + 2) := by
    have := prefix_skip (l := l0 ++ [13, 10]) (m := header_lines ls ++ x :: t)
      (by simpa using hp)
    simpa [Nat.add_assoc] using this
  rw [show k + (l0.length + 2 + (header_lines ls).length) =
      (k + (header_lines ls).length) + (l0.length + 2) by omega,
    scan_headers_line _ hline (plain_no_cr h0) hy13 hle,
    scan_headers_others buf r ls (p + l0.length + 2) k x t h hnext hx]
  congr 1 <;> omega

/-- Lines the scan passes over, then a line without CR that may end in a lone CR, cut off
anywhere and followed by a zero byte: the scan runs to the end of the data and changes
nothing. -/
theorem scan_cut (buf : List Nat) (r : https_response_result_t) (c : List Nat)
    (hc : ∀ y ∈ c, y ≠ 13) :
    ∀ (ls : List (List Nat)) (m p : Nat) (pad : List Nat), (∀ l ∈ ls, plain_line l) →
      (∀ l ∈ ls.tail, l ≠ []) →
      buf.drop p = (header_lines ls ++ (c ++ [13])).take m ++ 0 :: pad →
      scan_headers buf ((header_lines ls ++ (c ++ [13])).take m).length p p r =
        .ok (false, r) := by
  intro ls
  induction ls with
  | nil =>
    intro m p pad _ _ hd
    have e : header_lines [] ++ (c ++ [13]) = c ++ [13] := rfl
    rw [e] at hd ⊢
    by_cases hm : m ≤ c.length
    · have e1 : (c ++ [13]).take m = c.take m := by
        rw [List.take_append_of_le_length hm]
      rw [e1] at hd ⊢
      have hpre : c.take m <+: buf.drop p := ⟨0 :: pad, hd.symm⟩
      have := scan_headers_skip buf p r (c.take m) p 0
        (fun y hy => hc y (List.mem_of_mem_take hy)) hpre
      simpa using this
    · have e1 : (c ++ [13]).take m = c ++ [13] := by
        apply List.take_of_length_le
        simp
        omega
      rw [e1] at hd ⊢
      have hpre : c <+: buf.drop p := ⟨13 :: 0 :: pad, by rw [hd]; simp⟩
      have hd' : buf.drop (p + c.length) = 13 :: 0 :: pad := by
        rw [← List.drop_drop, hd]; simp
      have g0 : buf[p + c.length]? = some 13 := by simpa using get_of_drop hd' 0
      have g1 : buf[p + c.length + 1]? = some 0 := by simpa using get_of_drop hd' 1
      have s1 := scan_headers_skip buf p r c p 1 hc hpre
      have hlen : (c ++ [13]).length = 1 + c.length := by simp; omega
      rw [hlen, s1, scan_headers_step_cr 0 p r g0 g1]
      rfl
  | cons l ls ih =>
    intro m p pad h hne hd
    have ho := h l (List.mem_cons_self _ _)
    have hrest : ∀ l' ∈ ls, plain_line l' := fun l' hl' => h l' (List.mem_cons_of_mem _ hl')
    have hne' : ∀ l' ∈ ls.tail, l' ≠ [] := fun l' hl' => hne l' (List.mem_of_mem_tail hl')
    have hcr := plain_no_cr ho
    have e : header_lines (l :: ls) ++ (c ++ [13]) =
        l ++ (13 :: 10 :: (header_lines ls ++ (c ++ [13]))) := by
      simp [header_lines]
    rw [e] at hd ⊢
    by_cases hm : m ≤ l.length
    · -- the cut is inside the line
      have e1 : (l ++ (13 :: 10 :: (header_lines ls ++ (c ++ [13])))).take m = l.take m := by
        rw [List.take_append_of_le_length hm]
      rw [e1] at hd ⊢
      have hpre : l.take m <+: buf.drop p := ⟨0 :: pad, hd.symm⟩
      have := scan_headers_skip buf p r (l.take m) p 0
        (fun y hy => hcr y (List.mem_of_mem_take hy)) hpre
      simpa using this
    · by_cases hm1 : m = l.length + 1
      · -- the cut is between CR and LF
        have e1 : (l ++ (13 :: 10 :: (header_lines ls ++ (c ++ [13])))).take m = l ++ [13] := by
          rw [hm1, List.take_append_eq_append_take]
          simp
        rw [e1] at hd ⊢
        have hpre : l <+: buf.drop p := ⟨13 :: 0 :: pad, by rw [hd]; simp⟩
        have hd' : buf.drop (p + l.length) = 13 :: 0 :: pad := by
          rw [← List.drop_drop, hd]; simp
        have g0 : buf[p + l.length]? = some 13 := by simpa using get_of_drop hd' 0
        have g1 : buf[p + l.length + 1]? = some 0 := by simpa using get_of_drop hd' 1
        have s1 := scan_headers_skip buf p r l p 1 hcr hpre
        have hlen : (l ++ [13]).length = 1 + l.length := by simp; omega
        rw [hlen, s1, scan_headers_step_cr 0 p r g0 g1]
        rfl
      · -- the line is complete
        obtain ⟨m', hm'⟩ : ∃ m', m = l.length + 2 + m' := ⟨m - (l.length + 2), by omega⟩
        have e1 : (l ++ (13 :: 10 :: (header_lines ls ++ (c ++ [13])))).take m =
            l ++ 13 :: 10 :: (header_lines ls ++ (c ++ [13])).take m' := by
          have hsub : l.length + 2 + m' - l.length = m' + 2 := by omega
          rw [hm', List.take_append_eq_append_take, hsub,
            List.take_of_length_le (by omega)]
          rfl
        rw [e1] at hd ⊢
        set D := (header_lines ls ++ (c ++ [13])).take m' with hD
        have hline : (l ++ [13, 10]) <+: buf.drop p := ⟨D ++ 0 :: pad, by rw [hd]; simp⟩
        have hd' : buf.drop (p + l.length + 2) = D ++ 0 :: pad := by
          rw [show p + l.length + 2 = p + (l.length + 2) by omega, ← List.drop_drop, hd]
          rw [show l ++ 13 :: 10 :: D ++ 0 :: pad = (l ++ [13, 10]) ++ (D ++ 0 :: pad) by simp]
          rw [List.drop_left' (by simp)]
        -- no header end at the end of this line
        have hno : at_crlf buf (p + l.length + 2) = .ok false := by
          rcases hDc : D with _ | ⟨y, D'⟩
          · rw [hDc] at hd'
            have g0 : buf[p + l.length + 2]? = some 0 := by simpa using get_of_drop hd' 0
            exact at_crlf_of_ne g0 (by decide)
          · rw [hDc] at hd'
            have g0 : buf[p + l.length + 2]? = some y := by simpa using get_of_drop hd' 0
            cases ls with
            | nil =>
              cases c with
              | nil =>
                have : D = [13].take m' := by simp [hD, header_lines]
                rw [hDc] at this
                cases m' with
                | zero => simp at this
                | succ m'' =>
                  simp at this
                  obtain ⟨rfl, rfl⟩ := this
                  have g1 : buf[p + l.length + 2 + 1]? = some 0 := by
                    simpa using get_of_drop hd' 1
                  rw [at_crlf_of_get g0 g1]
                  simp
              | cons z c' =>
                have : D = (z :: (c' ++ [13])).take m' := by simp [hD, header_lines]
                rw [hDc] at this
                cases m' with
                | zero => simp at this
                | succ m'' =>
                  simp at this
                  rw [this.1] at g0
                  exact at_crlf_of_ne g0 (hc z (List.mem_cons_self _ _))
            | cons l2 ls2 =>
              have ho2 := hrest l2 (List.mem_cons_self _ _)
              have hl2 : l2 ≠ [] := hne l2 (by simp)
              have hy : y ∈ l2 := by
                cases l2 with
                | nil => exact absurd rfl hl2
                | cons z l2' =>
                  have : D = (z :: (l2' ++ 13 :: 10 :: header_lines ls2 ++ (c ++ [13]))).take m' := by
                    simp [hD, header_lines]
                  rw [hDc] at this
                  cases m' with
                  | zero => simp at this
                  | succ m'' =>
                    simp at this
                    rw [this.1]
                    exact List.mem_cons_self _ _
              exact at_crlf_of_ne g0 (plain_no_cr ho2 y hy)
        have h13 : (13 :: [10]) <+: buf.drop (p + l.length) := prefix_skip (l := l) hline
        have hcrlf := at_crlf_of_crlf (prefix_head h13) (prefix_head (prefix_tail h13))
        have hend := at_header_end_of_second_false _ hcrlf hno
        have hle := line_end_plain r hline ho
        have s1 := scan_headers_line_gen D.length hline hcr hend hle
        have s2 := ih m' (p + l.length + 2) pad hrest hne' hd'
        have hlen : (l ++ 13 :: 10 :: D).length = D.length + (l.length + 2) := by
          simp; omega
        rw [hlen, s1]
        exact s2

theorem length_line_no_cr (v : List Nat) (hcr0 : 13 ∉ v) :
    ∀ y ∈ str "Content-Length: " ++ v, y ≠ 13 := by
  intro y hy
  rcases List.mem_append.mp hy with h | h
  · exact content_length_no_cr y h
  · intro e
    rw [e] at h
    exact hcr0 h

theorem length_line_length (v : List Nat) :
    (str "Content-Length: " ++ v).length = 16 + v.length := by
  rw [List.length_append]; rfl

/-- The scan from the start of the Content-Length line when the header is complete in the
buffer: the length is converted and the header end found. -/
theorem scan_length_line_done (buf : List Nat) (after : List (List Nat)) (v : List Nat)
    (p k : Nat) (r : https_response_result_t)
    (hcl : (str "Content-Length: " ++ v ++ 13 :: 10 :: header_lines after ++ [13, 10])
      <+: buf.drop p)
    (ha : ∀ l ∈ after, other_header l)
    (ht : trimmed_value v) (hcr0 : 13 ∉ v) (hdl : v.length ≤ 11)
    (hq : p + 16 + v.length < U32) :
    scan_headers buf (k + (16 + v.length + (header_lines after).length + 1)) p p r =
      .ok (false, { r with body_len := to_u32 (atoi v), parse_status := 4,
                           header_len := p + (16 + v.length + 2 + (header_lines after).length + 2),
                           body := some (p + (16 + v.length + 2 + (header_lines after).length + 2)) }) := by
  have hle := line_end_value (p := p) r
    (prefix_left (l := str "Content-Length: " ++ v ++ [13, 10])
      (m := header_lines after ++ [13, 10]) (by simpa using hcl)) ht hdl hq
  have hcl_len := length_line_length v
  have hcr := length_line_no_cr v hcr0
  cases after with
  | nil =>
    have hline : (str "Content-Length: " ++ v ++ [13, 10, 13, 10]) <+: buf.drop p := by
      simpa [header_lines] using hcl
    have := scan_headers_last_line k (r := r) hline hcr
      (by rw [hcl_len, ← Nat.add_assoc]; exact hle) rfl
    simp only [header_lines, List.length_nil]
    rw [show k + (16 + v.length + 0 + 1) =
        k + ((str "Content-Length: " ++ v).length + 1) by rw [hcl_len], this]
    simp only [Except.ok.injEq, Prod.mk.injEq, true_and]
    rw [hcl_len]
    congr 1
  | cons l2 ls =>
    obtain ⟨y, t', hy, hy13⟩ := header_lines_cons_head l2 ls [13, 10]
      (ha l2 (List.mem_cons_self _ _))
    have hline : (str "Content-Length: " ++ v ++ [13, 10, y]) <+: buf.drop p := by
      have e : str "Content-Length: " ++ v ++ 13 :: 10 :: header_lines (l2 :: ls) ++ [13, 10] =
          (str "Content-Length: " ++ v ++ [13, 10, y]) ++ t' := by
        simp only [List.append_assoc, List.cons_append, hy, List.nil_append]
      rw [e] at hcl
      exact prefix_left hcl
    have hnext : (header_lines (l2 :: ls) ++ [13, 10]) <+: buf.drop (p + (16 + v.length) + 2) := by
      have := prefix_skip (l := str "Content-Length: " ++ v ++ [13, 10])
        (m := header_lines (l2 :: ls) ++ [13, 10]) (by simpa using hcl)
      have e : (str "Content-Length: " ++ v ++ [13, 10]).length = 16 + v.length + 2 := by
        rw [List.length_append, hcl_len]; rfl
      rw [e, ← Nat.add_assoc] at this
      exact this
    have hpos : 2 ≤ (header_lines (l2 :: ls)).length := by
      simp [header_lines]; omega
    have s1 := scan_headers_line (k + ((header_lines (l2 :: ls)).length - 1)) (r := r) hline hcr
      hy13 (by rw [hcl_len, ← Nat.add_assoc]; exact hle)
    have s2 := scan_headers_others_end buf
      { r with body_len := to_u32 (atoi v), parse_status := 2 } rfl (l2 :: ls)
      (p + (16 + v.length) + 2) k (by simp) ha hnext
    rw [show k + (16 + v.length + (header_lines (l2 :: ls)).length + 1) =
        k + ((header_lines (l2 :: ls)).length - 1) + ((str "Content-Length: " ++ v).length + 2)
        by rw [hcl_len]; omega, s1, hcl_len, s2]
    simp only [Except.ok.injEq, Prod.mk.injEq, true_and]
    congr 1
    · omega
    · congr 1; omega

/-- The scan from the start of the Content-Length line when the data break off before the
empty line is complete: the length is converted, the result is that of phase 2. -/
theorem scan_length_line_stalled (buf : List Nat) (after : List (List Nat)) (v : List Nat)
    (m p : Nat) (pad : List Nat) (r : https_response_result_t)
    (hcl : buf.drop p = str "Content-Length: " ++ v ++
      13 :: 10 :: ((header_lines after ++ [13]).take m ++ 0 :: pad))
    (ha : ∀ l ∈ after, other_header l)
    (ht : trimmed_value v) (hcr0 : 13 ∉ v) (hdl : v.length ≤ 11)
    (hq : p + 16 + v.length < U32) :
    scan_headers buf (((header_lines after ++ [13]).take m).length + (16 + v.length + 2)) p p r =
      .ok (false, { r with body_len := to_u32 (atoi v), parse_status := 2 }) := by
  set D := (header_lines after ++ [13]).take m with hD
  have hcl_len := length_line_length v
  have hcr := length_line_no_cr v hcr0
  have hdrop : buf.drop (p + (16 + v.length) + 2) = D ++ 0 :: pad := by
    rw [show p + (16 + v.length) + 2 = p + ((16 + v.length) + 2) by omega,
      ← List.drop_drop, hcl]
    rw [show str "Content-Length: " ++ v ++ 13 :: 10 :: (D ++ 0 :: pad) =
      (str "Content-Length: " ++ v ++ [13, 10]) ++ (D ++ 0 :: pad) by simp]
    rw [List.drop_left' (by rw [List.length_append, hcl_len]; rfl)]
  have hline : (str "Content-Length: " ++ v ++ [13, 10]) <+: buf.drop p :=
    ⟨D ++ 0 :: pad, by rw [hcl]; simp⟩
  have hle := line_end_value (p := p) r hline ht hdl hq
  have hno := truncated_head_not_crlf after m pad ha hdrop
  have h13 : (13 :: [10]) <+: buf.drop (p + (str "Content-Length: " ++ v).length) :=
    prefix_skip (l := str "Content-Length: " ++ v) hline
  have hcrlf := at_crlf_of_crlf (prefix_head h13) (prefix_head (prefix_tail h13))
  have hend := at_header_end_of_second_false _ hcrlf
    (by rw [hcl_len, ← Nat.add_assoc]; rw [← Nat.add_assoc] at hno; exact hno)
  have s1 := scan_headers_line_gen D.length (r := r) hline hcr hend
    (by rw [hcl_len, ← Nat.add_assoc]; exact hle)
  have s2 := scan_headers_truncated buf { r with body_len := to_u32 (atoi v), parse_status := 2 }
    after m (p + (16 + v.length) + 2) pad ha hdrop
  rw [← hcl_len, s1, hcl_len]
  exact s2

theorem header_lines_cons_length (l : List Nat) (ls : List (List Nat)) :
    (header_lines (l :: ls)).length = l.length + 2 + (header_lines ls).length := by
  simp [header_lines]; omega

/-- Phase 1 on data that break off before the Content-Length line is complete: the parser
stays in state 1 and keeps the last 32 bytes. -/
theorem parse_phase1_seek (l0 : List Nat) (ls : List (List Nat)) (v rest : List Nat)
    (m : Nat) (pad : List Nat) (r : https_response_result_t)
    (h0 : plain_line l0) (h : ∀ l ∈ ls, other_header l) (hcr0 : 13 ∉ v)
    (hr : r.parse_status = 1)
    (hm : m < (header_lines (l0 :: ls)).length + 16 + v.length + 2) (h32 : 32 ≤ m) :
    parse_phase1 true
      ((header_lines (l0 :: ls) ++ (str "Content-Length: " ++ v ++ 13 :: 10 :: rest)).take m ++
        0 :: pad) m r =
      .ok (none, { r with header_bak := some (last32
        ((header_lines (l0 :: ls) ++ (str "Content-Length: " ++ v ++ 13 :: 10 :: rest)).take m)) }) := by
  set W := (header_lines (l0 :: ls) ++ (str "Content-Length: " ++ v ++ 13 :: 10 :: rest)).take m
    with hW
  have hcl := length_line_length v
  have e1 : W = (header_lines (l0 :: ls) ++ ((str "Content-Length: " ++ v) ++ [13])).take m := by
    rw [hW]
    have e : header_lines (l0 :: ls) ++ (str "Content-Length: " ++ v ++ 13 :: 10 :: rest) =
        (header_lines (l0 :: ls) ++ ((str "Content-Length: " ++ v) ++ [13])) ++ 10 :: rest := by
      simp
    rw [e, List.take_append_of_le_length]
    simp only [List.length_append, hcl, List.length_cons, List.length_nil]
    omega
  have hlen : W.length = m := by
    rw [e1, List.length_take]
    simp only [List.length_append, hcl, List.length_cons, List.length_nil]
    omega
  have hpl : ∀ l ∈ l0 :: ls, plain_line l := by
    intro l hl
    rcases List.mem_cons.mp hl with rfl | hl
    · exact h0
    · exact plain_of_other (h l hl)
  have hscan := scan_cut (W ++ 0 :: pad) r (str "Content-Length: " ++ v)
    (length_line_no_cr v hcr0) (l0 :: ls) m 0 pad hpl
    (fun l hl => (h l (by simpa using hl)).1) (by rw [List.drop_zero, ← e1])
  rw [← e1, hlen] at hscan
  have hcarry := carry_bytes_padded W (0 :: pad) (by omega)
  rw [hlen] at hcarry
  unfold parse_phase1
  rw [hscan]
  simp only
  rw [if_pos hr]
  simp only [save_header_bak, if_true, hcarry]

/-- Phase 1 on data that hold the Content-Length line and break off before the empty line is
complete: the length is converted, the parser goes to state 3 and keeps the last 32 bytes. -/
theorem parse_phase1_stall (l0 : List Nat) (ls after : List (List Nat)) (v body : List Nat)
    (m : Nat) (pad : List Nat) (r : https_response_result_t)
    (h0 : plain_line l0) (h : ∀ l ∈ ls, other_header l) (ha : ∀ l ∈ after, other_header l)
    (ht : trimmed_value v) (hcr0 : 13 ∉ v) (hdl : v.length ≤ 11)
    (hm1 : (header_lines (l0 :: ls)).length + 16 + v.length + 2 ≤ m)
    (hm2 : m < (header_lines (l0 :: ls)).length + 16 + v.length + 2 +
      (header_lines after).length + 2) (hu : m < U32) (h32 : 32 ≤ m) :
    parse_phase1 true
      ((header_lines (l0 :: ls) ++ (str "Content-Length: " ++ v ++
          13 :: 10 :: (header_lines after ++ [13, 10] ++ body))).take m ++ 0 :: pad) m r =
      .ok (none, { r with body_len := to_u32 (atoi v), parse_status := 3,
                          header_bak := some (last32
          ((header_lines (l0 :: ls) ++ (str "Content-Length: " ++ v ++
            13 :: 10 :: (header_lines after ++ [13, 10] ++ body))).take m)) }) := by
  set W := (header_lines (l0 :: ls) ++ (str "Content-Length: " ++ v ++
    13 :: 10 :: (header_lines after ++ [13, 10] ++ body))).take m with hW
  have hcl := length_line_length v
  have hL := header_lines_cons_length l0 ls
  set P := (header_lines (l0 :: ls)).length with hP
  set D := (header_lines after ++ [13]).take (m - (P + 16 + v.length + 2)) with hD
  have hDlen : D.length = m - (P + 16 + v.length + 2) := by
    rw [hD, List.length_take]
    simp only [List.length_append, List.length_cons, List.length_nil]
    omega
  have e1 : W = header_lines (l0 :: ls) ++ (str "Content-Length: " ++ v ++ 13 :: 10 :: D) := by
    rw [hW]
    have e : header_lines (l0 :: ls) ++ (str "Content-Length: " ++ v ++
        13 :: 10 :: (header_lines after ++ [13, 10] ++ body)) =
        (header_lines (l0 :: ls) ++ (str "Content-Length: " ++ v ++ [13, 10])) ++
          ((header_lines after ++ [13]) ++ 10 :: body) := by
      simp
    have hA : (header_lines (l0 :: ls) ++ (str "Content-Length: " ++ v ++ [13, 10])).length =
        P + 16 + v.length + 2 := by
      simp only [List.length_append, hcl, List.length_cons, List.length_nil]
      omega
    rw [e, List.take_append_eq_append_take, List.take_of_length_le (by omega), hA,
      List.take_append_of_le_length (by
        simp only [List.length_append, List.length_cons, List.length_nil]; omega), ← hD]
    simp
  have hlen : W.length = m := by
    rw [e1]
    simp only [List.length_append, hcl, List.length_cons, hDlen]
    omega
  have hbuf : W ++ 0 :: pad = l0 ++ 13 :: 10 :: header_lines ls ++
      67 :: (str "ontent-Length: " ++ v ++ 13 :: 10 :: (D ++ 0 :: pad)) := by
    have e67 : str "Content-Length: " = 67 :: str "ontent-Length: " := by decide
    rw [e1, e67]
    simp [header_lines]
  have s1 := scan_headers_from_inside (W ++ 0 :: pad) r l0 ls 0
    (D.length + (16 + v.length + 2)) 67 _ h0 h (by rw [List.drop_zero, hbuf]) (by decide)
  have hdrop : (W ++ 0 :: pad).drop P = str "Content-Length: " ++ v ++
      13 :: 10 :: ((header_lines after ++ [13]).take (m - (P + 16 + v.length + 2)) ++ 0 :: pad) := by
    rw [e1, ← hD]
    rw [show header_lines (l0 :: ls) ++ (str "Content-Length: " ++ v ++ 13 :: 10 :: D) ++ 0 :: pad =
      header_lines (l0 :: ls) ++ (str "Content-Length: " ++ v ++ 13 :: 10 :: (D ++ 0 :: pad)) by
        simp]
    rw [List.drop_left' hP.symm]
  have s2 := scan_length_line_stalled (W ++ 0 :: pad) after v _ P pad r hdrop ha ht hcr0 hdl
    (by omega)
  rw [← hD] at s2
  have hscan : scan_headers (W ++ 0 :: pad) m 0 0 r =
      .ok (false, { r with body_len := to_u32 (atoi v), parse_status := 2 }) := by
    rw [show m = D.length + (16 + v.length + 2) + (l0.length + 2 + (header_lines ls).length) by
      omega, s1]
    simp only [Nat.zero_add]
    rw [← hL]
    exact s2
  have hcarry := carry_bytes_padded W (0 :: pad) (by omega)
  rw [hlen] at hcarry
  unfold parse_phase1
  rw [hscan]
  simp only
  simp only [Nat.reduceEqDiff, if_false, if_true, save_header_bak, hcarry]

/-- Phase 1 on data that hold the whole header: the length is converted and the header end
found. -/
theorem parse_phase1_done (buf : List Nat) (l0 : List Nat) (ls after : List (List Nat))
    (v : List Nat) (m : Nat) (r : https_response_result_t)
    (h0 : plain_line l0) (h : ∀ l ∈ ls, other_header l) (ha : ∀ l ∈ after, other_header l)
    (ht : trimmed_value v) (hcr0 : 13 ∉ v) (hdl : v.length ≤ 11)
    (hbuf : (header_lines (l0 :: ls) ++ (str "Content-Length: " ++ v ++
      13 :: 10 :: header_lines after ++ [13, 10])) <+: buf)
    (hm : (header_lines (l0 :: ls)).length + 16 + v.length + 2 +
      (header_lines after).length + 2 ≤ m) (hu : m < U32) :
    parse_phase1 true buf m r =
      .ok (none, { r with body_len := to_u32 (atoi v), parse_status := 4,
                          header_len := (header_lines (l0 :: ls)).length + 16 + v.length + 2 +
                            (header_lines after).length + 2,
                          body := some ((header_lines (l0 :: ls)).length + 16 + v.length + 2 +
                            (header_lines after).length + 2) }) := by
  have hcl := length_line_length v
  have hL := header_lines_cons_length l0 ls
  set P := (header_lines (l0 :: ls)).length with hP
  have e67 : str "Content-Length: " = 67 :: str "ontent-Length: " := by decide
  have hlay : (l0 ++ 13 :: 10 :: header_lines ls ++
      67 :: (str "ontent-Length: " ++ v ++ 13 :: 10 :: header_lines after ++ [13, 10]))
      <+: buf.drop 0 := by
    rw [List.drop_zero]
    have e : header_lines (l0 :: ls) ++ (str "Content-Length: " ++ v ++
        13 :: 10 :: header_lines after ++ [13, 10]) =
        l0 ++ 13 :: 10 :: header_lines ls ++
          67 :: (str "ontent-Length: " ++ v ++ 13 :: 10 :: header_lines after ++ [13, 10]) := by
      rw [e67]
      simp [header_lines]
    rwa [e] at hbuf
  have hcl2 : (str "Content-Length: " ++ v ++ 13 :: 10 :: header_lines after ++ [13, 10])
      <+: buf.drop P := by
    have := prefix_skip (l := header_lines (l0 :: ls)) (i := 0) (by simpa using hbuf)
    simpa using this
  have s1 := scan_headers_from_inside buf r l0 ls 0
    (m - (P + 16 + v.length + (header_lines after).length + 1) +
      (16 + v.length + (header_lines after).length + 1)) 67 _ h0 h hlay (by decide)
  have s2 := scan_length_line_done buf after v P
    (m - (P + 16 + v.length + (header_lines after).length + 1)) r hcl2 ha ht hcr0 hdl (by omega)
  have hscan : scan_headers buf m 0 0 r =
      .ok (false, { r with body_len := to_u32 (atoi v), parse_status := 4,
                           header_len := P + 16 + v.length + 2 + (header_lines after).length + 2,
                           body := some (P + 16 + v.length + 2 + (header_lines after).length + 2) }) := by
    rw [show m = m - (P + 16 + v.length + (header_lines after).length + 1) +
        (16 + v.length + (header_lines after).length + 1) +
        (l0.length + 2 + (header_lines ls).length) by omega, s1]
    simp only [Nat.zero_add]
    rw [← hL, s2]
    simp only [Except.ok.injEq, Prod.mk.injEq, true_and]
    congr 1
    · omega
    · congr 1; omega
  unfold parse_phase1
  rw [hscan]
  simp only [Nat.reduceEqDiff, if_false]

/-- The empty line of a response header with an arbitrary Content-Length value is the first
place of the stream where CR LF CR LF stands. -/
theorem response_header_value_first_term (before after : List (List Nat)) (v body : List Nat)
    (hb : ∀ l ∈ before, other_header l) (ha : ∀ l ∈ after, other_header l)
    (ht : trimmed_value v) (hcr0 : 13 ∉ v) (hdl : v.length ≤ 11)
    (hH : (response_header_value before after v).length < U32) :
    term_at (response_header_value before after v ++ body)
        ((response_header_value before after v).length - 4) ∧
      ∀ j, j < (response_header_value before after v).length - 4 →
        ¬ term_at (response_header_value before after v ++ body) j := by
  have hscan := scan_value_header (response_header_value before after v ++ body) before after v 0
    https_response_result_t.zero (List.prefix_append _ _) hb ha ht hcr0 hdl hH
  obtain ⟨t, -, -, hlen, ht, hfirst⟩ := scan_headers_found _ _ _ _ _ _ hscan
    (by simp [https_response_result_t.zero]) (by simp)
  simp only at hlen
  have e : (response_header_value before after v).length - 4 = t := by omega
  rw [e]
  exact ⟨term_of_at_header_end ht,
    fun j hj => not_term_of_at_header_end (hfirst j (Nat.zero_le _) hj)⟩

theorem parse_response_phase1 (buf : List Nat) (m : Nat) (r' : https_response_result_t)
    (h : parse_phase1 true buf m ⟨200, 0, none, 0, none, 1⟩ = .ok (none, r')) :
    https_parse_response true buf m ⟨200, 0, none, 0, none, 1⟩ =
      .ok ((r'.parse_status : Int), r') := by
  unfold https_parse_response
  rw [if_neg (by decide)]
  simp only
  rw [if_neg (by decide)]
  simp only [if_true]
  rw [h]

theorem parse_response_first (buf : List Nat) (m : Nat) (r' : https_response_result_t)
    (hst : str "HTTP/1.1 200 " <+: buf) (hm : 13 ≤ m)
    (h : parse_phase1 true buf m ⟨200, 0, none, 0, none, 1⟩ = .ok (none, r')) :
    https_parse_response true buf m https_response_result_t.zero =
      .ok ((r'.parse_status : Int), r') := by
  have h1 := status_line_200 m https_response_result_t.zero hst hm
  have e : ({ https_response_result_t.zero with status_code := 200, parse_status := 1 } :
      https_response_result_t) = ⟨200, 0, none, 0, none, 1⟩ := rfl
  rw [e] at h1
  unfold https_parse_response
  rw [if_pos (by rfl), h1]
  simp only
  rw [if_neg (by decide)]
  simp only [if_true]
  rw [h]

theorem fill_alloc_window (carry c : List Nat) (hc : carry.length = 32) :
    fill_alloc carry HTTPS_HEADER_BAK_LEN c =
      (carry ++ c) ++ List.replicate (480 - c.length) 0 := by
  have h32 : HTTPS_HEADER_BAK_LEN = 32 := rfl
  have h512 : HTTPS_DOWNLOAD_BUF_SIZE = 512 := rfl
  unfold fill_alloc
  rw [h32, h512, hc]
  have : 512 - (32 + c.length) = 480 - c.length := by omega
  rw [this]
  simp

/-- One turn of the header loop in state 1 on a chunk that fits the buffer behind the carry
bytes: the parser runs on the carry bytes followed by the chunk. -/
theorem header_step_seeking (S c : List Nat) (rest : List SslRead)
    (hS : 32 ≤ S.length) (hc : c ≠ []) (hlen : c.length ≤ 480) :
    header_step true (.data c :: rest) ⟨200, 0, none, 0, some (last32 S), 1⟩ =
      header_parse true (fill_alloc (last32 S) HTTPS_HEADER_BAK_LEN c)
        (c.length + HTTPS_HEADER_BAK_LEN) ⟨200, 0, none, 0, none, 1⟩ rest := by
  have h32 : HTTPS_HEADER_BAK_LEN = 32 := rfl
  have h512 : HTTPS_DOWNLOAD_BUF_SIZE = 512 := rfl
  have hl := last32_length S hS
  have hcarry : carry_of ⟨200, 0, none, 0, some (last32 S), 1⟩ = last32 S := by
    simp only [carry_of]
    exact List.take_of_length_le (by rw [hl, h32])
  have hne : c.length ≠ 0 := fun h => hc (List.length_eq_zero.mp h)
  unfold header_step
  rw [if_neg (by simp), if_pos (by simp)]
  simp only [mbedtls_ssl_read, h32, h512]
  rw [if_pos (by omega)]
  simp only
  rw [if_neg hne, ← h32, hcarry]

/-- The stream from a point inside the lines before the Content-Length line, at least two
bytes before their end, where the header name does not stand: the rest of a line, which the
scan passes over, whole lines, and the rest of the stream. -/
theorem window_lines (Ls : List (List Nat)) (R : List Nat) (w : Nat)
    (h : ∀ l ∈ Ls, other_header l) (hw : w + 2 ≤ (header_lines Ls).length)
    (hn : ¬ name_at (header_lines Ls ++ R) w) :
    ∃ l0 ls', (header_lines Ls ++ R).drop w = header_lines (l0 :: ls') ++ R ∧ plain_line l0 ∧
      (∀ l ∈ ls', other_header l) ∧
      (header_lines (l0 :: ls')).length + w = (header_lines Ls).length := by
  obtain ⟨l0, ls', h1, h2, h3⟩ := header_lines_drop Ls w h hw
  have e : (header_lines Ls ++ R).drop w = header_lines (l0 :: ls') ++ R := by
    rw [List.drop_append_of_le_length (by omega), h1]
    rfl
  refine ⟨l0, ls', e, ⟨h2, ?_, ?_⟩, h3, ?_⟩
  · intro hp
    apply hn
    left
    rw [e]
    exact hp.trans ⟨13 :: 10 :: header_lines ls' ++ R, by simp [header_lines]⟩
  · intro hp
    apply hn
    right
    rw [e]
    exact hp.trans ⟨13 :: 10 :: header_lines ls' ++ R, by simp [header_lines]⟩
  · have := congrArg List.length h1
    rw [List.length_drop] at this
    have e2 : (header_lines (l0 :: ls')).length = (l0 ++ 13 :: 10 :: header_lines ls').length := rfl
    omega

theorem drop_take_append (A B : List Nat) (w : Nat) (hw : w ≤ A.length) :
    A.drop w = ((A ++ B).drop w).take (A.length - w) := by
  rw [List.drop_append_of_le_length hw, List.take_left' (by simp)]

theorem response_header_value_layout (before after : List (List Nat)) (v body : List Nat) :
    response_header_value before after v ++ body =
      header_lines (str "HTTP/1.1 200 OK" :: before) ++
        (str "Content-Length: " ++ v ++ 13 :: 10 :: (header_lines after ++ [13, 10] ++ body)) := by
  simp [response_header_value]

theorem status_line_plain : plain_line (str "HTTP/1.1 200 OK") := by decide

/-- One pass of the parser in state 1 over the 32 carry bytes and a new chunk, when the carry
bytes start before the Content-Length line at a place where the header name does not stand:
the parser stays in state 1 while the Content-Length line is incomplete, goes to state 3 with
the declared length once that line is there, and to state 4 once the empty line is there. -/
theorem parse_window (before after : List (List Nat)) (v body S c tl : List Nat)
    (hb : ∀ l ∈ before, other_header l) (ha : ∀ l ∈ after, other_header l)
    (ht : trimmed_value v) (hcr0 : 13 ∉ v) (hdl : v.length ≤ 11)
    (hZ : (S ++ c) ++ tl = response_header_value before after v ++ body)
    (hfit : (response_header_value before after v ++ body).length ≤ HTTPS_DOWNLOAD_BUF_SIZE)
    (hS : 32 ≤ S.length)
    (hlt : S.length < (header_lines (str "HTTP/1.1 200 OK" :: before)).length + 16 + v.length + 2)
    (hn : ¬ name_at (response_header_value before after v ++ body) (S.length - 32)) :
    ((S ++ c).length < (header_lines (str "HTTP/1.1 200 OK" :: before)).length + 16 +
        v.length + 2 →
      https_parse_response true (fill_alloc (last32 S) HTTPS_HEADER_BAK_LEN c)
        (c.length + HTTPS_HEADER_BAK_LEN) ⟨200, 0, none, 0, none, 1⟩ =
        .ok (1, ⟨200, 0, none, 0, some (last32 (S ++ c)), 1⟩)) ∧
    ((header_lines (str "HTTP/1.1 200 OK" :: before)).length + 16 + v.length + 2 ≤
        (S ++ c).length → (S ++ c).length < (response_header_value before after v).length →
      https_parse_response true (fill_alloc (last32 S) HTTPS_HEADER_BAK_LEN c)
        (c.length + HTTPS_HEADER_BAK_LEN) ⟨200, 0, none, 0, none, 1⟩ =
        .ok (3, stalled (to_u32 (atoi v)) (S ++ c))) ∧
    ((response_header_value before after v).length ≤ (S ++ c).length →
      https_parse_response true (fill_alloc (last32 S) HTTPS_HEADER_BAK_LEN c)
        (c.length + HTTPS_HEADER_BAK_LEN) ⟨200, 0, none, 0, none, 1⟩ =
        .ok (4, ⟨200, (response_header_value before after v).length - (S.length - 32),
          some ((response_header_value before after v).length - (S.length - 32)),
          to_u32 (atoi v), none, 4⟩)) := by
  have h32 : HTTPS_HEADER_BAK_LEN = 32 := rfl
  have h512 : HTTPS_DOWNLOAD_BUF_SIZE = 512 := rfl
  have hU : U32 = 4294967296 := rfl
  have hHl := response_header_value_length before after v
  have hlay := response_header_value_layout before after v body
  set Z := response_header_value before after v ++ body with hZdef
  set Ls := str "HTTP/1.1 200 OK" :: before with hLs
  set R := str "Content-Length: " ++ v ++ 13 :: 10 :: (header_lines after ++ [13, 10] ++ body)
    with hR
  have hZlen : Z.length = (response_header_value before after v).length + body.length := by
    rw [hZdef, List.length_append]
  have hSc : S.length + c.length + tl.length = Z.length := by
    have := congrArg List.length hZ
    simp only [List.length_append] at this
    omega
  have hclen : c.length ≤ 480 := by omega
  have hoL : ∀ l ∈ Ls, other_header l := by
    intro l hl
    rcases List.mem_cons.mp hl with rfl | hl
    · decide
    · exact hb l hl
  have hl := last32_length S hS
  obtain ⟨l0, ls', hdrop, hpl, hoth, hlen'⟩ := window_lines Ls R (S.length - 32) hoL (by omega)
    (by rw [← hlay]; exact hn)
  have hW : last32 S ++ c = (header_lines (l0 :: ls') ++ R).take (c.length + 32) := by
    rw [last32_window S c hS, ← hdrop, ← hlay, ← hZ,
      drop_take_append (S ++ c) tl (S.length - 32) (by rw [List.length_append]; omega)]
    congr 1
    rw [List.length_append]
    omega
  have hwlen : (last32 S ++ c).length = c.length + 32 := by
    rw [List.length_append, hl]; omega
  rw [fill_alloc_window _ _ hl, h32]
  refine ⟨?_, ?_, ?_⟩
  · intro h1
    rw [List.length_append] at h1
    have hrep : List.replicate (480 - c.length) 0 = 0 :: List.replicate (479 - c.length) 0 := by
      rw [show 480 - c.length = (479 - c.length) + 1 by omega, List.replicate_succ]
    have hp := parse_phase1_seek l0 ls' v (header_lines after ++ [13, 10] ++ body)
      (c.length + 32) (List.replicate (479 - c.length) 0) ⟨200, 0, none, 0, none, 1⟩
      hpl hoth hcr0 rfl (by omega) (by omega)
    rw [← hR, ← hW, last32_append S c hS] at hp
    rw [hrep, parse_response_phase1 _ _ _ hp]
    rfl
  · intro h1 h2
    rw [List.length_append] at h1 h2
    have hrep : List.replicate (480 - c.length) 0 = 0 :: List.replicate (479 - c.length) 0 := by
      rw [show 480 - c.length = (479 - c.length) + 1 by omega, List.replicate_succ]
    have hp := parse_phase1_stall l0 ls' after v body
      (c.length + 32) (List.replicate (479 - c.length) 0) ⟨200, 0, none, 0, none, 1⟩
      hpl hoth ha ht hcr0 hdl (by omega) (by omega) (by omega) (by omega)
    rw [← hR, ← hW, last32_append S c hS] at hp
    rw [hrep, parse_response_phase1 _ _ _ hp]
    rfl
  · intro h1
    rw [List.length_append] at h1
    have hG : (header_lines (l0 :: ls') ++ (str "Content-Length: " ++ v ++
        13 :: 10 :: header_lines after ++ [13, 10])) <+:
        (last32 S ++ c) ++ List.replicate (480 - c.length) 0 := by
      refine List.IsPrefix.trans ?_ (List.prefix_append _ _)
      rw [hW]
      have e : header_lines (l0 :: ls') ++ R = (header_lines (l0 :: ls') ++
          (str "Content-Length: " ++ v ++ 13 :: 10 :: header_lines after ++ [13, 10])) ++ body := by
        rw [hR]; simp
      rw [e, List.prefix_take_iff]
      refine ⟨List.prefix_append _ _, ?_⟩
      have e16 : (str "Content-Length: ").length = 16 := rfl
      simp only [List.length_append, e16, List.length_cons, List.length_nil]
      omega
    have hp := parse_phase1_done _ l0 ls' after v (c.length + 32) ⟨200, 0, none, 0, none, 1⟩
      hpl hoth ha ht hcr0 hdl hG (by omega) (by omega)
    rw [parse_response_phase1 _ _ _ hp]
    simp only [Except.ok.injEq, Prod.mk.injEq]
    refine ⟨rfl, ?_⟩
    congr 1
    · omega
    · congr 1; omega

/-- The header loop from state 1: when the rest of the stream arrives in non-empty chunks and
the carry bytes saved before the Content-Length line is complete never start with the header
name, the loop ends with the headers complete, the declared length is the value of the
Content-Length line and the body bytes identified are those behind the header. -/
theorem header_loop_seeking (before after : List (List Nat)) (v body : List Nat)
    (tail : List SslRead)
    (hb : ∀ l ∈ before, other_header l) (ha : ∀ l ∈ after, other_header l)
    (ht : trimmed_value v) (hcr0 : 13 ∉ v) (hdl : v.length ≤ 11)
    (hfit : (response_header_value before after v ++ body).length ≤ HTTPS_DOWNLOAD_BUF_SIZE) :
    ∀ (cs : List (List Nat)) (S : List Nat) (fuel idx : Nat) (alloc : List Nat),
      S ++ cs.flatten = response_header_value before after v ++ body → 32 ≤ S.length →
      S.length < (header_lines (str "HTTP/1.1 200 OK" :: before)).length + 16 + v.length + 2 →
      (∀ c ∈ cs, c ≠ []) → cs.length + 1 < fuel →
      (∀ i, i < cs.length →
        S.length + (cs.take i).flatten.length <
          (header_lines (str "HTTP/1.1 200 OK" :: before)).length + 16 + v.length + 2 →
        ¬ name_at (response_header_value before after v ++ body)
          (S.length + (cs.take i).flatten.length - 32)) →
      ∃ h, header_loop true fuel ⟨⟨200, 0, none, 0, some (last32 S), 1⟩, idx, alloc,
            cs.map .data ++ tail⟩ = .ok (.done h) ∧
        h.rsp_result.body_len = to_u32 (atoi v) ∧
        first_slice h ++ stream_bytes h.script = body ++ stream_bytes tail := by
  have h32 : HTTPS_HEADER_BAK_LEN = 32 := rfl
  have h512 : HTTPS_DOWNLOAD_BUF_SIZE = 512 := rfl
  have hHl := response_header_value_length before after v
  have hZlen : (response_header_value before after v ++ body).length =
      (response_header_value before after v).length + body.length := List.length_append _ _
  intro cs
  induction cs with
  | nil =>
    intro S fuel idx alloc hZ hS hlt _ _ _
    simp only [List.flatten_nil, List.append_nil] at hZ
    rw [hZ, hZlen] at hlt
    omega
  | cons c cs ih =>
    intro S fuel idx alloc hZ hS hlt hcs hfuel hbd
    obtain ⟨f, rfl⟩ : ∃ f, fuel = f + 1 := ⟨fuel - 1, by simp at hfuel; omega⟩
    have hc := hcs c (List.mem_cons_self _ _)
    have hZ2 : (S ++ c) ++ cs.flatten = response_header_value before after v ++ body := by
      simpa using hZ
    have hSc : S.length + c.length + cs.flatten.length =
        (response_header_value before after v ++ body).length := by
      have := congrArg List.length hZ2
      simp only [List.length_append] at this
      omega
    have hclen : c.length ≤ 480 := by omega
    have hn0 := hbd 0 (by simp) (by simpa using hlt)
    simp only [List.take_zero, List.flatten_nil, List.length_nil, Nat.add_zero] at hn0
    obtain ⟨pa, pb, pc⟩ := parse_window before after v body S c cs.flatten hb ha ht hcr0 hdl
      hZ2 hfit hS hlt hn0
    have hl := last32_length S hS
    have hwlen : (last32 S ++ c).length = c.length + 32 := by
      rw [List.length_append, hl]; omega
    unfold header_loop
    rw [if_pos (by simp)]
    simp only [List.map_cons, List.cons_append]
    rw [header_step_seeking S c _ hS hc hclen]
    unfold header_parse
    by_cases h1 : (S ++ c).length <
        (header_lines (str "HTTP/1.1 200 OK" :: before)).length + 16 + v.length + 2
    · rw [pa h1]
      simp only
      rw [if_neg (by decide)]
      simp only
      refine ih (S ++ c) f _ _ hZ2 (by simp; omega) h1
        (fun x hx => hcs x (List.mem_cons_of_mem _ hx)) (by simp at hfuel; omega) ?_
      intro i hi hlt'
      have := hbd (i + 1) (by simpa using hi)
      simp only [List.take_succ_cons, List.flatten_cons, List.length_append] at this
      simp only [List.length_append] at hlt' ⊢
      rw [Nat.add_assoc] at hlt' ⊢
      exact this hlt'
    · by_cases h2 : (S ++ c).length < (response_header_value before after v).length
      · rw [pb (by omega) h2]
        simp only
        rw [if_neg (by decide)]
        simp only
        obtain ⟨hT, hfirst⟩ := response_header_value_first_term before after v body hb ha ht
          hcr0 hdl (by simp only [U32]; omega)
        obtain ⟨h, hloop, hbl, hbytes⟩ := header_loop_stalled (to_u32 (atoi v)) _ _ tail
          hT hfirst cs (S ++ c) f (c.length + HTTPS_HEADER_BAK_LEN)
          (fill_alloc (last32 S) HTTPS_HEADER_BAK_LEN c) hZ2 (by simp; omega) (by omega)
          (fun x hx => ⟨hcs x (List.mem_cons_of_mem _ hx), by
            have := length_le_flatten cs x hx
            rw [List.length_append] at h1
            omega⟩) (by simp at hfuel; omega)
        refine ⟨h, hloop, hbl, ?_⟩
        rw [hbytes]
        congr 1
        rw [show (response_header_value before after v).length - 4 + 4 =
          (response_header_value before after v).length by omega, List.drop_left]
      · rw [pc (by omega)]
        simp only
        rw [if_neg (by decide)]
        simp only
        rw [header_loop_done _ _ _ (by simp at hfuel; omega) (by simp)]
        refine ⟨_, rfl, rfl, ?_⟩
        simp only [List.length_append] at h1 h2
        have hw : writelen ⟨⟨200, (response_header_value before after v).length - (S.length - 32),
              some ((response_header_value before after v).length - (S.length - 32)),
              to_u32 (atoi v), none, 4⟩, c.length + HTTPS_HEADER_BAK_LEN,
            fill_alloc (last32 S) HTTPS_HEADER_BAK_LEN c, cs.map .data ++ tail⟩ =
            (last32 S ++ c).length -
              ((response_header_value before after v).length - (S.length - 32)) := by
          simp only [writelen, h32, hwlen, U32]
          omega
        simp only [first_slice]
        rw [hw, fill_alloc_window _ _ hl,
          List.drop_append_of_le_length (by rw [hwlen]; omega),
          List.take_append_of_le_length (by simp),
          List.take_of_length_le (by simp), stream_bytes_data, last32_window S c hS,
          List.drop_drop]
        have e : S.length - 32 + ((response_header_value before after v).length -
            (S.length - 32)) = (response_header_value before after v).length := by omega
        rw [e, ← List.append_assoc, ← List.drop_append_of_le_length
          (by rw [List.length_append]; omega), hZ2, List.drop_left]

theorem status_prefix_of_header (before after : List (List Nat)) (v body : List Nat) :
    str "HTTP/1.1 200 " <+: response_header_value before after v ++ body := by
  have e : header_lines (str "HTTP/1.1 200 OK" :: before) =
      str "HTTP/1.1 200 " ++ (str "OK" ++ 13 :: 10 :: header_lines before) := by
    have : str "HTTP/1.1 200 OK" = str "HTTP/1.1 200 " ++ str "OK" := by decide
    simp [header_lines, this]
  simp only [response_header_value, e, List.append_assoc]
  exact List.prefix_append _ _

/-- The first pass of the parser, on a first chunk of at least 32 bytes: it stays in state 1
while the Content-Length line is incomplete, goes to state 3 with the declared length once
that line is there, and to state 4 once the empty line is there. -/
theorem parse_first_window (before after : List (List Nat)) (v body c1 tl : List Nat)
    (hb : ∀ l ∈ before, other_header l) (ha : ∀ l ∈ after, other_header l)
    (ht : trimmed_value v) (hcr0 : 13 ∉ v) (hdl : v.length ≤ 11)
    (hZ : c1 ++ tl = response_header_value before after v ++ body)
    (hfit : (response_header_value before after v ++ body).length ≤ HTTPS_DOWNLOAD_BUF_SIZE)
    (h32 : 32 ≤ c1.length) :
    (c1.length < (header_lines (str "HTTP/1.1 200 OK" :: before)).length + 16 + v.length + 2 →
      https_parse_response true (fill_alloc [] 0 c1) c1.length https_response_result_t.zero =
        .ok (1, ⟨200, 0, none, 0, some (last32 c1), 1⟩)) ∧
    ((header_lines (str "HTTP/1.1 200 OK" :: before)).length + 16 + v.length + 2 ≤ c1.length →
        c1.length < (response_header_value before after v).length →
      https_parse_response true (fill_alloc [] 0 c1) c1.length https_response_result_t.zero =
        .ok (3, stalled (to_u32 (atoi v)) c1)) ∧
    ((response_header_value before after v).length ≤ c1.length →
      https_parse_response true (fill_alloc [] 0 c1) c1.length https_response_result_t.zero =
        .ok (4, ⟨200, (response_header_value before after v).length,
          some (response_header_value before after v).length, to_u32 (atoi v), none, 4⟩)) := by
  have h512 : HTTPS_DOWNLOAD_BUF_SIZE = 512 := rfl
  have hU : U32 = 4294967296 := rfl
  have hHl := response_header_value_length before after v
  have hlay := response_header_value_layout before after v body
  have hZlen : (response_header_value before after v ++ body).length =
      (response_header_value before after v).length + body.length := List.length_append _ _
  have hlen : c1.length + tl.length = (response_header_value before after v ++ body).length := by
    have := congrArg List.length hZ
    simpa [List.length_append] using this
  have hc1 : c1 = (header_lines (str "HTTP/1.1 200 OK" :: before) ++
      (str "Content-Length: " ++ v ++
        13 :: 10 :: (header_lines after ++ [13, 10] ++ body))).take c1.length := by
    rw [← hlay, ← hZ, List.take_left]
  have hst : str "HTTP/1.1 200 " <+: fill_alloc [] 0 c1 := by
    rw [fill_alloc_nil]
    refine List.IsPrefix.trans ?_ (List.prefix_append _ _)
    have h1 := status_prefix_of_header before after v body
    rw [← hZ] at h1
    have h2 : str "HTTP/1.1 200 " <+: (c1 ++ tl).take c1.length := by
      rw [List.prefix_take_iff]
      exact ⟨h1, by have : (str "HTTP/1.1 200 ").length = 13 := rfl; omega⟩
    rwa [List.take_left] at h2
  have hL := header_lines_cons_length (str "HTTP/1.1 200 OK") before
  refine ⟨?_, ?_, ?_⟩
  · intro h1
    have hrep : fill_alloc [] 0 c1 = c1 ++ 0 :: List.replicate (511 - c1.length) 0 := by
      rw [fill_alloc_nil, h512,
        show 512 - c1.length = (511 - c1.length) + 1 by omega, List.replicate_succ]
    have hp := parse_phase1_seek (str "HTTP/1.1 200 OK") before v
      (header_lines after ++ [13, 10] ++ body)
      c1.length (List.replicate (511 - c1.length) 0) ⟨200, 0, none, 0, none, 1⟩
      status_line_plain hb hcr0 rfl (by omega) (by omega)
    rw [← hc1, ← hrep] at hp
    rw [parse_response_first _ _ _ hst (by omega) hp]
    rfl
  · intro h1 h2
    have hrep : fill_alloc [] 0 c1 = c1 ++ 0 :: List.replicate (511 - c1.length) 0 := by
      rw [fill_alloc_nil, h512,
        show 512 - c1.length = (511 - c1.length) + 1 by omega, List.replicate_succ]
    have hp := parse_phase1_stall (str "HTTP/1.1 200 OK") before after v body
      c1.length (List.replicate (511 - c1.length) 0) ⟨200, 0, none, 0, none, 1⟩
      status_line_plain hb ha ht hcr0 hdl (by omega) (by omega) (by omega) (by omega)
    rw [← hc1, ← hrep] at hp
    rw [parse_response_first _ _ _ hst (by omega) hp]
    rfl
  · intro h1
    have hpre : response_header_value before after v <+: fill_alloc [] 0 c1 := by
      rw [fill_alloc_nil]
      refine List.IsPrefix.trans ?_ (List.prefix_append _ _)
      have h2 : response_header_value before after v <+: (c1 ++ tl).take c1.length := by
        rw [List.prefix_take_iff, hZ]
        exact ⟨List.prefix_append _ _, h1⟩
      rwa [List.take_left] at h2
    exact parse_value_header true _ before after v c1.length hpre hb ha ht hcr0 hdl h1
      (by omega)

/-- The header loop on a response delivered in chunks: a first chunk of at least 32 bytes,
then non-empty chunks, such that the carry bytes saved before the Content-Length line is
complete never start with the header name.  The loop ends with the headers complete, the
declared length is the value of the Content-Length line and the body bytes identified are
those behind the header. -/
theorem header_loop_split (before after : List (List Nat)) (v body : List Nat)
    (tail : List SslRead) (c1 : List Nat) (cs : List (List Nat)) (fuel idx : Nat)
    (alloc : List Nat)
    (hb : ∀ l ∈ before, other_header l) (ha : ∀ l ∈ after, other_header l)
    (ht : trimmed_value v) (hcr0 : 13 ∉ v) (hdl : v.length ≤ 11)
    (hsplit : c1 ++ cs.flatten = response_header_value before after v ++ body)
    (hfit : (response_header_value before after v ++ body).length ≤ HTTPS_DOWNLOAD_BUF_SIZE)
    (hne : ∀ c ∈ cs, c ≠ []) (h32 : HTTPS_HEADER_BAK_LEN ≤ c1.length)
    (hfuel : cs.length + 2 < fuel)
    (hbd : ∀ i, i < cs.length →
      chunk_end (c1 :: cs) i <
        (header_lines (str "HTTP/1.1 200 OK" :: before)).length + 16 + v.length + 2 →
      ¬ name_at (response_header_value before after v ++ body)
        (chunk_end (c1 :: cs) i - HTTPS_HEADER_BAK_LEN)) :
    ∃ h, header_loop true fuel ⟨https_response_result_t.zero, idx, alloc,
          (c1 :: cs).map .data ++ tail⟩ = .ok (.done h) ∧
      h.rsp_result.body_len = to_u32 (atoi v) ∧
      first_slice h ++ stream_bytes h.script = body ++ stream_bytes tail := by
  have h32' : HTTPS_HEADER_BAK_LEN = 32 := rfl
  have h512 : HTTPS_DOWNLOAD_BUF_SIZE = 512 := rfl
  rw [h32'] at h32
  have hHl := response_header_value_length before after v
  have hZlen : (response_header_value before after v ++ body).length =
      (response_header_value before after v).length + body.length := List.length_append _ _
  have hlen : c1.length + cs.flatten.length =
      (response_header_value before after v ++ body).length := by
    have := congrArg List.length hsplit
    simpa [List.length_append] using this
  obtain ⟨pa, pb, pc⟩ := parse_first_window before after v body c1 cs.flatten hb ha ht hcr0 hdl
    hsplit hfit h32
  have hL := header_lines_cons_length (str "HTTP/1.1 200 OK") before
  have h15 : (str "HTTP/1.1 200 OK").length = 15 := rfl
  obtain ⟨f, rfl⟩ : ∃ f, fuel = f + 1 := ⟨fuel - 1, by omega⟩
  unfold header_loop
  rw [if_pos (by simp [https_response_result_t.zero])]
  simp only [List.map_cons, List.cons_append]
  unfold header_step
  rw [if_pos (by rfl)]
  simp only [mbedtls_ssl_read]
  rw [if_pos (by omega)]
  simp only
  rw [if_neg (by omega)]
  unfold header_parse
  by_cases h1 : c1.length <
      (header_lines (str "HTTP/1.1 200 OK" :: before)).length + 16 + v.length + 2
  · rw [pa h1]
    simp only
    rw [if_neg (by decide)]
    simp only
    refine header_loop_seeking before after v body tail hb ha ht hcr0 hdl hfit cs c1 f _ _
      hsplit h32 h1 hne (by omega) ?_
    intro i hi hlt
    have := hbd i hi
    simp only [chunk_end, List.take_succ_cons, List.flatten_cons, List.length_append, h32']
      at this
    exact this hlt
  · by_cases h2 : c1.length < (response_header_value before after v).length
    · rw [pb (by omega) h2]
      simp only
      rw [if_neg (by decide)]
      simp only
      obtain ⟨hT, hfirst⟩ := response_header_value_first_term before after v body hb ha ht
        hcr0 hdl (by simp only [U32]; omega)
      obtain ⟨h, hloop, hbl, hbytes⟩ := header_loop_stalled (to_u32 (atoi v)) _ _ tail
        hT hfirst cs c1 f c1.length (fill_alloc [] 0 c1) hsplit h32 (by omega)
        (fun x hx => ⟨hne x hx, by
          have := length_le_flatten cs x hx
          omega⟩) (by omega)
      refine ⟨h, hloop, hbl, ?_⟩
      rw [hbytes]
      congr 1
      rw [show (response_header_value before after v).length - 4 + 4 =
        (response_header_value before after v).length by omega, List.drop_left]
    · rw [pc (by omega)]
      simp only
      rw [if_neg (by decide)]
      simp only
      rw [header_loop_done _ _ _ (by omega) (by simp)]
      refine ⟨_, rfl, rfl, ?_⟩
      have hw : writelen ⟨⟨200, (response_header_value before after v).length,
            some (response_header_value before after v).length,
            to_u32 (atoi v), none, 4⟩, c1.length, fill_alloc [] 0 c1, cs.map .data ++ tail⟩ =
          c1.length - (response_header_value before after v).length := by
        simp only [writelen, U32]
        omega
      simp only [first_slice]
      rw [hw, fill_alloc_nil,
        List.drop_append_of_le_length (by omega),
        List.take_append_of_le_length (by simp),
        List.take_of_length_le (by simp), stream_bytes_data, ← List.append_assoc,
        ← List.drop_append_of_le_length (by omega), hsplit, List.drop_left]

/-- A first read on which the parser returns -1 ends the header loop through
`https_download_exit`. -/
theorem header_outcome_refused (c : List Nat) (rest : List SslRead)
    (r : https_response_result_t) (hc : c ≠ []) (hfit : c.length ≤ HTTPS_DOWNLOAD_BUF_SIZE)
    (hparse : https_parse_response true (fill_alloc [] 0 c) c.length
      https_response_result_t.zero = .ok (-1, r)) :
    header_outcome true (.data c :: rest) = .ok none := by
  have hlen : c.length ≠ 0 := fun h => hc (List.length_eq_zero.mp h)
  have hstep : header_step true (.data c :: rest) https_response_result_t.zero =
      .ok (.exit r rest) := by
    unfold header_step
    rw [if_pos (by rfl)]
    simp only [mbedtls_ssl_read, hfit, if_true, hlen, if_false, header_parse, hparse]
  unfold header_outcome
  simp only [script_size]
  unfold header_loop
  rw [if_pos (by simp [https_response_result_t.zero])]
  simp only [hstep]

/-- A first read that ends before the second space of the status line: the status phase
returns -1. -/
theorem parse_short_status (k : Nat) (h0 : 0 < k) (hk : k < 13) :
    https_parse_response true (fill_alloc [] 0 ((str "HTTP/1.1 200 ").take k)) k
      https_response_result_t.zero = .ok (-1, https_response_result_t.zero) := by
  interval_cases k <;> decide

theorem header_outcome_short_first_chunk (c Z : List Nat) (rest : List SslRead)
    (hc : c ≠ []) (hlen : c.length < 13) (hZ : str "HTTP/1.1 200 " <+: Z) (hp : c <+: Z) :
    header_outcome true (.data c :: rest) = .ok none := by
  have h13 : (str "HTTP/1.1 200 ").length = 13 := rfl
  have hpre : c <+: str "HTTP/1.1 200 " :=
    List.prefix_of_prefix_length_le hp hZ (by omega)
  have e : c = (str "HTTP/1.1 200 ").take c.length := List.prefix_iff_eq_take.mp hpre
  have hpos : 0 < c.length := List.length_pos.mpr hc
  have := parse_short_status c.length hpos hlen
  rw [← e] at this
  exact header_outcome_refused c rest _ hc (by simp only [HTTPS_DOWNLOAD_BUF_SIZE]; omega) this

theorem decimal_trimmed (n : Nat) : trimmed_value (decimal n) := by
  have hd := decimal_all_digit n
  have hne := decimal_ne_nil n
  refine ⟨?_, ?_, ?_⟩
  · intro h
    have hm := List.mem_of_mem_head? h
    have := hd 58 hm
    simp [isdigit] at this
  · intro h
    have hm := List.mem_of_mem_head? h
    have := hd 32 hm
    simp [isdigit] at this
  · intro h
    have hm := List.mem_of_mem_getLast? h
    have := hd 32 hm
    simp [isdigit] at this

theorem decimal_no_cr (n : Nat) : 13 ∉ decimal n := by
  intro h
  have := decimal_all_digit n 13 h
  simp [isdigit] at this

theorem response_header_as_value (before after : List (List Nat)) (n : Nat) :
    response_header before after n = response_header_value before after (decimal n) := rfl

/-- The outcome of the header loop on a response delivered in chunks (see
`header_loop_split`). -/
theorem header_outcome_split (before after : List (List Nat)) (v body c1 : List Nat)
    (cs : List (List Nat))
    (hb : ∀ l ∈ before, other_header l) (ha : ∀ l ∈ after, other_header l)
    (ht : trimmed_value v) (hcr0 : 13 ∉ v) (hdl : v.length ≤ 11)
    (hsplit : c1 ++ cs.flatten = response_header_value before after v ++ body)
    (hfit : (response_header_value before after v ++ body).length ≤ HTTPS_DOWNLOAD_BUF_SIZE)
    (hne : ∀ c ∈ cs, c ≠ []) (h32 : HTTPS_HEADER_BAK_LEN ≤ c1.length)
    (hbd : ∀ i, i < cs.length →
      chunk_end (c1 :: cs) i <
        (header_lines (str "HTTP/1.1 200 OK" :: before)).length + 16 + v.length + 2 →
      ¬ name_at (response_header_value before after v ++ body)
        (chunk_end (c1 :: cs) i - HTTPS_HEADER_BAK_LEN)) :
    header_outcome true ((c1 :: cs).map .data) = .ok (some (to_u32 (atoi v), body)) := by
  have h32' : HTTPS_HEADER_BAK_LEN = 32 := rfl
  have hsz := script_size_data cs
  obtain ⟨h, hloop, hbl, hbytes⟩ := header_loop_split before after v body [] c1 cs
    (script_size ((c1 :: cs).map .data) + 1) 0 [] hb ha ht hcr0 hdl hsplit hfit hne h32
    (by simp only [List.map_cons, script_size]; omega) hbd
  rw [List.append_nil] at hloop
  unfold header_outcome
  rw [hloop]
  simp only [hbl, hbytes, stream_bytes, List.append_nil]

/-- C1 (code defect): once the request has been sent, a failing download returns the positive
byte count `mbedtls_ssl_write` left in `ret`, not a negative value.  Here the request of 42
bytes was sent and the download fails on a 404 status, on a declared length of 0, on a missing
Content-Length, on the output file that cannot be created and on a peer that closes before the
body is complete: each time the result is 42. -/
theorem failure_after_send_returns_positive :
    (https_download (Env.serving [.data (str "HTTP/1.1 404 Not Found\r\n\r\n")])).map
        Download.ret = .ok 42 ∧
    (https_download (Env.serving
        [.data (str "HTTP/1.1 200 OK\r\nContent-Length: 0\r\n\r\n")])).map
        Download.ret = .ok 42 ∧
    (https_download (Env.serving [.data (str "HTTP/1.1 200 OK\r\nServer: x\r\n\r\n")])).map
        Download.ret = .ok 42 ∧
    (https_download { Env.serving
        [.data (str "HTTP/1.1 200 OK\r\nContent-Length: 5\r\n\r\nhello")] with
        open_ok := false }).map Download.ret = .ok 42 ∧
    (https_download (Env.serving
        [.data (str "HTTP/1.1 200 OK\r\nContent-Length: 5\r\n\r\nhel")])).map
        Download.ret = .ok 42 := by
  decide

/-- C5 (code defect): with the response delivered as `"HTTP/1.1 200 OK\r\nContent-Le"` (27
bytes) and `"ngth: 5\r\n\r\nhello"`, the parser stalls after the first chunk and copies the 32
carry bytes from `response + 27 - 32`: the copy starts 5 bytes before the receive buffer. -/
theorem split_in_header_name_reads_before_buffer :
    https_download (Env.serving
      [.data (str "HTTP/1.1 200 OK\r\nContent-Le"), .data (str "ngth: 5\r\n\r\nhello")]) =
      .error (.buffer_read (-5)) := by
  decide

/-- C8 (code defect): only the spellings `Content-Length` and `CONTENT-LENGTH` are recognised.
With the header line written `content-length: 5` or `Content-length: 5` the scan reaches the
end of the headers without a length and the parser returns -1 with `body_len` still 0; with
the two recognised spellings it returns 4 with `body_len = 5`. -/
theorem content_length_spellings :
    ((https_parse_response true
        (fill_alloc [] 0 (str "HTTP/1.1 200 OK\r\ncontent-length: 5\r\n\r\nhello")) 43
        https_response_result_t.zero).map fun x => (x.1, x.2.body_len)) = .ok (-1, 0) ∧
    ((https_parse_response true
        (fill_alloc [] 0 (str "HTTP/1.1 200 OK\r\nContent-length: 5\r\n\r\nhello")) 43
        https_response_result_t.zero).map fun x => (x.1, x.2.body_len)) = .ok (-1, 0) ∧
    ((https_parse_response true
        (fill_alloc [] 0 (str "HTTP/1.1 200 OK\r\nContent-Length: 5\r\n\r\nhello")) 43
        https_response_result_t.zero).map fun x => (x.1, x.2.body_len)) = .ok (4, 5) ∧
    ((https_parse_response true
        (fill_alloc [] 0 (str "HTTP/1.1 200 OK\r\nCONTENT-LENGTH: 5\r\n\r\nhello")) 43
        https_response_result_t.zero).map fun x => (x.1, x.2.body_len)) = .ok (4, 5) := by
  decide

/-- C10 (code defect): the first write after the headers is not clamped.  With
`Content-Length: 2` and the five bytes `hello` already in the first buffer, all five are
written: `total_written = 5` exceeds `body_len = 2`, and the download fails. -/
theorem initial_flush_exceeds_declared_length :
    (https_download (Env.serving
        [.data (str "HTTP/1.1 200 OK\r\nContent-Length: 2\r\n\r\nhello")])).map
      (fun d => (d.ret, d.total_written, d.body_len, d.file)) =
      .ok (42, 5, 2, some (str "hello")) := by
  decide

/-- C3: a 200 response whose header holds one line `Content-Length: n` among other header
lines, followed by exactly `n > 0` body bytes, delivered as one chunk that fits the 512-byte
buffer, with the output file writable: the download returns 0 and the file holds exactly the
body bytes. -/
theorem single_chunk_download_succeeds (env : Env) (before after : List (List Nat))
    (body : List Nat) (rest : List SslRead)
    (hsent : env.request_sent) (hopen : env.open_ok = true)
    (hdisk : body.length ≤ env.disk_free)
    (hb : ∀ l ∈ before, other_header l) (ha : ∀ l ∈ after, other_header l)
    (hbody : body ≠ [])
    (hreads : env.reads = .data (response_header before after body.length ++ body) :: rest)
    (hfit : (response_header before after body.length ++ body).length ≤
      HTTPS_DOWNLOAD_BUF_SIZE) :
    ∃ d, https_download env = .ok d ∧ d.ret = 0 ∧ d.file = some body ∧
      d.total_written = body.length ∧ d.body_len = body.length :=
  let ⟨d, h, h1, h2, h3, h4, _⟩ :=
    single_chunk_download env before after body rest hsent hopen hdisk hb ha hbody hreads hfit
  ⟨d, h, h1, h2, h3, h4⟩

/-- Witness of C3: `"HTTP/1.1 200 OK\r\nContent-Length: 5\r\n\r\nhello"` in one chunk gives
result 0 and the file `hello`. -/
theorem single_chunk_download_succeeds_witness :
    (Env.serving [.data (str "HTTP/1.1 200 OK\r\nContent-Length: 5\r\n\r\nhello")]).reads =
      [.data (response_header [] [] (str "hello").length ++ str "hello")] ∧
    ∃ d, https_download
        (Env.serving [.data (str "HTTP/1.1 200 OK\r\nContent-Length: 5\r\n\r\nhello")]) =
          .ok d ∧ d.ret = 0 ∧ d.file = some (str "hello") ∧
        d.total_written = (str "hello").length ∧ d.body_len = (str "hello").length :=
  ⟨by decide,
    single_chunk_download_succeeds
      (Env.serving [.data (str "HTTP/1.1 200 OK\r\nContent-Length: 5\r\n\r\nhello")])
      [] [] (str "hello") [] (by decide) rfl (by decide) (by simp) (by simp) (by decide)
      (by decide) (by decide)⟩

/-- C4 (counterexample): splitting a valid response changes what the header loop makes of it.
Delivered whole, each of the three responses below gives the declared length 5 and the body
`hello`.  Split inside the status line, the first ends in a failure; split between the
value of the Content-Length line and its CR LF, after a first chunk of 66 bytes, so does the
second; the third, read as 51, 9 and 19 bytes, gives the declared length 7, taken from the
header `X-Content-Length: 7` at whose 3rd byte the carry bytes of the first read start. -/
theorem split_changes_outcome :
    header_outcome true [.data (str "HTTP/1.1 200 OK\r\nContent-Length: 5\r\n\r\nhello")] =
        .ok (some (5, str "hello")) ∧
      header_outcome true [.data (str "HTTP/1.1 2"),
          .data (str "00 OK\r\nContent-Length: 5\r\n\r\nhello")] = .ok none ∧
      header_outcome true [.data (str
          "HTTP/1.1 200 OK\r\nServer: abcdefgh\r\nContent-Length:               5\r\n\r\nhello")] =
        .ok (some (5, str "hello")) ∧
      header_outcome true [.data (str
          "HTTP/1.1 200 OK\r\nServer: abcdefgh\r\nContent-Length:               5"),
          .data (str "\r\n\r\nhello")] = .ok none ∧
      header_outcome true [.data (str ("HTTP/1.1 200 OK\r\nX-Content-Length: 7\r\n" ++
          "Server: abcde\r\nContent-Length: 5\r\n\r\nhello"))] =
        .ok (some (5, str "hello")) ∧
      header_outcome true [.data (str "HTTP/1.1 200 OK\r\nX-Content-Length: 7\r\nServer: abcde"),
          .data (str "\r\nContent"), .data (str "-Length: 5\r\n\r\nhello")] =
        .ok (some (7, str "hello")) := by
  decide

/-- C4 (amended): a 200 response with a line `Content-Length: n`, `n < 2^32`, that fits the
receive buffer together with its body, split into non-empty chunks of which the first has at
least 32 bytes, such that at no chunk end before the end of the Content-Length line the 32
carry bytes start with `Content-Length` or `CONTENT-LENGTH`: the header loop ends as it does
on the response delivered in one chunk, with the headers complete, the declared length `n`
and the body bytes of the response.  A delivery whose non-empty first chunk `c0` has fewer
than 13 bytes, and so ends before the second space of the status line, makes the header loop
leave through `https_download_exit`, whatever follows it. -/
theorem split_matches_one_chunk (before after : List (List Nat)) (n : Nat)
    (body c1 : List Nat) (cs : List (List Nat)) (c0 : List Nat) (rest : List SslRead)
    (hb : ∀ l ∈ before, other_header l) (ha : ∀ l ∈ after, other_header l) (hn : n < U32)
    (hsplit : c1 ++ cs.flatten = response_header before after n ++ body)
    (hfit : (response_header before after n ++ body).length ≤ HTTPS_DOWNLOAD_BUF_SIZE)
    (hne : ∀ c ∈ cs, c ≠ [])
    (h32 : HTTPS_HEADER_BAK_LEN ≤ c1.length)
    (hcarry : ∀ i, i < cs.length →
      chunk_end (c1 :: cs) i < (header_to_length before n).length →
      ¬ name_at (response_header before after n ++ body)
        (chunk_end (c1 :: cs) i - HTTPS_HEADER_BAK_LEN))
    (hc0 : c0 ≠ []) (hshort : c0.length < 13)
    (hpre : c0 <+: response_header before after n ++ body) :
    header_outcome true ((c1 :: cs).map .data) =
        header_outcome true [.data (response_header before after n ++ body)] ∧
      header_outcome true [.data (response_header before after n ++ body)] =
        .ok (some (n, body)) ∧
      header_outcome true (.data c0 :: rest) = .ok none := by
  have hone : header_outcome true [.data (response_header before after n ++ body)] =
      .ok (some (n, body)) := by
    have := header_outcome_first_chunk before after n body [] hb ha hn hfit
    simpa [stream_bytes] using this
  have hval : to_u32 (atoi (decimal n)) = n := by
    rw [atoi_decimal, to_u32_nat n hn]
  refine ⟨?_, hone, ?_⟩
  · rw [hone, ← hval]
    refine header_outcome_split before after (decimal n) body c1 cs hb ha (decimal_trimmed n)
      (decimal_no_cr n) (decimal_length_u32 n hn) hsplit hfit hne h32 ?_
    intro i hi hlt
    refine hcarry i hi ?_
    rw [header_to_length_length]
    omega
  · exact header_outcome_short_first_chunk c0 _ rest hc0 hshort
      (status_prefix_of_header before after (decimal n) body) hpre

/-- Witness of C4: the response `"HTTP/1.1 200 OK\r\nServer: abcdefghijklmnopqrst\r\n` ++
`Content-Length: 5\r\n\r\nhello"` read as 52, 6, 9 and 6 bytes, with chunk ends inside the
header name and inside the empty line; and a delivery that starts with the 10 bytes
`HTTP/1.1 2`. -/
theorem split_matches_one_chunk_witness :
    header_outcome true
        ([str "HTTP/1.1 200 OK\r\nServer: abcdefghijklmnopqrst\r\nConte", str "nt-Len",
          str "gth: 5\r\n\r", str "\nhello"].map .data) =
        header_outcome true
          [.data (response_header [str "Server: abcdefghijklmnopqrst"] [] 5 ++ str "hello")] ∧
      header_outcome true
          [.data (response_header [str "Server: abcdefghijklmnopqrst"] [] 5 ++ str "hello")] =
        .ok (some (5, str "hello")) ∧
      header_outcome true (.data (str "HTTP/1.1 2") ::
        [.data (str "00 OK\r\nServer: abcdefghijklmnopqrst\r\nContent-Length: 5\r\n\r\nhello")]) =
        .ok none :=
  split_matches_one_chunk [str "Server: abcdefghijklmnopqrst"] [] 5 (str "hello")
    (str "HTTP/1.1 200 OK\r\nServer: abcdefghijklmnopqrst\r\nConte")
    [str "nt-Len", str "gth: 5\r\n\r", str "\nhello"] (str "HTTP/1.1 2")
    [.data (str "00 OK\r\nServer: abcdefghijklmnopqrst\r\nContent-Length: 5\r\n\r\nhello")]
    (by decide) (by decide) (by decide) (by decide) (by decide) (by decide) (by decide)
    (by decide) (by decide) (by decide) (by decide)

/-- C2 (code defect): the counter `total_written` wraps at `2^32`, so a download can return 0
with more bytes in the file than the response declared.  The response declares 4294967295
body bytes and the peer sends 8589934591 of them, in 16777215 reads of 512 bytes and one of
511 bytes: the test `total_written + read_bytes > body_len` never holds, every byte is
written, the counter passes `2^32` once and reaches 4294967295 at the last read, and the
result is 0. -/
theorem wrapped_counter_returns_success :
    ∃ d, https_download
        { Env.serving (.data (str "HTTP/1.1 200 OK\r\nContent-Length: 4294967295\r\n\r\n") ::
            (List.replicate 16777215 (.data (List.replicate 512 0)) ++
              [.data (List.replicate 511 0)])) with disk_free := 8589934591 } = .ok d ∧
      d.ret = 0 ∧ d.body_len = 4294967295 ∧ d.total_written = 4294967295 ∧
      d.file.map List.length = some 8589934591 := by
  have e : response_header [] [] 4294967295 =
      str "HTTP/1.1 200 OK\r\nContent-Length: 4294967295\r\n\r\n" := by decide
  obtain ⟨d, hd, h1, h2, h3, h4⟩ := download_at_max_length
    { Env.serving (.data (str "HTTP/1.1 200 OK\r\nContent-Length: 4294967295\r\n\r\n") ::
        (List.replicate 16777215 (.data (List.replicate 512 0)) ++
          [.data (List.replicate 511 0)])) with disk_free := 8589934591 }
    16777215 (List.replicate 512 0) (List.replicate 511 0) [] (by decide) rfl
    (List.length_replicate _ _) (List.length_replicate _ _) (by decide) (by decide)
    (by rw [e]; rfl)
  refine ⟨d, hd, h1, h2, h3, ?_⟩
  rw [h4, Option.map_some', List.length_append, length_flatten_replicate,
    List.length_replicate, List.length_replicate]

/-- C11 (counterexample): three would-block results and then the bytes `abc`: the resilient
read gives up with -2 and leaves the bytes unread. -/
theorem would_block_exhausts_budget :
    https_read_socket [.want_read, .want_read, .want_read, .data (str "abc")] =
      (-2, [], [.data (str "abc")]) := by
  decide

/-- C11 (amended): would-block results are counted against `max_retries` like other failed
reads.  When `mbedtls_ssl_read` reports a would-block condition `n` times and then delivers
`k > 0` bytes, `https_read_socket` returns `k` for `n ≤ 2`; for `n ≥ 3` it returns -2 after
the third would-block result and reads no further. -/
theorem would_block_counts (ws : List SslRead) (bs : List Nat) (rest : List SslRead)
    (hw : ∀ r ∈ ws, would_block r) (hk : 0 < bs.length)
    (hfit : bs.length ≤ HTTPS_DOWNLOAD_BUF_SIZE) :
    (ws.length ≤ 2 →
      https_read_socket (ws ++ .data bs :: rest) = ((bs.length : Int), bs, rest)) ∧
    (3 ≤ ws.length →
      https_read_socket (ws ++ .data bs :: rest) = (-2, [], ws.drop 3 ++ .data bs :: rest)) := by
  unfold https_read_socket
  rcases ws with _ | ⟨a, _ | ⟨b, _ | ⟨c, t⟩⟩⟩
  · exact ⟨fun _ => https_read_socket_loop_data 2 0 bs rest hk hfit, fun h => by simp at h⟩
  · have ha := hw a (by simp)
    refine ⟨fun _ => ?_, fun h => by simp at h⟩
    rw [List.singleton_append, https_read_socket_loop_would_block 2 0 a _ ha, if_pos (by decide)]
    exact https_read_socket_loop_data 1 1 bs rest hk hfit
  · have ha := hw a (by simp)
    have hb := hw b (by simp)
    refine ⟨fun _ => ?_, fun h => by simp at h⟩
    rw [List.cons_append, https_read_socket_loop_would_block 2 0 a _ ha, if_pos (by decide),
      List.singleton_append, https_read_socket_loop_would_block 1 1 b _ hb, if_pos (by decide)]
    exact https_read_socket_loop_data 0 2 bs rest hk hfit
  · have ha := hw a (by simp)
    have hb := hw b (by simp)
    have hc := hw c (by simp)
    refine ⟨fun h => by simp at h, fun _ => ?_⟩
    rw [List.cons_append, https_read_socket_loop_would_block 2 0 a _ ha, if_pos (by decide),
      List.cons_append, https_read_socket_loop_would_block 1 1 b _ hb, if_pos (by decide),
      List.cons_append, https_read_socket_loop_would_block 0 2 c _ hc, if_neg (by decide)]
    rfl

theorem would_block_counts_witness :
    (([.want_read, .want_write] : List SslRead).length ≤ 2 →
      https_read_socket ([.want_read, .want_write] ++ .data (str "abc") :: []) =
        (((str "abc").length : Int), str "abc", [])) ∧
    (3 ≤ ([.want_read, .want_write] : List SslRead).length →
      https_read_socket ([.want_read, .want_write] ++ .data (str "abc") :: []) =
        (-2, [], ([.want_read, .want_write] : List SslRead).drop 3 ++
          .data (str "abc") :: [])) :=
  would_block_counts [.want_read, .want_write] (str "abc") [] (by decide) (by decide)
    (by decide)

/-- C12 (counterexample): a host of exactly 255 bytes is accepted. -/
theorem host_of_255_bytes_accepted :
    https_parse_url (some (List.replicate 255 97 ++ str "/x")) =
        some (List.replicate 255 97, 443, str "x") ∧
      ¬ (List.replicate 255 97).length < 255 := by
  decide

/-- C12 (amended): for every URL, either `https_parse_url` succeeds with a host of at most
255 bytes (`< HTTPS_MAX_HOST_LEN = 256`) and a resource of fewer than 2048 bytes, or it fails,
and `https_download` then returns -1 with no connection made, no request sent, nothing read
and no file created. -/
theorem url_fits_or_fails (env : Env) (u : List Nat) :
    (∃ host port resource, https_parse_url (some u) = some (host, port, resource) ∧
      host.length ≤ 255 ∧ resource.length < 2048) ∨
    (https_parse_url (some u) = none ∧
      https_download { env with url := some u } =
        .ok { ret := -1, file := none, total_written := 0, body_len := 0, parse_status := 0,
              request := none, connected := false, script := env.reads }) := by
  rcases h : https_parse_url (some u) with _ | ⟨host, port, resource⟩
  · exact Or.inr ⟨rfl, https_download_url_rejected { env with url := some u } h⟩
  · have := https_parse_url_bounds u _ h
    simp only [HTTPS_MAX_HOST_LEN, HTTPS_MAX_RESOURCE_LEN] at this
    exact Or.inl ⟨host, port, resource, rfl, by omega, this.2⟩

/-- C13 (code defect): the port separator is looked for in the whole URL, so a `:` in the
path ends the host.  For `example.com/a:b` the host is `example.com/a` and the port 0. -/
theorem colon_in_path_ends_host :
    https_parse_url (some (str "example.com/a:b")) =
      some (str "example.com/a", 0, str "a:b") := by
  decide

/-- C14 (code defect): a URL without a path leaves the host empty, and the request names no
host. -/
theorem url_without_path_has_no_host :
    https_parse_url (some (str "https://example.com")) = some ([], 443, []) ∧
    (https_download { Env.serving [] with url := some (str "https://example.com") }).map
        (fun d => d.request) =
      .ok (some (str "GET / HTTP/1.1\r\nHost: \r\n\r\n")) := by
  decide

/-- C15 (code defect): `https://` is looked for anywhere in the URL and, when found, the first
eight bytes of the URL are dropped.  The URL `a.example.com:8443/r?next=https://b` does not
start with the marker, and the host comes out as `e.com`. -/
theorem scheme_inside_url_strips_head :
    https_parse_url (some (str "a.example.com:8443/r?next=https://b")) =
      some (str "e.com", 8443, str "r?next=https://b") ∧
    https_parse_url (some (str "https://a.example.com:8443/r?next=https://b")) =
      some (str "a.example.com", 8443, str "r?next=https://b") := by
  decide

/-- C18 (code defect): a read that returns 0 bytes is not taken as the end of the stream but
counted as a failed attempt.  After one such read the bytes `abc` are still returned; after
three of them the result is -2, not 0. -/
theorem zero_byte_read_is_retried :
    https_read_socket [.data [], .data (str "abc")] = (3, str "abc", []) ∧
    https_read_socket [.data [], .data [], .data [], .data (str "abc")] =
      (-2, [], [.data (str "abc")]) ∧
    https_read_socket [.peer_close_notify, .data (str "abc")] = (0, [], [.data (str "abc")]) ∧
    https_read_socket [.conn_eof, .data (str "abc")] = (0, [], [.data (str "abc")]) := by
  decide

/-- C20 (code defect): when the parser stalls on a first read of fewer than 32 bytes, the 32
bytes it copies as carry bytes start before the receive buffer.  Here the read is
`"HTTP/1.1 200 OK\r\n"` (17 bytes): the copy starts at offset -15. -/
theorem short_first_read_carry_starts_before_buffer :
    https_parse_response true (fill_alloc [] 0 (str "HTTP/1.1 200 OK\r\n")) 17
        https_response_result_t.zero = .error (.buffer_read (-15)) ∧
    https_download (Env.serving [.data (str "HTTP/1.1 200 OK\r\n"),
        .data (str "Content-Length: 5\r\n\r\nhello")]) = .error (.buffer_read (-15)) := by
  decide

/-- C19 (code defect): when the URL is rejected (here a host of 256 bytes) or the receive
buffer cannot be allocated, control reaches `https_download_exit` before any
`mbedtls_*_init`, and the five `mbedtls_*_free` calls there are applied to contexts that were
never initialised.  On the paths that pass the initialisation, as the successful download of
`hello` with its header split over two reads, every acquisition is matched by one release. -/
theorem early_exit_frees_uninitialised_contexts :
    https_download_ops
        { Env.serving [] with url := some (List.replicate 256 97 ++ str "/x") } true =
      .ok [.release .server_fd, .release .ssl, .release .conf, .release .entropy,
        .release .ctr_drbg] ∧
    ¬ linear [.release .server_fd, .release .ssl, .release .conf, .release .entropy,
        .release .ctr_drbg] ∧
    https_download_ops { Env.serving [] with alloc_ok := false } true =
      .ok [.release .server_fd, .release .ssl, .release .conf, .release .entropy,
        .release .ctr_drbg] ∧
    (https_download_ops (Env.serving
        [.data (str "HTTP/1.1 200 OK\r\nServer: abcdefghijklmnopqrst\r\nContent-Length: 5\r\n"),
          .data (str "\r\nhello")]) true).map (fun ops => decide (linear ops)) = .ok true := by
  decide

/-- C21: when `https_parse_response`, entered in state 0, 1 or 3 on `len` scanned bytes with
zero bytes behind them, returns 4, `header_len` is the offset of the first CR LF CR LF of the
buffer plus 4 and is at most `len`; the length `idx - header_len` of the first body slice
does not wrap, the slice is the bytes of the buffer from `header_len` to `len`, and these are
the bytes the first write puts into the file when the device has room for them. -/
theorem headers_complete_first_slice (b : Bool) (data pad : List Nat)
    (r r' : https_response_result_t) (script : List SslRead)
    (hpad : ∀ x ∈ pad, x = 0)
    (hentry : r.parse_status = 0 ∨ r.parse_status = 1 ∨ r.parse_status = 3)
    (hlen : data.length < U32)
    (hret : https_parse_response b (data ++ pad) data.length r = .ok (4, r')) :
    ∃ t, term_at (data ++ pad) t ∧ (∀ j, j < t → ¬ term_at (data ++ pad) j) ∧
      r'.header_len = t + 4 ∧ r'.header_len ≤ data.length ∧
      writelen ⟨r', data.length, data ++ pad, script⟩ = data.length - r'.header_len ∧
      first_slice ⟨r', data.length, data ++ pad, script⟩ = data.drop r'.header_len ∧
      ∀ free, data.length - r'.header_len ≤ free →
        (initial_flush free ⟨r', data.length, data ++ pad, script⟩).2.file.content =
          data.drop r'.header_len := by
  obtain ⟨t, _, t2, t3, t4⟩ := parse_response_complete b _ _ r r' hentry hret
  have hterm := term_of_at_header_end t3
  have hin := term_at_inside data pad t hpad hterm
  have hU : U32 = 4294967296 := rfl
  have hw : writelen ⟨r', data.length, data ++ pad, script⟩ = data.length - r'.header_len := by
    unfold writelen
    simp only
    rw [show data.length + U32 - r'.header_len = (data.length - r'.header_len) + U32 by omega,
      Nat.add_mod_right, Nat.mod_eq_of_lt (by omega)]
  have hfs : first_slice ⟨r', data.length, data ++ pad, script⟩ = data.drop r'.header_len := by
    unfold first_slice
    rw [hw]
    simp only
    rw [List.drop_append_of_le_length (by omega)]
    exact List.take_left' (by simp)
  refine ⟨t, hterm, fun j hj => not_term_of_at_header_end (t4 j hj), t2, by omega, hw, hfs, ?_⟩
  intro free hfree
  unfold initial_flush
  rw [hw, hfs]
  by_cases hpos : data.length - r'.header_len > 0
  · rw [if_pos hpos]
    have hmin : min (data.drop r'.header_len).length free = (data.drop r'.header_len).length := by
      rw [List.length_drop]
      exact Nat.min_eq_left hfree
    simp only [sys_file_write, hmin, List.take_length, List.nil_append]
    split_ifs <;> rfl
  · rw [if_neg hpos]
    simp only
    symm
    apply List.drop_eq_nil_of_le
    omega

/-- Witness of C21: the response `"HTTP/1.1 200 OK\r\nContent-Length: 5\r\n\r\nhello"` read
into a buffer with four zero bytes behind it. -/
theorem headers_complete_first_slice_witness :
    ∃ t, term_at (str "HTTP/1.1 200 OK\r\nContent-Length: 5\r\n\r\nhello" ++ [0, 0, 0, 0]) t ∧
      (∀ j, j < t →
        ¬ term_at (str "HTTP/1.1 200 OK\r\nContent-Length: 5\r\n\r\nhello" ++ [0, 0, 0, 0]) j) ∧
      (⟨200, 38, some 38, 5, none, 4⟩ : https_response_result_t).header_len = t + 4 ∧
      (⟨200, 38, some 38, 5, none, 4⟩ : https_response_result_t).header_len ≤
        (str "HTTP/1.1 200 OK\r\nContent-Length: 5\r\n\r\nhello").length ∧
      writelen ⟨⟨200, 38, some 38, 5, none, 4⟩,
          (str "HTTP/1.1 200 OK\r\nContent-Length: 5\r\n\r\nhello").length,
          str "HTTP/1.1 200 OK\r\nContent-Length: 5\r\n\r\nhello" ++ [0, 0, 0, 0], []⟩ =
        (str "HTTP/1.1 200 OK\r\nContent-Length: 5\r\n\r\nhello").length -
          (⟨200, 38, some 38, 5, none, 4⟩ : https_response_result_t).header_len ∧
      first_slice ⟨⟨200, 38, some 38, 5, none, 4⟩,
          (str "HTTP/1.1 200 OK\r\nContent-Length: 5\r\n\r\nhello").length,
          str "HTTP/1.1 200 OK\r\nContent-Length: 5\r\n\r\nhello" ++ [0, 0, 0, 0], []⟩ =
        (str "HTTP/1.1 200 OK\r\nContent-Length: 5\r\n\r\nhello").drop
          (⟨200, 38, some 38, 5, none, 4⟩ : https_response_result_t).header_len ∧
      ∀ free, (str "HTTP/1.1 200 OK\r\nContent-Length: 5\r\n\r\nhello").length -
          (⟨200, 38, some 38, 5, none, 4⟩ : https_response_result_t).header_len ≤ free →
        (initial_flush free ⟨⟨200, 38, some 38, 5, none, 4⟩,
          (str "HTTP/1.1 200 OK\r\nContent-Length: 5\r\n\r\nhello").length,
          str "HTTP/1.1 200 OK\r\nContent-Length: 5\r\n\r\nhello" ++ [0, 0, 0, 0],
          []⟩).2.file.content =
          (str "HTTP/1.1 200 OK\r\nContent-Length: 5\r\n\r\nhello").drop
            (⟨200, 38, some 38, 5, none, 4⟩ : https_response_result_t).header_len :=
  headers_complete_first_slice true
    (str "HTTP/1.1 200 OK\r\nContent-Length: 5\r\n\r\nhello") [0, 0, 0, 0]
    https_response_result_t.zero ⟨200, 38, some 38, 5, none, 4⟩ []
    (by decide) (Or.inl rfl) (by decide) (by decide)

/-- C22 (code defect): the value of a Content-Length line is copied into `len_buf[12]`
whatever its length.  A value of 13 digits makes the copy write 13 bytes; a value of 12 digits
fills the buffer and leaves no terminating byte for `atoi`; a value of 11 digits fits. -/
theorem long_value_overflows_len_buf :
    https_parse_response true
        (fill_alloc [] 0 (str "HTTP/1.1 200 OK\r\nContent-Length: 1234567890123\r\n\r\nhello"))
        (str "HTTP/1.1 200 OK\r\nContent-Length: 1234567890123\r\n\r\nhello").length
        https_response_result_t.zero = .error (.len_buf_write 13) ∧
    https_parse_response true
        (fill_alloc [] 0 (str "HTTP/1.1 200 OK\r\nContent-Length: 123456789012\r\n\r\nhello"))
        (str "HTTP/1.1 200 OK\r\nContent-Length: 123456789012\r\n\r\nhello").length
        https_response_result_t.zero = .error .len_buf_read ∧
    (https_parse_response true
        (fill_alloc [] 0 (str "HTTP/1.1 200 OK\r\nContent-Length: 00000000005\r\n\r\nhello"))
        (str "HTTP/1.1 200 OK\r\nContent-Length: 00000000005\r\n\r\nhello").length
        https_response_result_t.zero).map (fun x => (x.1, x.2.body_len)) = .ok (4, 5) := by
  decide


/-- C6 (code defect): on a status other than 200 the parser returns -1 and the output file is
not created, but `https_download` sets no failure value: it returns what `mbedtls_ssl_write`
left in `ret`, here the 42 bytes of the request, for 404 and for 302 alike (the defect of
C1).  In the branch for 302 the receive block is moreover printed and searched as a C string:
after a read that fills its 512 bytes and holds no zero byte, these calls read past the
block. -/
theorem non_200_status_returns_request_length :
    (https_parse_response true (fill_alloc [] 0 (str "HTTP/1.1 404 Not Found\r\n\r\n"))
        (str "HTTP/1.1 404 Not Found\r\n\r\n").length https_response_result_t.zero).map
        Prod.fst = .ok (-1) ∧
    (https_download (Env.serving [.data (str "HTTP/1.1 404 Not Found\r\n\r\n")])).map
        (fun d => (d.ret, d.file)) = .ok (42, none) ∧
    (https_download (Env.serving
        [.data (str "HTTP/1.1 302 Found\r\nLocation: https://example.org/\r\n\r\n")])).map
        (fun d => (d.ret, d.file)) = .ok (42, none) ∧
    https_download (Env.serving
        [.data (str "HTTP/1.1 302 Found\r\n" ++ List.replicate 492 97)]) =
      .error (.buffer_read 512) := by
  decide

/-- C7 (code defect): a 200 response that declares `Content-Length: 0` and is followed by the
bytes `hello`, with a header `X-Content-Length: 5` before it.  Read in one chunk it is refused
with the declared length 0.  Read as 51, 9 and 19 bytes, the carry bytes of the first read
begin at `Content-Length: 5` inside the other header, the second pass takes this for the
Content-Length line, and the line that declares 0 arrives when only the header end is looked
for: the download returns 0 and writes `hello`. -/
theorem declared_zero_downloaded_when_split :
    (https_download (Env.serving
        [.data (str "HTTP/1.1 200 OK\r\nX-Content-Length: 5\r\nServer: abcde"),
         .data (str "\r\nContent"),
         .data (str "-Length: 0\r\n\r\nhello")])).map
        (fun d => (d.ret, d.body_len, d.file)) = .ok (0, 5, some (str "hello")) ∧
    (https_download (Env.serving
        [.data (str ("HTTP/1.1 200 OK\r\nX-Content-Length: 5\r\nServer: abcde" ++
          "\r\nContent-Length: 0\r\n\r\nhello"))])).map
        (fun d => (d.ret, d.body_len, d.file)) = .ok (42, 0, none) := by
  decide

/-- C9 (code defect): the test of the clamp adds in `uint32_t`.  With `body_len = 4294967295`
and `total_written = 4294966784` (the state after 8388607 reads of 512 bytes; the bytes
written before are left out of the file shown), 511 bytes remain; on a read of 512 bytes the
sum wraps to 0, the chunk is not cut, all 512 bytes are written and the counter becomes 0
(the defect of C2). -/
theorem clamp_misses_wrapped_sum :
    clamp 4294967295 4294966784 512 = 512 ∧
    stream_chunk 4294967295 ⟨⟨[], 1024⟩, 4294966784, 0, []⟩ (List.replicate 512 7) [] =
      (true, ⟨⟨List.replicate 512 7, 512⟩, 0, 0, []⟩) := by
  decide

/-- C16 (code defect): a 200 response without a Content-Length line, with a header
`X-Content-Length: 7`.  Read in one chunk it is refused at the empty line.  Read as 51 and 11
bytes, the carry bytes of the first read begin at `Content-Length: 7` inside the other
header, the second pass takes this for the Content-Length line and reaches the empty line
with a length: the download returns 0 with the declared length 7. -/
theorem missing_length_accepted_when_split :
    (https_download (Env.serving
        [.data (str "HTTP/1.1 200 OK\r\nX-Content-Length: 7\r\nServer: abcde"),
         .data (str "\r\n\r\nhello77")])).map
        (fun d => (d.ret, d.body_len, d.file)) = .ok (0, 7, some (str "hello77")) ∧
    (https_download (Env.serving
        [.data (str ("HTTP/1.1 200 OK\r\nX-Content-Length: 7\r\nServer: abcde" ++
          "\r\n\r\nhello77"))])).map
        (fun d => (d.ret, d.body_len, d.file)) = .ok (42, 0, none) := by
  decide

end HttpsDownload
